import Mathlib

/-!
# wavemon `iw_scan.c`: event-stream decoder and scan-entry assembler

A shallow embedding of `src/iw_scan.c`.

Modelling conventions
* The scan buffer is a `List Nat` of bytes; a pointer into it is its offset
  from the buffer start, so `stream.current = 0` is the buffer start and
  `stream.end_` is the offset one past the last valid byte.
* Multi-byte fields are host-endian in C; the embedding fixes little-endian
  and the LP64 layout of `struct iw_event` (`IW_EV_LCP_LEN = 8`,
  `IW_EV_POINT_OFF = 8`).
* `unsigned int` arithmetic is taken modulo `2 ^ 32`.
* Every function that reads the buffer also returns the list of the byte
  ranges `(offset, count)` it read, so that bounds properties can be stated.
-/

namespace Wavemon

/-! ## Constants of `<linux/wireless.h>` -/

/-- Size of the packed event header (`len`, `cmd`) in the stream. -/
def IW_EV_LCP_PK_LEN : Nat := 4
/-- Packed size of a `char [IFNAMSIZ]` event. -/
def IW_EV_CHAR_PK_LEN : Nat := IW_EV_LCP_PK_LEN + 16
/-- Packed size of a `__u32` event. -/
def IW_EV_UINT_PK_LEN : Nat := IW_EV_LCP_PK_LEN + 4
/-- Packed size of a `struct iw_freq` event. -/
def IW_EV_FREQ_PK_LEN : Nat := IW_EV_LCP_PK_LEN + 8
/-- Packed size of a `struct sockaddr` event. -/
def IW_EV_ADDR_PK_LEN : Nat := IW_EV_LCP_PK_LEN + 16
/-- Packed size of a `struct iw_param` event. -/
def IW_EV_PARAM_PK_LEN : Nat := IW_EV_LCP_PK_LEN + 8
/-- Packed size of a `struct iw_quality` event. -/
def IW_EV_QUAL_PK_LEN : Nat := IW_EV_LCP_PK_LEN + 4
/-- Offset of the union `u` inside `struct iw_event` (LP64). -/
def IW_EV_LCP_LEN : Nat := 8
/-- Offset of `length` inside `struct iw_point` (LP64: the pointer size). -/
def IW_EV_POINT_OFF : Nat := 8
/-- Size of `union iwreq_data`. -/
def IWREQ_DATA_LEN : Nat := 16

def SIOCIWFIRST : Nat := 0x8B00
def SIOCIWLAST : Nat := 0x8BFF
def IWEVFIRST : Nat := 0x8C00

def SIOCGIWFREQ : Nat := 0x8B05
def SIOCGIWMODE : Nat := 0x8B07
def SIOCGIWAP : Nat := 0x8B15
def SIOCGIWESSID : Nat := 0x8B1B
def SIOCGIWENCODE : Nat := 0x8B2B
def IWEVQUAL : Nat := 0x8C01
def IWEVGENIE : Nat := 0x8C05

def IW_ESSID_MAX_SIZE : Nat := 32
def IW_ENCODING_TOKEN_MAX : Nat := 64
def IW_GENERIC_IE_MAX : Nat := 1024
def IW_CUSTOM_MAX : Nat := 256
def IW_SCAN_MAX_DATA : Nat := 4096
def IW_MAX_SPY : Nat := 8
def IW_MAX_AP : Nat := 64
def IW_ENCODE_DISABLED : Nat := 0x8000
def IW_ENC_CAPA_WPA : Nat := 0x1
def IW_ENC_CAPA_WPA2 : Nat := 0x2

/-! ## Protocol metadata (lines 17-344) -/

def IW_HEADER_TYPE_NULL : Nat := 0
def IW_HEADER_TYPE_CHAR : Nat := 2
def IW_HEADER_TYPE_UINT : Nat := 4
def IW_HEADER_TYPE_FREQ : Nat := 5
def IW_HEADER_TYPE_ADDR : Nat := 6
def IW_HEADER_TYPE_POINT : Nat := 8
def IW_HEADER_TYPE_PARAM : Nat := 9
def IW_HEADER_TYPE_QUAL : Nat := 10

/-- The table `event_type_size[]`; the slots 1, 3 and 7 have no designated
initialiser and are zero. -/
def event_type_size : List Nat :=
  [ IW_EV_LCP_PK_LEN, 0, IW_EV_CHAR_PK_LEN, 0, IW_EV_UINT_PK_LEN,
    IW_EV_FREQ_PK_LEN, IW_EV_ADDR_PK_LEN, 0, IW_EV_LCP_PK_LEN + 4,
    IW_EV_PARAM_PK_LEN, IW_EV_QUAL_PK_LEN ]

def IW_DESCR_FLAG_NONE : Nat := 0x0000
def IW_DESCR_FLAG_DUMP : Nat := 0x0001
def IW_DESCR_FLAG_EVENT : Nat := 0x0002
def IW_DESCR_FLAG_RESTRICT : Nat := 0x0004
def IW_DESCR_FLAG_NOMAX : Nat := 0x0008
def IW_DESCR_FLAG_WAIT : Nat := 0x0100

/-- The record `struct iw_ioctl_description`. -/
structure iw_ioctl_description where
  header_type : Nat := 0
  token_type : Nat := 0
  token_size : Nat := 0
  min_tokens : Nat := 0
  max_tokens : Nat := 0
  flags : Nat := 0
deriving DecidableEq, Repr

/-- A descriptor of a fixed-shape request: only `header_type` and `flags`. -/
def descr_fixed (ht fl : Nat) : iw_ioctl_description :=
  { header_type := ht, flags := fl }

/-- A descriptor of an `iw_point` request. -/
def descr_point (ts mn mx fl : Nat) : iw_ioctl_description :=
  { header_type := IW_HEADER_TYPE_POINT, token_size := ts, min_tokens := mn,
    max_tokens := mx, flags := fl }

/-- The table `standard_ioctl_descr[]`, index `cmd - SIOCIWFIRST`, 55 slots
(the last designated one is `SIOCSIWPMKSA - SIOCIWFIRST = 0x36`).  The struct
sizes are those of `<linux/wireless.h>`: `sockaddr` 16, `iw_quality` 4,
`iw_thrspy` 28, `iw_mlme` 20, `iw_scan_req` 316, `iw_range` 568,
`iw_encode_ext` 40, `iw_pmksa` 36. -/
def standard_ioctl_descr : List iw_ioctl_description :=
  [ descr_fixed IW_HEADER_TYPE_NULL 0,                         -- 0x00 SIOCSIWCOMMIT
    descr_fixed IW_HEADER_TYPE_CHAR IW_DESCR_FLAG_DUMP,        -- 0x01 SIOCGIWNAME
    descr_fixed IW_HEADER_TYPE_PARAM IW_DESCR_FLAG_EVENT,      -- 0x02 SIOCSIWNWID
    descr_fixed IW_HEADER_TYPE_PARAM IW_DESCR_FLAG_DUMP,       -- 0x03 SIOCGIWNWID
    descr_fixed IW_HEADER_TYPE_FREQ IW_DESCR_FLAG_EVENT,       -- 0x04 SIOCSIWFREQ
    descr_fixed IW_HEADER_TYPE_FREQ IW_DESCR_FLAG_DUMP,        -- 0x05 SIOCGIWFREQ
    descr_fixed IW_HEADER_TYPE_UINT IW_DESCR_FLAG_EVENT,       -- 0x06 SIOCSIWMODE
    descr_fixed IW_HEADER_TYPE_UINT IW_DESCR_FLAG_DUMP,        -- 0x07 SIOCGIWMODE
    descr_fixed IW_HEADER_TYPE_PARAM 0,                        -- 0x08 SIOCSIWSENS
    descr_fixed IW_HEADER_TYPE_PARAM 0,                        -- 0x09 SIOCGIWSENS
    descr_fixed IW_HEADER_TYPE_NULL 0,                         -- 0x0A SIOCSIWRANGE
    descr_point 1 0 568 IW_DESCR_FLAG_DUMP,                    -- 0x0B SIOCGIWRANGE
    descr_fixed IW_HEADER_TYPE_NULL 0,                         -- 0x0C SIOCSIWPRIV
    descr_fixed IW_HEADER_TYPE_NULL 0,                         -- 0x0D SIOCGIWPRIV
    descr_fixed IW_HEADER_TYPE_NULL 0,                         -- 0x0E SIOCSIWSTATS
    descr_fixed IW_HEADER_TYPE_NULL IW_DESCR_FLAG_DUMP,        -- 0x0F SIOCGIWSTATS
    descr_point 16 0 IW_MAX_SPY 0,                             -- 0x10 SIOCSIWSPY
    descr_point (16 + 4) 0 IW_MAX_SPY 0,                       -- 0x11 SIOCGIWSPY
    descr_point 28 1 1 0,                                      -- 0x12 SIOCSIWTHRSPY
    descr_point 28 1 1 0,                                      -- 0x13 SIOCGIWTHRSPY
    descr_fixed IW_HEADER_TYPE_ADDR 0,                         -- 0x14 SIOCSIWAP
    descr_fixed IW_HEADER_TYPE_ADDR IW_DESCR_FLAG_DUMP,        -- 0x15 SIOCGIWAP
    descr_point 1 20 20 0,                                     -- 0x16 SIOCSIWMLME
    descr_point (16 + 4) 0 IW_MAX_AP IW_DESCR_FLAG_NOMAX,      -- 0x17 SIOCGIWAPLIST
    descr_point 1 0 316 0,                                     -- 0x18 SIOCSIWSCAN
    descr_point 1 0 IW_SCAN_MAX_DATA IW_DESCR_FLAG_NOMAX,      -- 0x19 SIOCGIWSCAN
    descr_point 1 0 (IW_ESSID_MAX_SIZE + 1) IW_DESCR_FLAG_EVENT, -- 0x1A SIOCSIWESSID
    descr_point 1 0 (IW_ESSID_MAX_SIZE + 1) IW_DESCR_FLAG_DUMP,  -- 0x1B SIOCGIWESSID
    descr_point 1 0 (IW_ESSID_MAX_SIZE + 1) 0,                 -- 0x1C SIOCSIWNICKN
    descr_point 1 0 (IW_ESSID_MAX_SIZE + 1) 0,                 -- 0x1D SIOCGIWNICKN
    descr_fixed IW_HEADER_TYPE_NULL 0,                         -- 0x1E (no initialiser)
    descr_fixed IW_HEADER_TYPE_NULL 0,                         -- 0x1F (no initialiser)
    descr_fixed IW_HEADER_TYPE_PARAM 0,                        -- 0x20 SIOCSIWRATE
    descr_fixed IW_HEADER_TYPE_PARAM 0,                        -- 0x21 SIOCGIWRATE
    descr_fixed IW_HEADER_TYPE_PARAM 0,                        -- 0x22 SIOCSIWRTS
    descr_fixed IW_HEADER_TYPE_PARAM 0,                        -- 0x23 SIOCGIWRTS
    descr_fixed IW_HEADER_TYPE_PARAM 0,                        -- 0x24 SIOCSIWFRAG
    descr_fixed IW_HEADER_TYPE_PARAM 0,                        -- 0x25 SIOCGIWFRAG
    descr_fixed IW_HEADER_TYPE_PARAM 0,                        -- 0x26 SIOCSIWTXPOW
    descr_fixed IW_HEADER_TYPE_PARAM 0,                        -- 0x27 SIOCGIWTXPOW
    descr_fixed IW_HEADER_TYPE_PARAM 0,                        -- 0x28 SIOCSIWRETRY
    descr_fixed IW_HEADER_TYPE_PARAM 0,                        -- 0x29 SIOCGIWRETRY
    descr_point 1 0 IW_ENCODING_TOKEN_MAX
      (IW_DESCR_FLAG_EVENT ||| IW_DESCR_FLAG_RESTRICT),        -- 0x2A SIOCSIWENCODE
    descr_point 1 0 IW_ENCODING_TOKEN_MAX
      (IW_DESCR_FLAG_DUMP ||| IW_DESCR_FLAG_RESTRICT),         -- 0x2B SIOCGIWENCODE
    descr_fixed IW_HEADER_TYPE_PARAM 0,                        -- 0x2C SIOCSIWPOWER
    descr_fixed IW_HEADER_TYPE_PARAM 0,                        -- 0x2D SIOCGIWPOWER
    descr_fixed IW_HEADER_TYPE_NULL 0,                         -- 0x2E (SIOCSIWMODUL not defined)
    descr_fixed IW_HEADER_TYPE_NULL 0,                         -- 0x2F (SIOCGIWMODUL not defined)
    descr_point 1 0 IW_GENERIC_IE_MAX 0,                       -- 0x30 SIOCSIWGENIE
    descr_point 1 0 IW_GENERIC_IE_MAX 0,                       -- 0x31 SIOCGIWGENIE
    descr_fixed IW_HEADER_TYPE_PARAM 0,                        -- 0x32 SIOCSIWAUTH
    descr_fixed IW_HEADER_TYPE_PARAM 0,                        -- 0x33 SIOCGIWAUTH
    descr_point 1 40 (40 + IW_ENCODING_TOKEN_MAX) 0,           -- 0x34 SIOCSIWENCODEEXT
    descr_point 1 40 (40 + IW_ENCODING_TOKEN_MAX) 0,           -- 0x35 SIOCGIWENCODEEXT
    descr_point 1 36 36 0 ]                                    -- 0x36 SIOCSIWPMKSA

/-- The table `standard_event_descr[]`, index `cmd - IWEVFIRST`, 10 slots.
Struct sizes: `iw_michaelmicfailure` 28, `iw_pmkid_cand` 24. -/
def standard_event_descr : List iw_ioctl_description :=
  [ descr_fixed IW_HEADER_TYPE_ADDR 0,                         -- 0 IWEVTXDROP
    descr_fixed IW_HEADER_TYPE_QUAL 0,                         -- 1 IWEVQUAL
    descr_point 1 0 IW_CUSTOM_MAX 0,                           -- 2 IWEVCUSTOM
    descr_fixed IW_HEADER_TYPE_ADDR 0,                         -- 3 IWEVREGISTERED
    descr_fixed IW_HEADER_TYPE_ADDR 0,                         -- 4 IWEVEXPIRED
    descr_point 1 0 IW_GENERIC_IE_MAX 0,                       -- 5 IWEVGENIE
    descr_point 1 0 28 0,                                      -- 6 IWEVMICHAELMICFAILURE
    descr_point 1 0 IW_GENERIC_IE_MAX 0,                       -- 7 IWEVASSOCREQIE
    descr_point 1 0 IW_GENERIC_IE_MAX 0,                       -- 8 IWEVASSOCRESPIE
    descr_point 1 0 24 0 ]                                     -- 9 IWEVPMKIDCAND

/-! ## Byte access -/

/-- One byte of the buffer; outside the list the model yields 0 (in C the
read is out of bounds, which the read trace records). -/
def rd (mem : List Nat) (off : Nat) : Nat := mem.getD off 0 % 256

/-- The `n` bytes at `off`, as `memcpy` reads them. -/
def read_bytes (mem : List Nat) (off : Nat) : Nat → List Nat
  | 0 => []
  | n + 1 => rd mem off :: read_bytes mem (off + 1) n

/-- Little-endian `__u16` at index `k` of a byte list. -/
def le16 (l : List Nat) (k : Nat) : Nat :=
  l.getD k 0 + 256 * l.getD (k + 1) 0

/-- Little-endian `__u32` at index `k` of a byte list. -/
def le32 (l : List Nat) (k : Nat) : Nat :=
  le16 l k + 65536 * le16 l (k + 2)

/-- Two's-complement reading of a `w`-bit pattern. -/
def to_signed (w : Nat) (x : Nat) : Int :=
  if x < 2 ^ (w - 1) then (x : Int) else (x : Int) - (2 : Int) ^ w

/-- The bytes `dst` after `memcpy (dst + k, src, src.length)`. -/
def memcpy_into (dst : List Nat) (k : Nat) (src : List Nat) : List Nat :=
  dst.take k ++ src ++ dst.drop (k + src.length)

/-! ## Stream cursor and decoded event (lines 346-350) -/

/-- The record `struct stream_descr`; `value = none` is the NULL pointer. -/
structure stream_descr where
  current : Nat
  value : Option Nat
  end_ : Nat
deriving DecidableEq, Repr

/-- The record `struct iw_event`: `len`, `cmd` and the bytes of the union
`u`.  The member `u.data.pointer` holds an address, so it is kept apart as
`pointer` (an offset into the buffer, `none` for NULL): the decoder assigns it
on every `iw_point` event before anything reads it.  The union has
`IWREQ_DATA_LEN` bytes and is the last member of the record; a `memcpy` that
runs past it makes the list `u` longer, so the bytes of `u` from index
`IWREQ_DATA_LEN` on are bytes written past the end of the record. -/
structure iw_event where
  len : Nat
  cmd : Nat
  u : List Nat
  pointer : Option Nat
deriving DecidableEq, Repr

/-- The member `u.data.length` (also `u.essid.length`). -/
def iw_event.data_length (iwe : iw_event) : Nat := le16 iwe.u IW_EV_POINT_OFF
/-- The member `u.data.flags` (also `u.essid.flags`). -/
def iw_event.data_flags (iwe : iw_event) : Nat := le16 iwe.u (IW_EV_POINT_OFF + 2)

/-- The decoder has written past the end of the caller's `struct iw_event`
(`IW_EV_LCP_LEN + IWREQ_DATA_LEN` bytes, a local variable of `get_scan_list`
next to `stream`, `new` and `f`): undefined behaviour in C.  The record is
handed to the decoder with a union of `IWREQ_DATA_LEN` bytes. -/
def iw_event.overrun (iwe : iw_event) : Prop := IWREQ_DATA_LEN < iwe.u.length

instance (iwe : iw_event) : Decidable iwe.overrun := by
  unfold iw_event.overrun; infer_instance

/-- What one call of the decoder leaves behind: the return value, the
cursor, the event and the byte ranges `(offset, count)` read from the
buffer, in program order. -/
structure extract_result where
  ret : Int
  stream : stream_descr
  iwe : iw_event
  reads : List (Nat × Nat)
deriving DecidableEq, Repr

/-- Descriptor lookup of lines 375-383; `cmd_index` is `unsigned`. -/
def lookup_descr (cmd : Nat) : Option iw_ioctl_description :=
  if cmd ≤ SIOCIWLAST then
    let cmd_index := (cmd + 2 ^ 32 - SIOCIWFIRST) % 2 ^ 32
    if cmd_index < standard_ioctl_descr.length then standard_ioctl_descr[cmd_index]? else none
  else
    let cmd_index := (cmd + 2 ^ 32 - IWEVFIRST) % 2 ^ 32
    if cmd_index < standard_event_descr.length then standard_event_descr[cmd_index]? else none

/-! ## The decoder `iw_extract_event_stream` (lines 355-521) -/

/-- The alignment fix-up of lines 440-472 for an `iw_point` event whose
descriptor is `d`.  `pointer` is the position just after the fixed part.
Returns the event, the effective `token_len` and the ranges read.  The
re-copy of line 462 writes `event_len` bytes at offset `IW_EV_POINT_OFF` of
the union: 4 bytes at a protocol version above 18, but 12 bytes at a version
of 18 or below, where it ends 4 bytes past the record (`iw_event.overrun`). -/
def point_fixup (mem : List Nat) (iwe : iw_event) (d : iw_ioctl_description)
    (event_len pointer extra_len token_len : Nat) : iw_event × Nat × List (Nat × Nat) :=
  if token_len ≠ extra_len ∧ extra_len ≥ 4 then
    let alt_dlen := rd mem pointer + 256 * rd mem (pointer + 1)
    let alt_token_len := (alt_dlen * d.token_size) % 2 ^ 32
    let reads := [(pointer, 1), (pointer + 1, 1)]
    if (alt_token_len + 8) % 2 ^ 32 = extra_len then
      let p1 := pointer - event_len + 4
      let iwe1 := { iwe with u := memcpy_into iwe.u IW_EV_POINT_OFF (read_bytes mem p1 event_len) }
      let p2 := p1 + (event_len + 4)
      (if alt_token_len ≠ 0 then { iwe1 with pointer := some p2 } else { iwe1 with pointer := none },
        alt_token_len, reads ++ [(p1, event_len)])
    else (iwe, token_len, reads)
  else (iwe, token_len, [])

/-- The checks of lines 474-486 that discard the payload pointer. -/
def point_discard (iwe : iw_event) (d : iw_ioctl_description)
    (extra_len token_len : Nat) : iw_event :=
  let iwe1 := if token_len > extra_len then { iwe with pointer := none } else iwe
  let iwe2 :=
    if iwe1.data_length > d.max_tokens ∧ d.flags &&& IW_DESCR_FLAG_NOMAX = 0
    then { iwe1 with pointer := none } else iwe1
  if iwe2.data_length < d.min_tokens then { iwe2 with pointer := none } else iwe2

/-- The `iw_point` branch, lines 422-493.  `pointer` is the position just
after the fixed part, `iwe` the event after the first copy. -/
def extract_point (mem : List Nat) (stream : stream_descr) (iwe : iw_event)
    (descr : Option iw_ioctl_description) (event_len pointer : Nat)
    (reads : List (Nat × Nat)) : extract_result :=
  let extra_len := (iwe.len + 2 ^ 32 - (event_len + IW_EV_LCP_PK_LEN)) % 2 ^ 32
  let stream1 := { stream with current := stream.current + iwe.len }
  if extra_len > 0 then
    let iwe1 := { iwe with pointer := some pointer }
    match descr with
    | none => ⟨1, stream1, { iwe1 with pointer := none }, reads⟩
    | some d =>
      let token_len := (iwe1.data_length * d.token_size) % 2 ^ 32
      let fx := point_fixup mem iwe1 d event_len pointer extra_len token_len
      ⟨1, stream1, point_discard fx.1 d extra_len fx.2.1, reads ++ fx.2.2⟩
  else ⟨1, stream1, { iwe with pointer := none }, reads⟩

/-- Lines 513-518: go to the next value of the event, or to the next event. -/
def fixed_advance (stream : stream_descr) (iwe : iw_event) (event_len pointer : Nat)
    (reads : List (Nat × Nat)) : extract_result :=
  if pointer + event_len ≤ stream.current + iwe.len then
    ⟨1, { stream with value := some pointer }, iwe, reads⟩
  else
    ⟨1, { stream with value := none, current := stream.current + iwe.len }, iwe, reads⟩

/-- The branch of the fixed-size shapes, lines 494-519.  `pointer` is the
position just after the first copy. -/
def extract_fixed (mem : List Nat) (stream : stream_descr) (iwe : iw_event)
    (event_type event_len pointer : Nat) (reads : List (Nat × Nat)) : extract_result :=
  if stream.value = none ∧
      ((iwe.len - IW_EV_LCP_PK_LEN) % event_len = 4 ∨
        (iwe.len = 12 ∧ (event_type = IW_HEADER_TYPE_UINT ∨ event_type = IW_HEADER_TYPE_QUAL)))
  then
    let p1 := pointer - event_len + 4
    let iwe1 := { iwe with u := memcpy_into iwe.u 0 (read_bytes mem p1 event_len) }
    fixed_advance stream iwe1 event_len (p1 + event_len) (reads ++ [(p1, event_len)])
  else fixed_advance stream iwe event_len pointer reads

/-- The function `iw_extract_event_stream`: extract the next event from the
event stream.  `iwe` is the caller's event record as the previous call left
it. -/
def iw_extract_event_stream (mem : List Nat) (stream : stream_descr) (iwe : iw_event)
    (we_version : Int) : extract_result :=
  if stream.current + IW_EV_LCP_PK_LEN > stream.end_ then ⟨0, stream, iwe, []⟩
  else
    let hdr := read_bytes mem stream.current IW_EV_LCP_PK_LEN
    let iwe0 := { iwe with len := le16 hdr 0, cmd := le16 hdr 2 }
    let reads := [(stream.current, IW_EV_LCP_PK_LEN)]
    if iwe0.len ≤ IW_EV_LCP_PK_LEN then ⟨-1, stream, iwe0, reads⟩
    else
      let descr := lookup_descr iwe0.cmd
      let event_type := match descr with
        | some d => d.header_type
        | none => 0
      let event_len0 := event_type_size.getD event_type 0
      if event_len0 ≤ IW_EV_LCP_PK_LEN then
        ⟨2, { stream with current := stream.current + iwe0.len }, iwe0, reads⟩
      else
        let event_len1 := event_len0 - IW_EV_LCP_PK_LEN
        let event_len :=
          if we_version ≤ 18 ∧ event_type = IW_HEADER_TYPE_POINT
          then event_len1 + IW_EV_POINT_OFF else event_len1
        let pointer := match stream.value with
          | some v => v
          | none => stream.current + IW_EV_LCP_PK_LEN
        if pointer + event_len > stream.end_ then
          ⟨-2, { stream with current := stream.current + iwe0.len }, iwe0, reads⟩
        else
          let dst := if we_version > 18 ∧ event_type = IW_HEADER_TYPE_POINT
            then IW_EV_POINT_OFF else 0
          let iwe1 := { iwe0 with u := memcpy_into iwe0.u dst (read_bytes mem pointer event_len) }
          let reads1 := reads ++ [(pointer, event_len)]
          let pointer1 := pointer + event_len
          if event_type = IW_HEADER_TYPE_POINT then
            extract_point mem stream iwe1 descr event_len pointer1 reads1
          else
            extract_fixed mem stream iwe1 event_type event_len pointer1 reads1

/-! ### The quantities that the decoder derives from the header at `current` -/

/-- The declared length field `iwe->len` of the event at offset `c`. -/
def hdr_len (mem : List Nat) (c : Nat) : Nat := rd mem c + 256 * rd mem (c + 1)
/-- The event id `iwe->cmd` of the event at offset `c`. -/
def hdr_cmd (mem : List Nat) (c : Nat) : Nat := rd mem (c + 2) + 256 * rd mem (c + 3)
/-- The `event_type` that the decoder derives for the event at `c` (line 386). -/
def hdr_type (mem : List Nat) (c : Nat) : Nat :=
  match lookup_descr (hdr_cmd mem c) with
  | some d => d.header_type
  | none => 0
/-- The entry of `event_type_size` for the event at `c` (line 387). -/
def hdr_size (mem : List Nat) (c : Nat) : Nat := event_type_size.getD (hdr_type mem c) 0
/-- The `event_len` of the decoder after lines 394-398. -/
def fixed_len (mem : List Nat) (c : Nat) (we_version : Int) : Nat :=
  if we_version ≤ 18 ∧ hdr_type mem c = IW_HEADER_TYPE_POINT
  then hdr_size mem c - IW_EV_LCP_PK_LEN + IW_EV_POINT_OFF else hdr_size mem c - IW_EV_LCP_PK_LEN
/-- The `pointer` of the decoder after lines 400-403. -/
def start_ptr (s : stream_descr) : Nat :=
  match s.value with
  | some v => v
  | none => s.current + IW_EV_LCP_PK_LEN
/-- The event record after the header copy of line 369. -/
def iwe_hdr (mem : List Nat) (c : Nat) (iwe : iw_event) : iw_event :=
  { iwe with len := hdr_len mem c, cmd := hdr_cmd mem c }
/-- The event record after the copy of lines 413-416. -/
def iwe_copied (mem : List Nat) (s : stream_descr) (iwe : iw_event) (we_version : Int) : iw_event :=
  { iwe_hdr mem s.current iwe with
    u := memcpy_into iwe.u
      (if we_version > 18 ∧ hdr_type mem s.current = IW_HEADER_TYPE_POINT then IW_EV_POINT_OFF else 0)
      (read_bytes mem (start_ptr s) (fixed_len mem s.current we_version)) }
/-- The position that the fixed-size branch has reached at line 513. -/
def next_value (mem : List Nat) (s : stream_descr) (we_version : Int) : Nat :=
  if s.value = none ∧
      ((hdr_len mem s.current - IW_EV_LCP_PK_LEN) % fixed_len mem s.current we_version = 4 ∨
        (hdr_len mem s.current = 12 ∧
          (hdr_type mem s.current = IW_HEADER_TYPE_UINT ∨ hdr_type mem s.current = IW_HEADER_TYPE_QUAL)))
  then start_ptr s + 4 + fixed_len mem s.current we_version
  else start_ptr s + fixed_len mem s.current we_version

/-- All byte ranges of a read trace lie before `end_`. -/
def reads_in_bounds (end_ : Nat) (reads : List (Nat × Nat)) : Prop :=
  ∀ r ∈ reads, r.1 + r.2 ≤ end_

instance (end_ : Nat) (reads : List (Nat × Nat)) : Decidable (reads_in_bounds end_ reads) := by
  unfold reads_in_bounds; infer_instance

/-- A fresh cursor over a buffer, as `get_scan_list` sets it up. -/
def fresh_stream (mem : List Nat) : stream_descr :=
  { current := 0, value := none, end_ := mem.length }

/-- The caller's `struct iw_event iwe` before the first call.  In C its
content is indeterminate; the decoder writes every member before the
assembler reads it. -/
def iwe_init : iw_event := { len := 0, cmd := 0, u := List.replicate IWREQ_DATA_LEN 0, pointer := none }

/-! ## Scan entries and the information-element classifier (lines 523-549) -/

/-- The record `struct iw_quality`. -/
structure iw_quality where
  qual : Nat
  level : Nat
  noise : Nat
  updated : Nat
deriving DecidableEq, Repr

/-- Modelled from the spec: the size of the member `essid` of
`struct scan_entry`, which is declared in `iw_if.h` (not part of the sources
at hand).  The ESSID is a "bounded-length text"; the bound is taken as
`IW_ESSID_MAX_SIZE + 2`, which holds the 33 bytes that the decoder lets
through for an ESSID payload. -/
def ESSID_BUF_LEN : Nat := IW_ESSID_MAX_SIZE + 2

/-- Modelled from the spec: `struct scan_entry` is declared in `iw_if.h`,
which is not part of the sources at hand.  The members are those that
`iw_scan.c` uses and the spec lists: BSSID (6 bytes), ESSID, operating mode,
frequency in Hz, derived channel, raw quality triple, has-key flag and
capability flags.  The `next` link is left out (a list of entries is a
`List scan_entry`), and so is the derived `dbm` member, which nothing here
reads. -/
structure scan_entry where
  ap_addr : List Nat
  essid : List Nat
  mode : Int
  freq : Int
  chan : Int
  qual : iw_quality
  has_key : Bool
  flags : Nat
deriving DecidableEq, Repr

/-- An entry as `calloc` returns it. -/
def scan_entry_zero : scan_entry :=
  { ap_addr := List.replicate 6 0, essid := List.replicate ESSID_BUF_LEN 0, mode := 0,
    freq := 0, chan := 0, qual := ⟨0, 0, 0, 0⟩, has_key := false, flags := 0 }

/-- Modelled from the spec: `freq_to_hz` is declared in `iw_if.h`, which is
not part of the sources at hand; the frequency report "converts to Hz", that
is mantissa times ten to the exponent.  Whole Hz are kept; the rounding of
the C `double` is not modelled. -/
def freq_to_hz (m e : Int) : Int :=
  if 0 ≤ e then m * 10 ^ e.toNat else m / 10 ^ (-e).toNat

/-- The loop of `iw_extract_ie` over a present payload starting at `buffer`:
`i` is the loop index, `flags` the entry flags, `reads` the payload offsets
read so far.  The first argument bounds the number of iterations. -/
def ie_loop (mem : List Nat) (buffer length : Nat) :
    Nat → Nat → Nat → List Nat → Nat × List Nat
  | 0, _, flags, reads => (flags, reads)
  | fuel + 1, i, flags, reads =>
    if i + 2 ≤ length then
      let ietype := rd mem (buffer + i)
      let ielen := rd mem (buffer + (i + 1))
      let reads1 := reads ++ [i, i + 1]
      if ietype = 0x30 then
        if ielen < 4 then ie_loop mem buffer length fuel (i + (ielen + 2)) flags reads1
        else ie_loop mem buffer length fuel (i + (ielen + 2)) (flags ||| IW_ENC_CAPA_WPA2) reads1
      else if ietype = 0xdd then
        if ielen < 8 then ie_loop mem buffer length fuel (i + (ielen + 2)) flags reads1
        else
          let reads2 := reads1 ++ [i + 2, i + 3, i + 4]
          if read_bytes mem (buffer + (i + 2)) 3 ≠ [0x00, 0x50, 0xf2] then
            ie_loop mem buffer length fuel (i + (ielen + 2)) flags reads2
          else if rd mem (buffer + (i + 5)) ≠ 1 then
            ie_loop mem buffer length fuel (i + (ielen + 2)) flags (reads2 ++ [i + 5])
          else
            ie_loop mem buffer length fuel (i + (ielen + 2)) (flags ||| IW_ENC_CAPA_WPA)
              (reads2 ++ [i + 5])
      else ie_loop mem buffer length fuel (i + (ielen + 2)) flags reads1
    else (flags, reads)

/-- The function `iw_extract_ie`.  The result is `none` when the loop body
runs on a NULL payload pointer (a NULL dereference in C); otherwise the
updated entry and the payload offsets read. -/
def iw_extract_ie (mem : List Nat) (iwe : iw_event) (sr : scan_entry) :
    Option (scan_entry × List Nat) :=
  match iwe.pointer with
  | none => if 2 ≤ iwe.data_length then none else some (sr, [])
  | some buffer =>
    let r := ie_loop mem buffer iwe.data_length iwe.data_length 0 sr.flags []
    some ({ sr with flags := r.1 }, r.2)

/-! ## The assembler loop of `get_scan_list` (lines 655-710) -/

/-- The body of the `while` loop for one decoded event: the `switch` on
`iwe.cmd`, on the candidate `new` and the mask `f`.  `none` is a NULL
dereference inside `iw_extract_ie`. -/
def scan_switch (mem : List Nat) (iwe : iw_event) (f : Nat) (new : scan_entry) :
    Option (Nat × scan_entry) :=
  if iwe.cmd = SIOCGIWAP then
    some (1, { new with ap_addr := (iwe.u.drop 2).take 6 })
  else if iwe.cmd = SIOCGIWESSID then
    let cleared := List.replicate ESSID_BUF_LEN 0
    let essid :=
      match iwe.pointer with
      | some p =>
        if iwe.data_flags ≠ 0 ∧ iwe.data_length ≠ 0
        then memcpy_into cleared 0 (read_bytes mem p iwe.data_length) else cleared
      | none => cleared
    some (f ||| 2, { new with essid := essid })
  else if iwe.cmd = SIOCGIWMODE then
    some (f ||| 4, { new with mode := to_signed 32 (le32 iwe.u 0) })
  else if iwe.cmd = SIOCGIWFREQ then
    some (f ||| 8,
      { new with freq := freq_to_hz (to_signed 32 (le32 iwe.u 0)) (to_signed 16 (le16 iwe.u 4)) })
  else if iwe.cmd = SIOCGIWENCODE then
    some (f ||| 16, { new with has_key := (iwe.data_flags &&& IW_ENCODE_DISABLED) = 0 })
  else if iwe.cmd = IWEVQUAL then
    some (f ||| 32,
      { new with qual := ⟨iwe.u.getD 0 0, iwe.u.getD 1 0, iwe.u.getD 2 0, iwe.u.getD 3 0⟩ })
  else if iwe.cmd = IWEVGENIE then
    match iw_extract_ie mem iwe new with
    | some r => some (f ||| 64, r.1)
    | none => none
  else some (f, new)

/-- The variables of the loop: cursor, event record, candidate entry
(`none` is NULL), mask, and the list built so far (`head`, appended at the
tail). -/
structure scan_state where
  stream : stream_descr
  iwe : iw_event
  new : Option scan_entry
  f : Nat
  head : List scan_entry
deriving DecidableEq, Repr

/-- One iteration of the loop body (lines 666-707) after a decoder call
`r` with a positive return value; a NULL candidate is first replaced by a
zeroed entry (`calloc`).  `none` is undefined behaviour: the decoder call
has written past the event record `iwe` of `get_scan_list` (only a call with
a positive return value can, `extract_overrun_only_legacy_point`), or the
`switch` runs into a NULL dereference. -/
def scan_body (mem : List Nat) (s : scan_state) (r : extract_result) : Option scan_state :=
  if r.iwe.overrun then none
  else
    let new := s.new.getD scan_entry_zero
    match scan_switch mem r.iwe s.f new with
    | none => none
    | some (f, new1) =>
      if f = 127 then
        some { stream := r.stream, iwe := r.iwe, new := none, f := 0, head := s.head ++ [new1] }
      else
        some { stream := r.stream, iwe := r.iwe, new := some new1, f := f, head := s.head }

/-- How the loop ends. -/
inductive scan_outcome where
  /-- the loop left normally; the list is what `get_scan_list` returns -/
  | done (head : List scan_entry)
  /-- undefined behaviour was reached: a decoder call wrote past the event
  record, or a NULL dereference inside `iw_extract_ie` -/
  | fault
  /-- the iteration bound of the model was reached -/
  | out_of_fuel
deriving DecidableEq, Repr

/-- The `while` loop of line 665, with an iteration bound. -/
def scan_loop (mem : List Nat) (we_version : Int) : Nat → scan_state → scan_outcome
  | 0, _ => .out_of_fuel
  | fuel + 1, s =>
    let r := iw_extract_event_stream mem s.stream s.iwe we_version
    if r.ret > 0 then
      match scan_body mem s r with
      | none => .fault
      | some s1 => scan_loop mem we_version fuel s1
    else .done s.head

/-- The loop variables before the first iteration. -/
def scan_init (mem : List Nat) : scan_state :=
  { stream := fresh_stream mem, iwe := iwe_init, new := none, f := 0, head := [] }

/-- The decoding part of `get_scan_list` (lines 655-713) on the bytes that the
driver returned (`wrq.u.data.length = mem.length`).  The iteration bound
`mem.length + 1` is never reached (`scan_loop_total`). -/
def get_scan_list (mem : List Nat) (we_version : Int) : scan_outcome :=
  if mem.length = 0 then .done []
  else scan_loop mem we_version (mem.length + 1) (scan_init mem)

/-! ### The loop observed: iterations, decoder results, cursor invariant -/

/-- The state after exactly `k` iterations of the loop, `none` when the loop
has ended before (an outcome `≤ 0`, or a fault). -/
def scan_iter (mem : List Nat) (we_version : Int) : Nat → scan_state → Option scan_state
  | 0, s => some s
  | k + 1, s =>
    let r := iw_extract_event_stream mem s.stream s.iwe we_version
    if r.ret > 0 then
      match scan_body mem s r with
      | none => none
      | some s1 => scan_iter mem we_version k s1
    else none

/-- The decoder results that the loop sees, in order, the last one
included. -/
def scan_trace (mem : List Nat) (we_version : Int) : Nat → scan_state → List extract_result
  | 0, _ => []
  | fuel + 1, s =>
    let r := iw_extract_event_stream mem s.stream s.iwe we_version
    if r.ret > 0 then
      match scan_body mem s r with
      | none => [r]
      | some s1 => r :: scan_trace mem we_version fuel s1
    else [r]

/-- The decoder results of a whole run of `get_scan_list`. -/
def decoder_results (mem : List Nat) (we_version : Int) : List extract_result :=
  scan_trace mem we_version (mem.length + 1) (scan_init mem)

/-- The event ids that the loop body of `get_scan_list` sees: those of the
decoder calls with a positive return value. -/
def decoded_cmds (mem : List Nat) (we_version : Int) : List Nat :=
  ((decoder_results mem we_version).filter (fun r => decide (r.ret > 0))).map (fun r => r.iwe.cmd)

/-- The cursor invariant of a run: when `value` is set, the event at
`current` is a fixed-size one and `value` lies within its declared bytes. -/
def stream_inv (mem : List Nat) (we_version : Int) (s : stream_descr) : Prop :=
  match s.value with
  | none => True
  | some v =>
    s.current + 4 ≤ s.end_ ∧ 4 < hdr_len mem s.current ∧ 4 < hdr_size mem s.current ∧
    hdr_type mem s.current ≠ IW_HEADER_TYPE_POINT ∧ s.current + 4 < v ∧
    v + fixed_len mem s.current we_version ≤ s.current + hdr_len mem s.current

/-! ## Concrete buffers and auxiliary notions of the claims -/

/-- A mode report (`__u32` shape) that declares length 12, in a buffer that
ends after 8 bytes. -/
def buf_uint_cut : List Nat := [12, 0, 0x07, 0x8b, 2, 0, 0, 0]
/-- An ESSID report (`iw_point` shape) that declares length 12, in a buffer
that ends after 8 bytes. -/
def buf_point_cut : List Nat := [12, 0, 0x1b, 0x8b, 0, 0, 0, 0]
/-- An address report that declares length 8, followed by 12 further bytes:
every declared length stays inside the 20-byte buffer. -/
def buf_addr_short : List Nat := [8, 0, 0x15, 0x8b, 0, 0, 0, 0, 0, 0, 0, 0, 0, 0, 0, 0, 0, 0, 0, 0]
/-- An ESSID report that declares length 18 and token count 0, in a buffer
that ends after 10 bytes: the alternate length at bytes 8-9 is 2, and
2 + 8 equals the 10 extra bytes declared, so the 64-bit consistency test
holds. -/
def buf_point_refit : List Nat := [18, 0, 0x1b, 0x8b, 0, 0, 0, 0, 2, 0]
/-- A well-formed ESSID report "TestNet" for a protocol version above 18:
header, length 7, flags 1, seven payload bytes. -/
def buf_essid : List Nat := [15, 0, 0x1b, 0x8b, 7, 0, 1, 0, 84, 101, 115, 116, 78, 101, 116]

/-- The end of the payload range `[pointer, pointer + length × token_size)`
that a returned `iw_point` event hands to the caller, when the payload pointer
is present and the event has a descriptor. -/
def payload_end (r : extract_result) : Option Nat :=
  match r.iwe.pointer, lookup_descr r.iwe.cmd with
  | some p, some d => some (p + r.iwe.data_length * d.token_size)
  | _, _ => none

/-- The buffer of the concrete scenario, for a protocol version above 18:
address AA:BB:CC:DD:EE:FF, ESSID "TestNet" (flags 1), mode 2 (managed),
frequency 2437e6, encryption (flags 0x0800, disabled flag clear), quality
(70, level 60), and an information-element payload made of one element with
tag 0x30 and inner length 18. -/
def buf_scenario : List Nat :=
  [20, 0, 0x15, 0x8b, 1, 0, 0xAA, 0xBB, 0xCC, 0xDD, 0xEE, 0xFF, 0, 0, 0, 0, 0, 0, 0, 0] ++
  [15, 0, 0x1b, 0x8b, 7, 0, 1, 0, 84, 101, 115, 116, 78, 101, 116] ++
  [8, 0, 0x07, 0x8b, 2, 0, 0, 0] ++
  [12, 0, 0x05, 0x8b, 0x85, 0x09, 0, 0, 6, 0, 0, 0] ++
  [8, 0, 0x2b, 0x8b, 0, 0, 0, 0x08] ++
  [8, 0, 0x01, 0x8c, 70, 60, 0, 0] ++
  [28, 0, 0x05, 0x8c, 20, 0, 0, 0,
    0x30, 18, 1, 0, 0, 0x0f, 0xac, 4, 1, 0, 0, 0x0f, 0xac, 4, 1, 0, 0, 0x0f, 0xac, 2]

/-- The entry that the scenario describes. -/
def entry_scenario : scan_entry :=
  { ap_addr := [0xAA, 0xBB, 0xCC, 0xDD, 0xEE, 0xFF],
    essid := [84, 101, 115, 116, 78, 101, 116] ++ List.replicate 27 0,
    mode := 2, freq := 2437000000, chan := 0, qual := ⟨70, 60, 0, 0⟩,
    has_key := true, flags := IW_ENC_CAPA_WPA2 }

/-- The seven event ids of the completion mask, bit 0 to bit 6. -/
def seven_kinds : List Nat :=
  [SIOCGIWAP, SIOCGIWESSID, SIOCGIWMODE, SIOCGIWFREQ, SIOCGIWENCODE, IWEVQUAL, IWEVGENIE]

/-- The event ids of the decoder results with a positive return value. -/
def cmds_of (tr : List extract_result) : List Nat :=
  (tr.filter (fun r => decide (r.ret > 0))).map (fun r => r.iwe.cmd)

/-- Every bit set in the mask `f` stands for an event id seen in `cur`. -/
def mask_inv (f : Nat) (cur : List Nat) : Prop :=
  ∀ i, i < 7 → f.testBit i = true → seven_kinds.getD i 0 ∈ cur

/-- A buffer with the six other kinds but no information-element event. -/
def buf_no_genie : List Nat := buf_scenario.take 71

/-- An 8-byte SIOCSIWCOMMIT event (header-only shape, outcome 2) followed by
the scenario buffer. -/
def buf_skip_first : List Nat := [8, 0, 0x00, 0x8b, 0, 0, 0, 0] ++ buf_scenario

/-- The first six events of the scenario, then an IWEVTXDROP event (address
shape) that declares only length 8, then a 10-byte information-element
event; the buffer ends 18 bytes after the start of the IWEVTXDROP event. -/
def buf_truncated_mid : List Nat :=
  buf_no_genie ++ [8, 0, 0x00, 0x8c, 0, 0, 0, 0] ++ [10, 0, 0x05, 0x8c, 2, 0, 0, 0, 0x30, 0]

/-- The loop state after `k` iterations with the cursor and event record
replaced by those that the next decoder call leaves: the state from which
decoding would go on if that call's outcome were not looked at. -/
def state_past_next (mem : List Nat) (we_version : Int) (k : Nat) : Option scan_state :=
  (scan_iter mem we_version k (scan_init mem)).map fun s =>
    { s with stream := (iw_extract_event_stream mem s.stream s.iwe we_version).stream,
             iwe := (iw_extract_event_stream mem s.stream s.iwe we_version).iwe }

/-! ## Well-formed events on the wire (for the round trip) -/

/-- The two bytes of a `__u16`, little-endian. -/
def le16_bytes (x : Nat) : List Nat := [x % 256, x / 256 % 256]

/-- The four bytes of a `__u32`, little-endian. -/
def le32_bytes (x : Nat) : List Nat :=
  [x % 256, x / 256 % 256, x / 65536 % 256, x / 16777216 % 256]

/-- The packed event header: `len` then `cmd`. -/
def ev_header (len cmd : Nat) : List Nat := le16_bytes len ++ le16_bytes cmd

/-- The fixed part of an `iw_point` event in the stream: up to protocol
version 18 the pointer member (`IW_EV_POINT_OFF` bytes) travels along, then
`length` and `flags`. -/
def point_fixed (we_version : Int) (length flags : Nat) : List Nat :=
  (if we_version ≤ 18 then List.replicate IW_EV_POINT_OFF 0 else []) ++
    (le16_bytes length ++ le16_bytes flags)

/-- A well-formed `iw_point` event: header, fixed part, payload; the declared
length is the byte count of the whole event and `length` the byte count of the
payload (token size 1). -/
def point_event (we_version : Int) (cmd flags : Nat) (payload : List Nat) : List Nat :=
  ev_header (IW_EV_LCP_PK_LEN + (point_fixed we_version payload.length flags).length +
      payload.length) cmd ++
    (point_fixed we_version payload.length flags ++ payload)

/-- One tag-length-value element of an information-element payload. -/
structure ie_element where
  tag : Nat
  body : List Nat
deriving DecidableEq, Repr

/-- The bytes of a tag-length-value sequence. -/
def ie_bytes : List ie_element → List Nat
  | [] => []
  | e :: rest => e.tag :: e.body.length :: (e.body ++ ie_bytes rest)

/-- The values that the seven events of one access point carry. -/
structure ap_report where
  bssid : List Nat
  essid : List Nat
  essid_flags : Nat
  mode : Nat
  freq_m : Nat
  freq_e : Nat
  enc_flags : Nat
  enc_key : List Nat
  qual : iw_quality
  ies : List ie_element
deriving DecidableEq, Repr

/-- All members of a list are bytes. -/
def bytes_ok (l : List Nat) : Prop := ∀ b ∈ l, b < 256

/-- The values fit their wire fields: a 6-byte address; an ESSID of at most
`IW_ESSID_MAX_SIZE` bytes with a non-zero 16-bit flags word (present); mode,
mantissa and exponent non-negative in their signed fields; a 16-bit encryption
flags word and a key of at most `IW_ENCODING_TOKEN_MAX` bytes; quality bytes;
and information elements whose tag and inner length are bytes, with at most
`IW_GENERIC_IE_MAX` payload bytes in all. -/
def ap_report.wf (a : ap_report) : Prop :=
  (a.bssid.length = 6 ∧ bytes_ok a.bssid) ∧
  (a.essid.length ≤ IW_ESSID_MAX_SIZE ∧ bytes_ok a.essid ∧
    0 < a.essid_flags ∧ a.essid_flags < 65536) ∧
  a.mode < 2 ^ 31 ∧ (a.freq_m < 2 ^ 31 ∧ a.freq_e < 2 ^ 15) ∧
  (a.enc_flags < 65536 ∧ a.enc_key.length ≤ IW_ENCODING_TOKEN_MAX ∧ bytes_ok a.enc_key) ∧
  (a.qual.qual < 256 ∧ a.qual.level < 256 ∧ a.qual.noise < 256 ∧ a.qual.updated < 256) ∧
  ((ie_bytes a.ies).length ≤ IW_GENERIC_IE_MAX ∧
    ∀ e ∈ a.ies, e.tag < 256 ∧ e.body.length < 256 ∧ bytes_ok e.body)

/-- The seven kinds of events of the completion mask. -/
inductive report_kind where
  | addr | essid | mode | freq | encode | qual | genie
deriving DecidableEq, Repr

/-- The well-formed event of one kind for the values `a`. -/
def encode_kind (we_version : Int) (a : ap_report) : report_kind → List Nat
  | .addr => ev_header IW_EV_ADDR_PK_LEN SIOCGIWAP ++ ([1, 0] ++ a.bssid ++ List.replicate 8 0)
  | .essid => point_event we_version SIOCGIWESSID a.essid_flags a.essid
  | .mode => ev_header IW_EV_UINT_PK_LEN SIOCGIWMODE ++ le32_bytes a.mode
  | .freq => ev_header IW_EV_FREQ_PK_LEN SIOCGIWFREQ ++
      (le32_bytes a.freq_m ++ le16_bytes a.freq_e ++ [0, 0])
  | .encode => point_event we_version SIOCGIWENCODE a.enc_flags a.enc_key
  | .qual => ev_header IW_EV_QUAL_PK_LEN IWEVQUAL ++
      [a.qual.qual, a.qual.level, a.qual.noise, a.qual.updated]
  | .genie => point_event we_version IWEVGENIE 0 (ie_bytes a.ies)

/-- A buffer made of exactly the events of the kinds in `order`. -/
def encode_events (we_version : Int) (a : ap_report) : List report_kind → List Nat
  | [] => []
  | k :: rest => encode_kind we_version a k ++ encode_events we_version a rest

/-- The six kinds other than the address report. -/
def six_kinds : List report_kind := [.essid, .mode, .freq, .encode, .qual, .genie]

/-- The capability flags that a sequence of information elements carries:
WPA2 for an element with tag 0x30 and inner length at least 4, WPA for an
element with tag 0xdd, inner length at least 8 and first payload bytes
00 50 F2 01. -/
def ie_caps (ies : List ie_element) : Nat :=
  (if ies.any (fun e => decide (e.tag = 0x30 ∧ 4 ≤ e.body.length)) then IW_ENC_CAPA_WPA2 else 0) |||
  (if ies.any (fun e => decide (e.tag = 0xdd ∧ 8 ≤ e.body.length ∧
      e.body.take 4 = [0x00, 0x50, 0xf2, 0x01])) then IW_ENC_CAPA_WPA else 0)

/-- The entry whose fields equal the values carried by the events. -/
def expected_entry (a : ap_report) : scan_entry :=
  { ap_addr := a.bssid,
    essid := a.essid ++ List.replicate (ESSID_BUF_LEN - a.essid.length) 0,
    mode := a.mode,
    freq := freq_to_hz a.freq_m a.freq_e,
    chan := 0,
    qual := a.qual,
    has_key := decide (a.enc_flags &&& IW_ENCODE_DISABLED = 0),
    flags := ie_caps a.ies }

/-- The values of the concrete scenario. -/
def report_scenario : ap_report :=
  { bssid := [0xAA, 0xBB, 0xCC, 0xDD, 0xEE, 0xFF],
    essid := [84, 101, 115, 116, 78, 101, 116], essid_flags := 1,
    mode := 2, freq_m := 2437, freq_e := 6, enc_flags := 0x0800, enc_key := [],
    qual := ⟨70, 60, 0, 0⟩,
    ies := [⟨0x30, [1, 0, 0, 0x0f, 0xac, 4, 1, 0, 0, 0x0f, 0xac, 4, 1, 0, 0, 0x0f, 0xac, 2]⟩] }

/-- The mask after the `switch` case of one kind. -/
def kind_mask (k : report_kind) (f : Nat) : Nat :=
  match k with
  | .addr => 1
  | .essid => f ||| 2
  | .mode => f ||| 4
  | .freq => f ||| 8
  | .encode => f ||| 16
  | .qual => f ||| 32
  | .genie => f ||| 64

/-- The candidate after the event of one kind has delivered its value. -/
def kind_update (a : ap_report) (k : report_kind) (e : scan_entry) : scan_entry :=
  match k with
  | .addr => { e with ap_addr := a.bssid }
  | .essid => { e with essid := a.essid ++ List.replicate (ESSID_BUF_LEN - a.essid.length) 0 }
  | .mode => { e with mode := a.mode }
  | .freq => { e with freq := freq_to_hz a.freq_m a.freq_e }
  | .encode => { e with has_key := decide (a.enc_flags &&& IW_ENCODE_DISABLED = 0) }
  | .qual => { e with qual := a.qual }
  | .genie => { e with flags := e.flags ||| ie_caps a.ies }

/-- The cursor at offset `c` of a buffer, between two events. -/
def stream_at (mem : List Nat) (c : Nat) : stream_descr :=
  { current := c, value := none, end_ := mem.length }

/-- One loop iteration seen from the assembler: the decoder call at offset
`c` with `value` unset returns an Event, leaves the cursor at `c1` with
`value` unset and the union of the event record at its full size, and the
`switch` turns mask `f` and candidate `new` into `f1` and `new1`. -/
def decodes_as (mem : List Nat) (we_version : Int) (c c1 : Nat) (iwe : iw_event)
    (f : Nat) (new : scan_entry) (f1 : Nat) (new1 : scan_entry) : Prop :=
  (iw_extract_event_stream mem (stream_at mem c) iwe we_version).ret = 1 ∧
  (iw_extract_event_stream mem (stream_at mem c) iwe we_version).stream = stream_at mem c1 ∧
  (iw_extract_event_stream mem (stream_at mem c) iwe we_version).iwe.u.length = IWREQ_DATA_LEN ∧
  scan_switch mem (iw_extract_event_stream mem (stream_at mem c) iwe we_version).iwe f new =
    some (f1, new1)

instance (l : List Nat) : Decidable (bytes_ok l) := by
  unfold bytes_ok; infer_instance

instance (a : ap_report) : Decidable a.wf := by
  unfold ap_report.wf; infer_instance

/-- The loop variables `f`, `new` and `head` after the loop body has handled
a well-formed event of kind `k`. -/
def abs_step (a : ap_report) (st : Nat × Option scan_entry × List scan_entry)
    (k : report_kind) : Nat × Option scan_entry × List scan_entry :=
  if kind_mask k st.1 = 127
  then (0, none, st.2.2 ++ [kind_update a k (st.2.1.getD scan_entry_zero)])
  else (kind_mask k st.1, some (kind_update a k (st.2.1.getD scan_entry_zero)), st.2.2)

/-- The mask after an address report and then events of the kinds `l`. -/
def mask_of (l : List report_kind) : Nat := l.foldl (fun f k => kind_mask k f) 1

/-! ## The classifier by the words of the specification -/

/-- The tag byte of the element at payload offset `i`. -/
def ie_tag (mem : List Nat) (buffer i : Nat) : Nat := rd mem (buffer + i)

/-- The inner length byte of the element at payload offset `i`. -/
def ie_len (mem : List Nat) (buffer i : Nat) : Nat := rd mem (buffer + (i + 1))

/-- Reference definition, by the words of the specification: the elements
visited in a payload of declared total length `L`, starting at offset `s`.
The element at `s` is visited while `s ≤ L - 2` (written `s + 2 ≤ L`, so that
nothing is visited when `L < 2`), and the walk moves on by 2 + the inner
length of the element.  `ie_visited mem buffer L 0 j` says that the walk from
offset 0 visits the element at offset `j`. -/
inductive ie_visited (mem : List Nat) (buffer L : Nat) : Nat → Nat → Prop
  | here (s : Nat) : s + 2 ≤ L → ie_visited mem buffer L s s
  | later (s j : Nat) : s + 2 ≤ L →
      ie_visited mem buffer L (s + (2 + ie_len mem buffer s)) j → ie_visited mem buffer L s j

/-- Reference definition: the element at offset `i` marks WPA2 (tag 0x30,
inner length at least 4). -/
def ie_marks_wpa2 (mem : List Nat) (buffer i : Nat) : Prop :=
  ie_tag mem buffer i = 0x30 ∧ 4 ≤ ie_len mem buffer i

/-- Reference definition: the element at offset `i` marks WPA (tag 0xdd,
inner length at least 8, payload bytes 00 50 F2 then 1). -/
def ie_marks_wpa (mem : List Nat) (buffer i : Nat) : Prop :=
  ie_tag mem buffer i = 0xdd ∧ 8 ≤ ie_len mem buffer i ∧
    rd mem (buffer + (i + 2)) = 0x00 ∧ rd mem (buffer + (i + 3)) = 0x50 ∧
    rd mem (buffer + (i + 4)) = 0xf2 ∧ rd mem (buffer + (i + 5)) = 1

/-- A payload of two elements: tag 0x30 with inner length 4, then tag 0xdd
with inner length 8 and the WPA vendor prefix. -/
def buf_ie_example : List Nat :=
  [0x30, 4, 1, 0, 0, 0x0f, 0xdd, 8, 0x00, 0x50, 0xf2, 1, 1, 0, 0, 0]

/-- An information-element event as the decoder hands it over: payload at
offset 0, declared length 16. -/
def iwe_ie_example : iw_event :=
  { len := 24, cmd := IWEVGENIE, u := [0, 0, 0, 0, 0, 0, 0, 0, 16, 0, 0, 0, 0, 0, 0, 0],
    pointer := some 0 }

/-- The capability bit `bit` is set in `flags`. -/
def flag_set (flags bit : Nat) : Prop := flags &&& bit ≠ 0

instance (flags bit : Nat) : Decidable (flag_set flags bit) := by
  unfold flag_set; infer_instance

/-- What the classifier loop has done to the flags when it is entered at
index `i` with enough iterations left. -/
def ie_loop_spec (mem : List Nat) (buffer L i flags out : Nat) : Prop :=
  (out.testBit 1 = true ↔
    flags.testBit 1 = true ∨ ∃ j, ie_visited mem buffer L i j ∧ ie_marks_wpa2 mem buffer j) ∧
  (out.testBit 0 = true ↔
    flags.testBit 0 = true ∨ ∃ j, ie_visited mem buffer L i j ∧ ie_marks_wpa mem buffer j) ∧
  ∀ k, 2 ≤ k → out.testBit k = flags.testBit k

/-! ## Ranking: the comparators and `sort_scan_list` (lines 552-734) -/

/-- The C library function `strncmp` on byte strings held in lists: at most
`n` bytes are compared and the comparison stops after a NUL.  Only the sign
of the result is specified; the model returns the difference of the first
two bytes that differ.  A byte past the end of a list reads as NUL. -/
def strncmp : List Nat → List Nat → Nat → Int
  | _, _, 0 => 0
  | a, b, n + 1 =>
    if a.headD 0 ≠ b.headD 0 then (a.headD 0 : Int) - (b.headD 0 : Int)
    else if a.headD 0 = 0 then 0
    else strncmp a.tail b.tail n

/-- Order by frequency. -/
def cmp_freq (a b : scan_entry) : Bool := decide (a.freq < b.freq)

/-- Order by signal strength. -/
def cmp_sig (a b : scan_entry) : Bool := decide (a.qual.level < b.qual.level)

/-- Order by ESSID, organize entries with same ESSID by frequency and signal. -/
def cmp_essid (a b : scan_entry) : Bool :=
  let res := strncmp a.essid b.essid IW_ESSID_MAX_SIZE
  if res = 0 then (if a.freq = b.freq then cmp_sig a b else cmp_freq a b) else decide (res < 0)

/-- Order by frequency, grouping channels by ESSID. -/
def cmp_chan (a b : scan_entry) : Bool :=
  if a.freq = b.freq then cmp_essid a b else cmp_freq a b

/-- Order by frequency first, then by signal strength. -/
def cmp_chan_sig (a b : scan_entry) : Bool :=
  if a.freq = b.freq then cmp_sig a b else cmp_chan a b

/-- Order by openness (open access points first).  The member `has_key` is
modelled from the spec as a truth value, with `false < true`. -/
def cmp_open (a b : scan_entry) : Bool := decide (a.has_key < b.has_key)

/-- Sort (open) access points by signal strength. -/
def cmp_open_sig (a b : scan_entry) : Bool :=
  if a.has_key = b.has_key then cmp_sig a b else cmp_open a b

/-- Modelled from the spec: the six named orders, which index the table
`scan_cmp[]`; the enumeration is declared in `wavemon.h`, which is not part
of the sources at hand. -/
inductive scan_sort_order where
  | SO_CHAN
  | SO_SIGNAL
  | SO_ESSID
  | SO_OPEN
  | SO_CHAN_SIG
  | SO_OPEN_SIG
deriving DecidableEq, Repr

/-- The table `scan_cmp[]`. -/
def scan_cmp : scan_sort_order → scan_entry → scan_entry → Bool
  | .SO_CHAN => cmp_chan
  | .SO_SIGNAL => cmp_sig
  | .SO_ESSID => cmp_essid
  | .SO_OPEN => cmp_open
  | .SO_CHAN_SIG => cmp_chan_sig
  | .SO_OPEN_SIG => cmp_open_sig

/-- The two entries agree on every key that the order compares. -/
def same_keys : scan_sort_order → scan_entry → scan_entry → Prop
  | .SO_CHAN, a, b =>
    a.freq = b.freq ∧ strncmp a.essid b.essid IW_ESSID_MAX_SIZE = 0 ∧ a.qual.level = b.qual.level
  | .SO_SIGNAL, a, b => a.qual.level = b.qual.level
  | .SO_ESSID, a, b =>
    strncmp a.essid b.essid IW_ESSID_MAX_SIZE = 0 ∧ a.freq = b.freq ∧ a.qual.level = b.qual.level
  | .SO_OPEN, a, b => a.has_key = b.has_key
  | .SO_CHAN_SIG, a, b => a.freq = b.freq ∧ a.qual.level = b.qual.level
  | .SO_OPEN_SIG, a, b => a.has_key = b.has_key ∧ a.qual.level = b.qual.level

instance (o : scan_sort_order) (a b : scan_entry) : Decidable (same_keys o a b) := by
  cases o <;> unfold same_keys <;> infer_instance

/-- The order of `scan_cmp o` spelled out on the keys. -/
def scan_lt : scan_sort_order → scan_entry → scan_entry → Prop
  | .SO_CHAN, a, b =>
    a.freq < b.freq ∨ (a.freq = b.freq ∧
      (strncmp a.essid b.essid IW_ESSID_MAX_SIZE < 0 ∨
        (strncmp a.essid b.essid IW_ESSID_MAX_SIZE = 0 ∧ a.qual.level < b.qual.level)))
  | .SO_SIGNAL, a, b => a.qual.level < b.qual.level
  | .SO_ESSID, a, b =>
    strncmp a.essid b.essid IW_ESSID_MAX_SIZE < 0 ∨
      (strncmp a.essid b.essid IW_ESSID_MAX_SIZE = 0 ∧
        (a.freq < b.freq ∨ (a.freq = b.freq ∧ a.qual.level < b.qual.level)))
  | .SO_OPEN, a, b => a.has_key.toNat < b.has_key.toNat
  | .SO_CHAN_SIG, a, b => a.freq < b.freq ∨ (a.freq = b.freq ∧ a.qual.level < b.qual.level)
  | .SO_OPEN_SIG, a, b =>
    a.has_key.toNat < b.has_key.toNat ∨
      (a.has_key.toNat = b.has_key.toNat ∧ a.qual.level < b.qual.level)

/-- Two entries that differ in the BSSID only. -/
def entry_twin : scan_entry := { entry_scenario with ap_addr := [0xAA, 0xBB, 0xCC, 0xDD, 0xEE, 0x00] }

/-- An entry of the same network on a higher frequency. -/
def entry_high : scan_entry := { entry_scenario with freq := 5180000000 }

/-- An entry of the same network and frequency with a stronger signal. -/
def entry_strong : scan_entry := { entry_scenario with qual := ⟨0, 80, 0, 0⟩ }

/-- Modelled from the spec: the members of the global `conf` that the
ranking and the histogram read (the structure is declared in `wavemon.h`,
which is not part of the sources at hand): the selected ranking order, one of
the six named orders, and the sort direction. -/
structure wavemon_conf where
  scan_sort_order : scan_sort_order
  scan_sort_asc : Bool
deriving DecidableEq, Repr

/-- The inner `for` loop of `sort_scan_list` and the two link assignments
after it: the walk passes every node `cur` of `head` for which
`conf.scan_sort_asc == scan_cmp[conf.scan_sort_order](cur, new)` holds, and
`new` is linked in before the first node for which it fails. -/
def sort_insert (conf : wavemon_conf) (new : scan_entry) : List scan_entry → List scan_entry
  | [] => [new]
  | cur :: rest =>
    if conf.scan_sort_asc = scan_cmp conf.scan_sort_order cur new
    then cur :: sort_insert conf new rest
    else new :: cur :: rest

/-- The `while (new)` loop of `sort_scan_list`: the nodes of the old list
are taken one by one, first to last, and inserted into `head`. -/
def sort_loop (conf : wavemon_conf) : List scan_entry → List scan_entry → List scan_entry
  | [], head => head
  | new :: rest, head => sort_loop conf rest (sort_insert conf new head)

/-- The function `sort_scan_list` on the list `*headp`. -/
def sort_scan_list (conf : wavemon_conf) (l : List scan_entry) : List scan_entry :=
  sort_loop conf l []

/-- The order of two entries `x`, `y` with `x` before `y` is allowed in the
configured direction: ascending, the comparator does not hold for `(y, x)`;
descending, it does not hold for `(x, y)`. -/
def in_direction (conf : wavemon_conf) (x y : scan_entry) : Prop :=
  (conf.scan_sort_asc = true → scan_cmp conf.scan_sort_order y x = false) ∧
  (conf.scan_sort_asc = false → scan_cmp conf.scan_sort_order x y = false)

/-- Ascending by signal level. -/
def conf_sig_asc : wavemon_conf := { scan_sort_order := .SO_SIGNAL, scan_sort_asc := true }

/-- Ascending by ESSID. -/
def conf_essid_asc : wavemon_conf := { scan_sort_order := .SO_ESSID, scan_sort_asc := true }

/-- Descending by channel. -/
def conf_chan_desc : wavemon_conf := { scan_sort_order := .SO_CHAN, scan_sort_asc := false }

/-- The walk of `sort_insert` for `x` passes the node `cur`. -/
def walk_passes (conf : wavemon_conf) (cur x : scan_entry) : Prop :=
  conf.scan_sort_asc = scan_cmp conf.scan_sort_order cur x

/-! ## Channel statistics (lines 752-794) -/

/-- Modelled from the spec: `struct cnt` is declared in `iw_if.h`, which is
not part of the sources at hand; a histogram bin is a "(channel, count)
pair", and the code names the members `val` and `count`. -/
structure cnt where
  val : Int
  count : Int
deriving DecidableEq, Repr

/-- Modelled from the spec: the counters `sr->num` of `struct scan_result`
(declared in `iw_if.h`): entries, open, 2.4 GHz, 5 GHz and the number of
histogram bins displayed.  The member `open` is written `open_`. -/
structure scan_num where
  entries : Nat
  open_ : Nat
  two_gig : Nat
  five_gig : Nat
  ch_stats : Nat
deriving DecidableEq, Repr

/-- Modelled from the spec: `struct scan_result` is declared in `iw_if.h`,
which is not part of the sources at hand.  The members are those that
`iw_scan.c` writes: the head of the entry list, the status message (taken
large enough for every message, so that `snprintf` does not cut it), the
maximum ESSID length, the counters and the histogram array (`none` is NULL;
the list holds the `n` members in use).  The captured range metadata is
read-only and left out; the mutex is part of the trace of `do_scan`. -/
structure scan_result where
  head : List scan_entry
  msg : String
  max_essid_len : Nat
  num : scan_num
  channel_stats : Option (List cnt)
deriving DecidableEq, Repr

/-- Modelled from the spec: the "fixed maximum number of displayed bins",
declared in `iw_if.h`.  Its value is not visible in the sources at hand; no
theorem depends on the value chosen. -/
def MAX_CH_STATS : Nat := 3

/-- The function `cmp_key`: 0 if the two bins are of the same channel.  The
channels compared are non-negative `int`s, so the difference does not
overflow. -/
def cmp_key (a b : cnt) : Int := a.val - b.val

/-- The function `cmp_cnt`.  Counts are positive `int`s, so the difference
does not overflow. -/
def cmp_cnt (conf : wavemon_conf) (a b : cnt) : Int :=
  if conf.scan_sort_order = .SO_CHAN ∧ conf.scan_sort_asc = false then a.count - b.count
  else b.count - a.count

/-- The search of the C library function `lsearch`: the position of the first
member `e` with `cmp_key key e = 0`, or the number of members when there is
none. -/
def lfind_idx (key : cnt) : List cnt → Nat
  | [] => 0
  | e :: rest => if cmp_key key e = 0 then 0 else lfind_idx key rest + 1

/-- The C library function `lsearch` on the members in use of the array:
the array afterwards and the position of the member returned.  A key that is
not found is appended. -/
def lsearch (key : cnt) (base : List cnt) : List cnt × Nat :=
  if lfind_idx key base < base.length then (base, lfind_idx key base)
  else (base ++ [key], base.length)

/-- The statement `bin->count++` on the member at position `i`. -/
def count_incr : Nat → List cnt → List cnt
  | _, [] => []
  | 0, e :: rest => { e with count := e.count + 1 } :: rest
  | i + 1, e :: rest => e :: count_incr i rest

/-- The `for` loop of `compute_channel_stats` over the entry list; `arr`
holds the members in use of the array, which was allocated for `cap` members.
`none`: `lsearch` appends past the end of the array.  The counts are kept
unbounded: a count never exceeds the number of entries. -/
def stats_loop (cap : Nat) : List scan_entry → List cnt → Option (List cnt)
  | [], arr => some arr
  | cur :: rest, arr =>
    if cur.chan ≥ 0 then
      let r := lsearch { val := cur.chan, count := 0 } arr
      if r.1.length ≤ cap then stats_loop cap rest (count_incr r.2 r.1) else none
    else stats_loop cap rest arr

/-- The function `compute_channel_stats`.  The C library function `qsort`
is a parameter: the order in which it leaves members that compare equal is
unspecified. -/
def compute_channel_stats (qsort : (cnt → cnt → Int) → List cnt → List cnt)
    (conf : wavemon_conf) (sr : scan_result) : Option scan_result :=
  if sr.num.entries = 0 then some sr
  else
    match stats_loop sr.num.entries sr.head [] with
    | none => none
    | some arr =>
      some { sr with
        channel_stats := if arr.length > 0 then some (qsort (cmp_cnt conf) arr) else none,
        num := { sr.num with ch_stats := if arr.length < MAX_CH_STATS then arr.length
                                         else MAX_CH_STATS } }

/-- What the C standard says of `qsort`: for a comparison function that is
consistent (transitive and total as "not greater"), the result is a
rearrangement of the array and no member stands before one that it compares
greater than. -/
def qsort_contract (qsort : (cnt → cnt → Int) → List cnt → List cnt) : Prop :=
  ∀ (compar : cnt → cnt → Int) (l : List cnt),
    (∀ a b c, compar a b ≤ 0 → compar b c ≤ 0 → compar a c ≤ 0) →
    (∀ a b, compar a b ≤ 0 ∨ compar b a ≤ 0) →
    (qsort compar l).Perm l ∧ (qsort compar l).Pairwise (fun a b => compar a b ≤ 0)

/-- One `qsort` that meets the contract: insertion sort. -/
def qsort_insertion (compar : cnt → cnt → Int) (l : List cnt) : List cnt :=
  l.insertionSort (fun a b => compar a b ≤ 0)

/-- The bins of a result: the members in use of `channel_stats`, none when
the pointer is NULL. -/
def scan_result.bins (sr : scan_result) : List cnt := sr.channel_stats.getD []

/-- A result before `compute_channel_stats`: the entries on the given
channels, the entry counter equal to their number, no histogram. -/
def result_on_channels (chans : List Int) : scan_result :=
  { head := chans.map (fun c => { scan_entry_zero with chan := c }), msg := "",
    max_essid_len := 0,
    num := { entries := chans.length, open_ := 0, two_gig := 0, five_gig := 0, ch_stats := 0 },
    channel_stats := none }

/-- The bins after one more entry on channel `c`, member by member. -/
def tally (c : Int) (arr : List cnt) : List cnt :=
  if c ∈ arr.map cnt.val
  then arr.map (fun b => if b.val = c then { b with count := b.count + 1 } else b)
  else arr ++ [{ val := c, count := 1 }]

/-- The bins `arr` account for the entries `seen`. -/
def bins_of (seen : List scan_entry) (arr : List cnt) : Prop :=
  (arr.map cnt.val).Nodup ∧
  (∀ c, c ∈ arr.map cnt.val ↔ 0 ≤ c ∧ c ∈ seen.map scan_entry.chan) ∧
  (∀ b ∈ arr, b.count = ((seen.map scan_entry.chan).count b.val : Nat))

/-! ### Point events whose declared count and trailing bytes disagree -/

/-- An ESSID report in the layout of version 18 and before (26 bytes): the
length field of the fixed part (offset 12) is 0, the 12 bytes that the
64-bit fix-up copies again start at offset 8 and begin with the count 33 and
the flags 1, the alternate length at offset 16 is 2, and two payload bytes
follow at offset 24. -/
def buf_legacy_refit : List Nat :=
  [26, 0, 0x1b, 0x8b, 0, 0, 0, 0, 33, 0, 1, 0, 0, 0, 0, 0, 2, 0, 0, 0, 0, 0, 0, 0, 65, 66]

/-- An ESSID report that declares the length 6, less than its fixed part,
and the count 33. -/
def buf_point_short_len : List Nat := [6, 0, 0x1b, 0x8b, 33, 0, 1, 0]

/-! ## The scan thread `do_scan` (lines 814-895) -/

/-- The error numbers of `<errno.h>` (Linux) that `do_scan` tells apart. -/
def EPERM : Nat := 1

def EINTR : Nat := 4

def E2BIG : Nat := 7

def EAGAIN : Nat := 11

def EFAULT : Nat := 14

def EBUSY : Nat := 16

def ENETDOWN : Nat := 100

/-- Modelled from the spec: the initial value of the maximum ESSID length,
declared in `iw_if.h`.  Its value is not visible in the sources at hand; no
theorem depends on the value chosen. -/
def MAX_ESSID_LEN : Nat := 16

/-- Modelled from the spec: what one refresh cycle of `do_scan` gets from
the collaborators outside `iw_scan.c` ("external collaborators" of the spec)
and from the system.
* `ifname`: the configured interface name, `conf_ifname()`;
* `scan`: the call of `get_scan_list`: `none` when it ends the process
  (`err_sys`, no socket), otherwise the list it returns (`[]` is NULL) and
  `errno` after the call;
* `has_net_admin`: `has_net_admin_capability()`;
* `if_set_up`: the return value of `if_set_up(conf_ifname())`;
* `strerror`, `str_is_ascii`, `iw_sanitize` (on the quality triple),
  `freq_to_channel`: the functions of these names. -/
structure scan_env where
  ifname : String
  scan : Option (List scan_entry × Nat)
  has_net_admin : Bool
  if_set_up : Int
  strerror : Nat → String
  str_is_ascii : List Nat → Bool
  iw_sanitize : iw_quality → iw_quality
  freq_to_channel : Int → Int

/-- The C library function `strlen` on a byte string held in a list. -/
def strlen : List Nat → Nat
  | [] => 0
  | c :: rest => if c = 0 then 0 else strlen rest + 1

/-- Modelled from the spec: the helper `clamp (val, min, max)` of
`wavemon.h`, taken with its usual meaning. -/
def clamp (val min max : Nat) : Nat :=
  if val < min then min else if val > max then max else val

/-- What a step of the scan thread does to the shared result or its mutex. -/
inductive sr_op where
  /-- the call `pthread_mutex_lock (&sr->mutex)` -/
  | mutex_lock
  /-- the call `pthread_mutex_unlock (&sr->mutex)` -/
  | mutex_unlock
  /-- the call `free_scan_list (sr->head)` -/
  | free_head
  /-- the call `free (sr->channel_stats)` -/
  | free_stats
  /-- a write to `sr->head` -/
  | set_head
  /-- a write to `sr->channel_stats` -/
  | set_channel_stats
  /-- a write to `sr->msg` -/
  | set_msg
  /-- a write to `sr->max_essid_len` -/
  | set_max_essid_len
  /-- a write to a member of `sr->num` -/
  | set_num
  /-- a write to an entry of the list -/
  | set_entry
  /-- the call `err_sys`: the process ends -/
  | err_sys
  /-- a write past the end of the histogram array -/
  | fault
deriving DecidableEq, Repr

/-- One step of the scan thread: what it does and the shared result after
it. -/
structure sr_step where
  op : sr_op
  after : scan_result
deriving DecidableEq, Repr

/-- Lines 877-880: the maximum ESSID length after the entry `cur`. -/
def essid_len_step (env : scan_env) (cur : scan_entry) (s : scan_result) : scan_result :=
  if env.str_is_ascii cur.essid
  then { s with max_essid_len := clamp (strlen cur.essid) s.max_essid_len IW_ESSID_MAX_SIZE }
  else s

/-- Lines 883-886: the band counters after the entry `cur`. -/
def band_step (cur : scan_entry) (s : scan_result) : scan_result :=
  if cur.freq ≥ 5000000000
  then { s with num := { s.num with five_gig := s.num.five_gig + 1 } }
  else if cur.freq ≥ 2000000000
  then { s with num := { s.num with two_gig := s.num.two_gig + 1 } }
  else s

/-- Line 887: one more entry. -/
def entries_step (s : scan_result) : scan_result :=
  { s with num := { s.num with entries := s.num.entries + 1 } }

/-- Line 888: one more open access point when `cur` has no key. -/
def open_step (cur : scan_entry) (s : scan_result) : scan_result :=
  { s with num := { s.num with open_ := s.num.open_ + (if cur.has_key then 0 else 1) } }

/-- The `for` loop of lines 876-888 over the entries; `pre` are the
entries already visited, as the loop left them.  Returns the steps and the
result after the loop. -/
def do_scan_entries (env : scan_env) :
    List scan_entry → List scan_entry → scan_result → List sr_step × scan_result
  | _, [], s => ([], s)
  | pre, cur :: post, s =>
    let s1 := essid_len_step env cur s
    let cur1 := { cur with qual := env.iw_sanitize cur.qual }
    let s2 := { s1 with head := pre ++ cur1 :: post }
    let cur2 := { cur1 with chan := env.freq_to_channel cur1.freq }
    let s3 := { s2 with head := pre ++ cur2 :: post }
    let s4 := band_step cur2 s3
    let s5 := entries_step s4
    let s6 := open_step cur2 s5
    let r := do_scan_entries env (pre ++ [cur2]) post s6
    ((if env.str_is_ascii cur.essid then [⟨.set_max_essid_len, s1⟩] else []) ++
      [⟨.set_entry, s2⟩, ⟨.set_entry, s3⟩] ++
      (if cur2.freq ≥ 2000000000 then [⟨.set_num, s4⟩] else []) ++
      [⟨.set_num, s5⟩, ⟨.set_num, s6⟩] ++ r.1, r.2)

/-- Lines 876-892: the loop over the entries, `compute_channel_stats` and
the release of the mutex. -/
def do_scan_finish (qsort : (cnt → cnt → Int) → List cnt → List cnt) (conf : wavemon_conf)
    (env : scan_env) (s : scan_result) : List sr_step :=
  let r := do_scan_entries env [] s.head s
  match compute_channel_stats qsort conf r.2 with
  | none => r.1 ++ [⟨.fault, r.2⟩]
  | some s1 =>
    r.1 ++ (if r.2.num.entries = 0 then []
            else [⟨.set_channel_stats, { r.2 with channel_stats := s1.channel_stats }⟩,
                  ⟨.set_num, s1⟩]) ++ [⟨.mutex_unlock, s1⟩]

/-- The `switch (errno)` of lines 842-873, entered when `get_scan_list`
returned NULL: the steps, and whether the thread goes on (it does not after
`err_sys`). -/
def do_scan_failure (env : scan_env) (errno : Nat) (s : scan_result) : List sr_step × Bool :=
  if errno = EPERM then
    if env.has_net_admin = false
    then ([⟨.set_msg, { s with msg := "This screen requires CAP_NET_ADMIN permissions" }⟩], true)
    else ([], true)
  else if errno = EFAULT then ([], true)
  else if errno = EINTR ∨ errno = EBUSY ∨ errno = EAGAIN then
    ([⟨.set_msg, { s with msg := "Waiting for scan data on " ++ env.ifname ++ " ..." }⟩], true)
  else if errno = ENETDOWN then
    let s1 := { s with msg := "Interface " ++ env.ifname ++ " is down - setting it up ..." }
    if env.if_set_up < 0 then ([⟨.set_msg, s1⟩, ⟨.err_sys, s1⟩], false)
    else ([⟨.set_msg, s1⟩], true)
  else if errno = E2BIG then
    ([⟨.set_msg, { s with msg := "No scan on " ++ env.ifname ++ ": Driver returned too much data" }⟩],
      true)
  else if errno = 0 then
    ([⟨.set_msg, { s with msg := "Empty scan results on " ++ env.ifname }⟩], true)
  else
    ([⟨.set_msg, { s with msg := "Scan failed on " ++ env.ifname ++ ": " ++ env.strerror errno }⟩],
      true)

/-- The last step of a list of steps leaves the result `s`; with no step
the result is `s0`. -/
def result_after (s0 : scan_result) (steps : List sr_step) : scan_result :=
  match steps.getLast? with
  | some st => st.after
  | none => s0

/-- Lines 823-831: the old list and histogram are freed and the members of
the shared result reset, one after the other. -/
def do_scan_reset (sr : scan_result) : List sr_step :=
  let a1 := { sr with head := [] }
  let a2 := { a1 with channel_stats := none }
  let a3 := { a2 with msg := "" }
  let a4 := { a3 with max_essid_len := MAX_ESSID_LEN }
  let a5 := { a4 with num := ⟨0, 0, 0, 0, 0⟩ }
  [⟨.free_head, sr⟩, ⟨.free_stats, sr⟩, ⟨.set_head, a1⟩, ⟨.set_channel_stats, a2⟩,
    ⟨.set_msg, a3⟩, ⟨.set_max_essid_len, a4⟩, ⟨.set_num, a5⟩]

/-- Lines 833-892, on the shared result `s` as lines 823-831 left it: the
call of `get_scan_list`, the `switch (errno)` when it returned NULL, the loop
over the entries, the histogram and the release of the mutex. -/
def do_scan_rebuild (qsort : (cnt → cnt → Int) → List cnt → List cnt) (conf : wavemon_conf)
    (env : scan_env) (s : scan_result) : List sr_step :=
  match env.scan with
  | none => [⟨.err_sys, s⟩]
  | some (head, errno) =>
    let a6 := { s with head := head }
    if head = [] then
      let f := do_scan_failure env errno a6
      if f.2
      then ⟨.set_head, a6⟩ :: (f.1 ++ do_scan_finish qsort conf env (result_after a6 f.1))
      else ⟨.set_head, a6⟩ :: f.1
    else ⟨.set_head, a6⟩ :: do_scan_finish qsort conf env a6

/-- One refresh cycle of `do_scan` (the body of the `do ... while`, lines
821-892) on the shared result `sr` as the previous cycle left it: the steps
on the shared result and its mutex, in program order. -/
def do_scan_cycle (qsort : (cnt → cnt → Int) → List cnt → List cnt) (conf : wavemon_conf)
    (env : scan_env) (sr : scan_result) : List sr_step :=
  ⟨.mutex_lock, sr⟩ ::
    (do_scan_reset sr ++ do_scan_rebuild qsort conf env (result_after sr (do_scan_reset sr)))

/-- A step that neither takes nor releases the mutex and that the thread
survives. -/
def sr_op.inner : sr_op → Bool
  | .mutex_lock => false
  | .mutex_unlock => false
  | .err_sys => false
  | .fault => false
  | _ => true

/-- The results that a reader can find when it holds the mutex: the mutex
is free before the steps if `held` is false, and after a step that releases
it.  `s` is the result before the steps, `held` says whether the scan thread
holds the mutex there. -/
def reader_observes : Bool → scan_result → List sr_step → List scan_result
  | held, s, [] => if held then [] else [s]
  | held, s, st :: rest =>
    (if held then [] else [s]) ++
      reader_observes
        (if st.op = .mutex_lock then true else if st.op = .mutex_unlock then false else held)
        st.after rest

/-- A refresh cycle in which the scan finds nothing because of missing
permissions: `get_scan_list` returns NULL with `errno = EPERM`, and the
process has no CAP_NET_ADMIN. -/
def env_eperm : scan_env :=
  { ifname := "wlan0", scan := some ([], EPERM), has_net_admin := false, if_set_up := 0,
    strerror := fun _ => "", str_is_ascii := fun _ => true, iw_sanitize := fun q => q,
    freq_to_channel := fun _ => 0 }

/-- A result as a cycle that found one access point leaves it. -/
def result_one_entry : scan_result :=
  { head := [entry_scenario], msg := "", max_essid_len := MAX_ESSID_LEN,
    num := { entries := 1, open_ := 0, two_gig := 1, five_gig := 0, ch_stats := 1 },
    channel_stats := some [⟨0, 1⟩] }

/-! ### Two access points in one buffer; short information elements -/

/-- The values of an open access point whose information-element event
carries one element with tag 0x01 (no WPA or WPA2 marker). -/
def report_open : ap_report :=
  { bssid := [0x02, 0x11, 0x22, 0x33, 0x44, 0x55],
    essid := [79, 112, 101, 110], essid_flags := 1,
    mode := 2, freq_m := 2412, freq_e := 6, enc_flags := 0x8000, enc_key := [],
    qual := ⟨40, 30, 0, 0⟩,
    ies := [⟨0x01, [0x82, 0x84]⟩] }

/-- The events of an access point that is abandoned incomplete: the address
report and the information-element event (tag 0x30, inner length 18) of the
concrete scenario. -/
def buf_abandoned_cell : List Nat := encode_events 22 report_scenario [.addr, .genie]

/-- The seven events of the open access point, the address report first. -/
def buf_open_cell : List Nat := encode_events 22 report_open (.addr :: six_kinds)

/-- The abandoned access point followed by the open one. -/
def buf_stale_flags : List Nat := buf_abandoned_cell ++ buf_open_cell

/-- An information-element event (version above 18) with a present payload
of declared length 2: tag 0xdd, inner length 8, and nothing after it. -/
def buf_ie_cut_vendor : List Nat := [10, 0, 0x05, 0x8c, 2, 0, 0, 0, 0xdd, 8]

/-- An information-element event that declares 2 payload bytes and carries
one: the decoder drops the payload pointer and keeps the length. -/
def buf_ie_dropped : List Nat := [9, 0, 0x05, 0x8c, 2, 0, 0, 0, 0xdd]

/-! ## Theorems -/

/-! ### The decoder, case by case -/

theorem extract_eq (mem : List Nat) (s : stream_descr) (iwe : iw_event) (we : Int) :
    iw_extract_event_stream mem s iwe we =
      if s.current + IW_EV_LCP_PK_LEN > s.end_ then ⟨0, s, iwe, []⟩
      else if hdr_len mem s.current ≤ IW_EV_LCP_PK_LEN then
        ⟨-1, s, iwe_hdr mem s.current iwe, [(s.current, IW_EV_LCP_PK_LEN)]⟩
      else if hdr_size mem s.current ≤ IW_EV_LCP_PK_LEN then
        ⟨2, { s with current := s.current + hdr_len mem s.current }, iwe_hdr mem s.current iwe,
          [(s.current, IW_EV_LCP_PK_LEN)]⟩
      else if start_ptr s + fixed_len mem s.current we > s.end_ then
        ⟨-2, { s with current := s.current + hdr_len mem s.current }, iwe_hdr mem s.current iwe,
          [(s.current, IW_EV_LCP_PK_LEN)]⟩
      else if hdr_type mem s.current = IW_HEADER_TYPE_POINT then
        extract_point mem s (iwe_copied mem s iwe we) (lookup_descr (hdr_cmd mem s.current))
          (fixed_len mem s.current we) (start_ptr s + fixed_len mem s.current we)
          ([(s.current, IW_EV_LCP_PK_LEN)] ++ [(start_ptr s, fixed_len mem s.current we)])
      else
        extract_fixed mem s (iwe_copied mem s iwe we) (hdr_type mem s.current)
          (fixed_len mem s.current we) (start_ptr s + fixed_len mem s.current we)
          ([(s.current, IW_EV_LCP_PK_LEN)] ++ [(start_ptr s, fixed_len mem s.current we)]) := rfl

theorem extract_point_ret (mem : List Nat) (s : stream_descr) (iwe : iw_event)
    (descr : Option iw_ioctl_description) (el p : Nat) (reads : List (Nat × Nat)) :
    (extract_point mem s iwe descr el p reads).ret = 1 ∧
    (extract_point mem s iwe descr el p reads).stream = { s with current := s.current + iwe.len } := by
  unfold extract_point
  simp only []
  split
  · split <;> exact ⟨rfl, rfl⟩
  · exact ⟨rfl, rfl⟩

theorem fixed_advance_ret (s : stream_descr) (iwe : iw_event) (el p : Nat) (reads : List (Nat × Nat)) :
    (fixed_advance s iwe el p reads).ret = 1 ∧
    (fixed_advance s iwe el p reads).stream =
      (if p + el ≤ s.current + iwe.len then { s with value := some p }
       else { s with value := none, current := s.current + iwe.len }) := by
  unfold fixed_advance
  split <;> exact ⟨rfl, rfl⟩

theorem extract_fixed_ret (mem : List Nat) (s : stream_descr) (iwe : iw_event) (we : Int) :
    let el := fixed_len mem s.current we
    let r := extract_fixed mem s (iwe_copied mem s iwe we) (hdr_type mem s.current) el
      (start_ptr s + el) ([(s.current, IW_EV_LCP_PK_LEN)] ++ [(start_ptr s, el)])
    r.ret = 1 ∧
    r.stream = (if next_value mem s we + el ≤ s.current + hdr_len mem s.current
        then { s with value := some (next_value mem s we) }
        else { s with value := none, current := s.current + hdr_len mem s.current }) := by
  intro el r
  simp only [r, extract_fixed, next_value]
  have hl : (iwe_copied mem s iwe we).len = hdr_len mem s.current := rfl
  rw [hl]
  split
  · have e : start_ptr s + el - el + 4 + el = start_ptr s + 4 + el := by omega
    rw [e]
    exact fixed_advance_ret _ _ _ _ _
  · exact fixed_advance_ret _ _ _ _ _

/-- What a call does to the return value and the cursor, by cases. -/
theorem extract_cases (mem : List Nat) (s : stream_descr) (iwe : iw_event) (we : Int) :
    let r := iw_extract_event_stream mem s iwe we
    let len := hdr_len mem s.current
    let el := fixed_len mem s.current we
    (s.end_ < s.current + 4 ∧ r.ret = 0 ∧ r.stream = s) ∨
    (s.current + 4 ≤ s.end_ ∧ len ≤ 4 ∧ r.ret = -1 ∧ r.stream = s) ∨
    (s.current + 4 ≤ s.end_ ∧ 4 < len ∧ hdr_size mem s.current ≤ 4 ∧ r.ret = 2 ∧
      r.stream = { s with current := s.current + len }) ∨
    (s.current + 4 ≤ s.end_ ∧ 4 < len ∧ 4 < hdr_size mem s.current ∧
      s.end_ < start_ptr s + el ∧ r.ret = -2 ∧ r.stream = { s with current := s.current + len }) ∨
    (s.current + 4 ≤ s.end_ ∧ 4 < len ∧ 4 < hdr_size mem s.current ∧
      start_ptr s + el ≤ s.end_ ∧ hdr_type mem s.current = IW_HEADER_TYPE_POINT ∧ r.ret = 1 ∧
      r.stream = { s with current := s.current + len }) ∨
    (s.current + 4 ≤ s.end_ ∧ 4 < len ∧ 4 < hdr_size mem s.current ∧
      start_ptr s + el ≤ s.end_ ∧ hdr_type mem s.current ≠ IW_HEADER_TYPE_POINT ∧ r.ret = 1 ∧
      r.stream = (if next_value mem s we + el ≤ s.current + len
        then { s with value := some (next_value mem s we) }
        else { s with value := none, current := s.current + len })) := by
  intro r len el
  have hr : r = iw_extract_event_stream mem s iwe we := rfl
  have hlen : len = hdr_len mem s.current := rfl
  have hel : el = fixed_len mem s.current we := rfl
  clear_value r len el
  subst hlen hel
  rw [extract_eq] at hr
  simp only [IW_EV_LCP_PK_LEN] at hr
  split_ifs at hr with h0 h1 h2 h3 h4
  · left; subst hr; exact ⟨by omega, rfl, rfl⟩
  · right; left; subst hr; exact ⟨by omega, h1, rfl, rfl⟩
  · right; right; left; subst hr; exact ⟨by omega, by omega, h2, rfl, rfl⟩
  · right; right; right; left; subst hr; exact ⟨by omega, by omega, by omega, by omega, rfl, rfl⟩
  · right; right; right; right; left
    refine ⟨by omega, by omega, by omega, by omega, h4, ?_⟩
    rw [hr]; exact extract_point_ret _ _ _ _ _ _ _
  · right; right; right; right; right
    refine ⟨by omega, by omega, by omega, by omega, h4, ?_⟩
    rw [hr]; exact extract_fixed_ret mem s iwe we

theorem fixed_len_pos (mem : List Nat) (c : Nat) (we : Int) (h : 4 < hdr_size mem c) :
    0 < fixed_len mem c we := by
  unfold fixed_len IW_EV_LCP_PK_LEN IW_EV_POINT_OFF
  split <;> omega

/-! ### The size of the event record -/

theorem read_bytes_length (mem : List Nat) : ∀ (n off : Nat), (read_bytes mem off n).length = n := by
  intro n
  induction n with
  | zero => intro off; rfl
  | succ n ih => intro off; simp [read_bytes, ih]

theorem memcpy_into_length (dst src : List Nat) (k : Nat) :
    (memcpy_into dst k src).length =
      min k dst.length + src.length + (dst.length - (k + src.length)) := by
  simp only [memcpy_into, List.length_append, List.length_take, List.length_drop]

theorem event_type_size_le (t : Nat) : event_type_size.getD t 0 ≤ 20 := by
  by_cases ht : t < 11
  · interval_cases t <;> decide
  · have hlen : event_type_size.length ≤ t := by
      have : event_type_size.length = 11 := rfl
      omega
    rw [List.getD_eq_default _ _ hlen]
    omega

theorem fixed_len_point (mem : List Nat) (c : Nat) (we : Int)
    (hty : hdr_type mem c = IW_HEADER_TYPE_POINT) :
    fixed_len mem c we = if we ≤ 18 then 12 else 4 := by
  have hs : hdr_size mem c = 8 := by
    unfold hdr_size; rw [hty]; rfl
  unfold fixed_len
  rw [hs]
  by_cases hwe : we ≤ 18
  · rw [if_pos ⟨hwe, hty⟩, if_pos hwe]; rfl
  · rw [if_neg (fun h => hwe h.1), if_neg hwe]; rfl

theorem fixed_len_le (mem : List Nat) (c : Nat) (we : Int)
    (hty : hdr_type mem c ≠ IW_HEADER_TYPE_POINT) : fixed_len mem c we ≤ IWREQ_DATA_LEN := by
  have h := event_type_size_le (hdr_type mem c)
  unfold fixed_len
  rw [if_neg (fun h => hty h.2)]
  unfold hdr_size IW_EV_LCP_PK_LEN IWREQ_DATA_LEN
  omega

/-- The first copy of lines 413-416 stays inside the union. -/
theorem iwe_copied_u_length (mem : List Nat) (s : stream_descr) (iwe : iw_event) (we : Int)
    (hsz : iwe.u.length = IWREQ_DATA_LEN) :
    (iwe_copied mem s iwe we).u.length = IWREQ_DATA_LEN := by
  show (memcpy_into iwe.u _ _).length = IWREQ_DATA_LEN
  rw [memcpy_into_length, read_bytes_length, hsz]
  by_cases hty : hdr_type mem s.current = IW_HEADER_TYPE_POINT
  · rw [fixed_len_point mem s.current we hty]
    by_cases hwe : we ≤ 18
    · rw [if_neg (fun h => absurd h.1 (by omega)), if_pos hwe]; rfl
    · rw [if_pos ⟨by omega, hty⟩, if_neg hwe]; rfl
  · have h := fixed_len_le mem s.current we hty
    rw [if_neg (fun h => hty h.2)]
    unfold IWREQ_DATA_LEN at h ⊢
    omega

theorem point_discard_u (iwe : iw_event) (d : iw_ioctl_description) (e t : Nat) :
    (point_discard iwe d e t).u = iwe.u := by
  unfold point_discard
  simp only
  split_ifs <;> rfl

theorem fixed_advance_iwe (s : stream_descr) (iwe : iw_event) (el p : Nat)
    (reads : List (Nat × Nat)) : (fixed_advance s iwe el p reads).iwe = iwe := by
  unfold fixed_advance
  split <;> rfl

theorem extract_fixed_u_length (mem : List Nat) (s : stream_descr) (iwe : iw_event)
    (ty el p : Nat) (reads : List (Nat × Nat)) (hsz : iwe.u.length = IWREQ_DATA_LEN)
    (hel : el ≤ IWREQ_DATA_LEN) :
    (extract_fixed mem s iwe ty el p reads).iwe.u.length = IWREQ_DATA_LEN := by
  unfold extract_fixed
  split
  · rw [fixed_advance_iwe]
    show (memcpy_into iwe.u 0 _).length = IWREQ_DATA_LEN
    rw [memcpy_into_length, read_bytes_length, hsz]
    unfold IWREQ_DATA_LEN at hel ⊢
    omega
  · rw [fixed_advance_iwe]; exact hsz

/-- The re-copy of line 462 grows the union by `event_len - 4` bytes when it
runs, and only then. -/
theorem point_fixup_u_length (mem : List Nat) (iwe : iw_event) (d : iw_ioctl_description)
    (el p extra tl : Nat) (hsz : iwe.u.length = IWREQ_DATA_LEN) (hel : el = 4 ∨ el = 12) :
    (point_fixup mem iwe d el p extra tl).1.u.length = IWREQ_DATA_LEN ∨
    (el = 12 ∧ (point_fixup mem iwe d el p extra tl).1.u.length = IWREQ_DATA_LEN + 4) := by
  have hcopy : (memcpy_into iwe.u IW_EV_POINT_OFF (read_bytes mem (p - el + 4) el)).length
      = if el = 12 then IWREQ_DATA_LEN + 4 else IWREQ_DATA_LEN := by
    rw [memcpy_into_length, read_bytes_length, hsz]
    unfold IW_EV_POINT_OFF IWREQ_DATA_LEN
    rcases hel with h | h <;> subst h <;> rfl
  unfold point_fixup
  simp only
  split
  · split
    · split
      · show (memcpy_into iwe.u IW_EV_POINT_OFF (read_bytes mem (p - el + 4) el)).length = _ ∨ _
        rw [hcopy]
        rcases hel with h | h
        · left; rw [if_neg (by omega)]
        · right; exact ⟨h, by rw [if_pos h]⟩
      · show (memcpy_into iwe.u IW_EV_POINT_OFF (read_bytes mem (p - el + 4) el)).length = _ ∨ _
        rw [hcopy]
        rcases hel with h | h
        · left; rw [if_neg (by omega)]
        · right; exact ⟨h, by rw [if_pos h]⟩
    · left; exact hsz
  · left; exact hsz

theorem extract_point_u_length (mem : List Nat) (s : stream_descr) (iwe : iw_event)
    (descr : Option iw_ioctl_description) (el p : Nat) (reads : List (Nat × Nat))
    (hsz : iwe.u.length = IWREQ_DATA_LEN) (hel : el = 4 ∨ el = 12) :
    (extract_point mem s iwe descr el p reads).iwe.u.length = IWREQ_DATA_LEN ∨
    (el = 12 ∧ (extract_point mem s iwe descr el p reads).iwe.u.length = IWREQ_DATA_LEN + 4) := by
  unfold extract_point
  simp only
  split
  · split
    · left; exact hsz
    · rename_i d
      show (point_discard _ _ _ _).u.length = _ ∨ _ ∧ (point_discard _ _ _ _).u.length = _
      rw [point_discard_u]
      exact point_fixup_u_length mem _ d el p _ _ hsz hel
  · left; exact hsz

/-- A decoder call on an event record of full size leaves the union at its
size, except when the re-copy of line 462 runs at a protocol version of 18
or below: then the call, which returns 1 on an `iw_point` event, has written
4 bytes past the record. -/
theorem extract_u_length (mem : List Nat) (s : stream_descr) (iwe : iw_event) (we : Int)
    (hsz : iwe.u.length = IWREQ_DATA_LEN) :
    (iw_extract_event_stream mem s iwe we).iwe.u.length = IWREQ_DATA_LEN ∨
    (we ≤ 18 ∧ (iw_extract_event_stream mem s iwe we).ret = 1 ∧
      hdr_type mem s.current = IW_HEADER_TYPE_POINT ∧
      (iw_extract_event_stream mem s iwe we).iwe.u.length = IWREQ_DATA_LEN + 4) := by
  rw [extract_eq]
  split_ifs with h0 h1 h2 h3 h4
  · left; exact hsz
  · left; exact hsz
  · left; exact hsz
  · left; exact hsz
  · have hfl := fixed_len_point mem s.current we h4
    have hel : fixed_len mem s.current we = 4 ∨ fixed_len mem s.current we = 12 := by
      rw [hfl]; split <;> simp
    rcases extract_point_u_length mem s (iwe_copied mem s iwe we)
      (lookup_descr (hdr_cmd mem s.current)) (fixed_len mem s.current we)
      (start_ptr s + fixed_len mem s.current we)
      ([(s.current, IW_EV_LCP_PK_LEN)] ++ [(start_ptr s, fixed_len mem s.current we)])
      (iwe_copied_u_length mem s iwe we hsz) hel with h | ⟨h12, h⟩
    · left; exact h
    · right
      refine ⟨?_, (extract_point_ret _ _ _ _ _ _ _).1, h4, h⟩
      by_contra hwe
      rw [hfl, if_neg hwe] at h12
      omega
  · left
    exact extract_fixed_u_length mem s _ _ _ _ _ (iwe_copied_u_length mem s iwe we hsz)
      (fixed_len_le mem s.current we h4)

/-- A call that returns TruncatedPayload (-2) has copied nothing into the
union of the event record. -/
theorem extract_truncated_u (mem : List Nat) (s : stream_descr) (iwe : iw_event) (we : Int)
    (h : (iw_extract_event_stream mem s iwe we).ret = -2) :
    (iw_extract_event_stream mem s iwe we).iwe.u = iwe.u := by
  rw [extract_eq] at h ⊢
  by_cases h0 : s.current + IW_EV_LCP_PK_LEN > s.end_
  · rw [if_pos h0] at h; exact absurd (show (0 : Int) = -2 from h) (by decide)
  rw [if_neg h0] at h ⊢
  by_cases h1 : hdr_len mem s.current ≤ IW_EV_LCP_PK_LEN
  · rw [if_pos h1] at h; exact absurd (show (-1 : Int) = -2 from h) (by decide)
  rw [if_neg h1] at h ⊢
  by_cases h2 : hdr_size mem s.current ≤ IW_EV_LCP_PK_LEN
  · rw [if_pos h2] at h; exact absurd (show (2 : Int) = -2 from h) (by decide)
  rw [if_neg h2] at h ⊢
  by_cases h3 : start_ptr s + fixed_len mem s.current we > s.end_
  · rw [if_pos h3]; rfl
  rw [if_neg h3] at h
  by_cases h4 : hdr_type mem s.current = IW_HEADER_TYPE_POINT
  · rw [if_pos h4, (extract_point_ret _ _ _ _ _ _ _).1] at h; exact absurd h (by decide)
  · rw [if_neg h4, (extract_fixed_ret mem s iwe we).1] at h; exact absurd h (by decide)

/-- Only a call that returns 1 on an `iw_point` event at a protocol version
of 18 or below writes past the event record. -/
theorem extract_overrun_only_legacy_point (mem : List Nat) (s : stream_descr) (iwe : iw_event)
    (we : Int) (hsz : iwe.u.length = IWREQ_DATA_LEN)
    (h : (iw_extract_event_stream mem s iwe we).iwe.overrun) :
    we ≤ 18 ∧ (iw_extract_event_stream mem s iwe we).ret = 1 ∧
      hdr_type mem s.current = IW_HEADER_TYPE_POINT := by
  unfold iw_event.overrun at h
  rcases extract_u_length mem s iwe we hsz with h1 | ⟨a, b, c, _⟩
  · omega
  · exact ⟨a, b, c⟩

theorem extract_not_overrun_length (mem : List Nat) (s : stream_descr) (iwe : iw_event)
    (we : Int) (hsz : iwe.u.length = IWREQ_DATA_LEN)
    (h : ¬ (iw_extract_event_stream mem s iwe we).iwe.overrun) :
    (iw_extract_event_stream mem s iwe we).iwe.u.length = IWREQ_DATA_LEN := by
  unfold iw_event.overrun at h
  rcases extract_u_length mem s iwe we hsz with h1 | ⟨_, _, _, h1⟩
  · exact h1
  · omega

/-! ### Progress of the cursor -/

/-- One positive decoder call keeps the cursor invariant and moves the read
position `start_ptr` strictly forward; before the call it was `≤ end_`. -/
theorem extract_progress (mem : List Nat) (s : stream_descr) (iwe : iw_event) (we : Int)
    (hinv : stream_inv mem we s)
    (hpos : (iw_extract_event_stream mem s iwe we).ret > 0) :
    stream_inv mem we (iw_extract_event_stream mem s iwe we).stream ∧
    start_ptr s < start_ptr (iw_extract_event_stream mem s iwe we).stream ∧
    start_ptr s ≤ s.end_ ∧
    (iw_extract_event_stream mem s iwe we).stream.end_ = s.end_ := by
  have hc := extract_cases mem s iwe we
  simp only at hc
  have hel := fixed_len_pos mem s.current we
  rcases hc with ⟨_, h, _⟩ | ⟨_, _, h, _⟩ | ⟨h4, hl, hs, _, he⟩ | ⟨_, _, _, _, h, _⟩ |
    ⟨h4, hl, hs, hfit, hty, _, he⟩ | ⟨h4, hl, hs, hfit, hty, _, he⟩
  · rw [h] at hpos; simp at hpos
  · rw [h] at hpos; simp at hpos
  · rw [he]
    cases hv : s.value with
    | none =>
      simp [stream_inv, start_ptr, hv, IW_EV_LCP_PK_LEN]; omega
    | some v =>
      simp only [stream_inv, hv] at hinv; omega
  · rw [h] at hpos; simp at hpos
  · rw [he]
    cases hv : s.value with
    | none =>
      simp [stream_inv, start_ptr, hv, IW_EV_LCP_PK_LEN]; omega
    | some v =>
      simp only [stream_inv, hv] at hinv; exact absurd hty hinv.2.2.2.1
  · rw [he]
    have hel' := hel hs
    have hnv : next_value mem s we = start_ptr s + fixed_len mem s.current we ∨
        (s.value = none ∧ next_value mem s we = start_ptr s + 4 + fixed_len mem s.current we) := by
      unfold next_value
      split
      · rename_i h; right; exact ⟨h.1, rfl⟩
      · left; rfl
    cases hv : s.value with
    | none =>
      have hsp : start_ptr s = s.current + 4 := by simp [start_ptr, hv, IW_EV_LCP_PK_LEN]
      split
      · refine ⟨?_, ?_, ?_, rfl⟩
        · show _ ∧ _ ∧ _ ∧ _ ∧ s.current + 4 < next_value mem s we ∧
            next_value mem s we + fixed_len mem s.current we ≤ s.current + hdr_len mem s.current
          exact ⟨h4, hl, hs, hty, by omega, by omega⟩
        · show start_ptr s < next_value mem s we
          omega
        · omega
      · refine ⟨trivial, ?_, ?_, rfl⟩
        · show start_ptr s < s.current + hdr_len mem s.current + 4
          omega
        · omega
    | some v =>
      have hsp : start_ptr s = v := by simp [start_ptr, hv]
      simp only [stream_inv, hv] at hinv
      have hnv' : next_value mem s we = v + fixed_len mem s.current we := by
        rcases hnv with h | ⟨h, _⟩
        · rw [h, hsp]
        · rw [hv] at h; cases h
      split
      · refine ⟨?_, ?_, ?_, rfl⟩
        · show _ ∧ _ ∧ _ ∧ _ ∧ s.current + 4 < next_value mem s we ∧
            next_value mem s we + fixed_len mem s.current we ≤ s.current + hdr_len mem s.current
          exact ⟨h4, hl, hs, hty, by omega, by omega⟩
        · show start_ptr s < next_value mem s we
          omega
        · omega
      · refine ⟨trivial, ?_, ?_, rfl⟩
        · show start_ptr s < s.current + hdr_len mem s.current + 4
          omega
        · omega

theorem scan_body_stream (mem : List Nat) (s s1 : scan_state) (r : extract_result)
    (h : scan_body mem s r = some s1) : s1.stream = r.stream := by
  unfold scan_body at h
  simp only at h
  split at h
  · cases h
  · split at h
    · cases h
    · split at h <;> (cases h; rfl)

/-- The loop body goes on only after a decoder call that stayed inside the
event record, and hands that record to the next call. -/
theorem scan_body_some (mem : List Nat) (s s1 : scan_state) (r : extract_result)
    (h : scan_body mem s r = some s1) : ¬ r.iwe.overrun ∧ s1.iwe = r.iwe := by
  unfold scan_body at h
  simp only at h
  split at h
  · cases h
  · rename_i ho
    split at h
    · cases h
    · split at h <;> (cases h; exact ⟨ho, rfl⟩)

/-- Along a run the event record keeps its size: the loop stops at the first
call that wrote past it. -/
theorem scan_iter_u_length (mem : List Nat) (we : Int) :
    ∀ (k : Nat) (s0 s : scan_state), s0.iwe.u.length = IWREQ_DATA_LEN →
      scan_iter mem we k s0 = some s → s.iwe.u.length = IWREQ_DATA_LEN := by
  intro k
  induction k with
  | zero => intro s0 s h0 h; cases h; exact h0
  | succ n ih =>
    intro s0 s h0 h
    rw [scan_iter] at h
    split at h
    · cases hb : scan_body mem s0 (iw_extract_event_stream mem s0.stream s0.iwe we) with
      | none => rw [hb] at h; cases h
      | some s1 =>
        rw [hb] at h
        have hs := scan_body_some mem s0 s1 _ hb
        refine ih s1 s ?_ h
        rw [hs.2]
        exact extract_not_overrun_length mem s0.stream s0.iwe we h0 hs.1
    · cases h

/-- With `fuel + 1` iterations allowed, where `fuel` covers the distance of
the read position to `end_`, the loop ends by itself. -/
theorem scan_loop_fuel (mem : List Nat) (we : Int) :
    ∀ (fuel : Nat) (s : scan_state), stream_inv mem we s.stream →
      s.stream.end_ + 1 ≤ fuel + start_ptr s.stream →
      scan_loop mem we (fuel + 1) s ≠ .out_of_fuel := by
  intro fuel
  induction fuel with
  | zero =>
    intro s hinv hf
    unfold scan_loop
    simp only
    split
    · rename_i hpos
      have := (extract_progress mem s.stream s.iwe we hinv hpos).2.2.1
      omega
    · simp
  | succ n ih =>
    intro s hinv hf
    unfold scan_loop
    simp only
    split
    · rename_i hpos
      have hp := extract_progress mem s.stream s.iwe we hinv hpos
      split
      · simp
      · rename_i s1 hb
        have hst := scan_body_stream mem s s1 _ hb
        apply ih
        · rw [hst]; exact hp.1
        · rw [hst, hp.2.2.2]; omega
    · simp

/-- The loop of `get_scan_list` always ends within its iteration bound. -/
theorem scan_loop_total (mem : List Nat) (we : Int) :
    scan_loop mem we (mem.length + 1) (scan_init mem) ≠ .out_of_fuel := by
  apply scan_loop_fuel
  · simp [scan_init, fresh_stream, stream_inv]
  · simp [scan_init, fresh_stream, start_ptr, IW_EV_LCP_PK_LEN]

theorem get_scan_list_total (mem : List Nat) (we : Int) :
    get_scan_list mem we ≠ .out_of_fuel := by
  unfold get_scan_list
  split
  · simp
  · exact scan_loop_total mem we

/-- If the loop ends by itself and after `k` iterations the decoder returns
a value `≤ 0`, the loop returns the list built by then. -/
theorem scan_loop_of_iter (mem : List Nat) (we : Int) :
    ∀ (fuel k : Nat) (s0 s : scan_state), scan_loop mem we fuel s0 ≠ .out_of_fuel →
      scan_iter mem we k s0 = some s →
      (iw_extract_event_stream mem s.stream s.iwe we).ret ≤ 0 →
      scan_loop mem we fuel s0 = .done s.head := by
  intro fuel
  induction fuel with
  | zero => intro k s0 s h; exact absurd rfl h
  | succ n ih =>
    intro k s0 s hne hit hret
    cases k with
    | zero =>
      simp only [scan_iter, Option.some.injEq] at hit
      subst hit
      unfold scan_loop
      simp only
      rw [if_neg (by omega)]
    | succ k =>
      unfold scan_iter at hit
      unfold scan_loop at hne ⊢
      simp only at hit hne ⊢
      split at hit
      · rename_i hpos
        rw [if_pos hpos] at hne ⊢
        cases hb : scan_body mem s0 (iw_extract_event_stream mem s0.stream s0.iwe we) with
        | none => rw [hb] at hit; cases hit
        | some s1 =>
          rw [hb] at hit
          simp only at hit
          simp only [hb] at hne ⊢
          exact ih k s1 s hne hit hret
      · cases hit

/-! ### C10: a declared length not above the header size -/

/-- C10: when at least the 4-byte header remains at `current` and the declared
length of the event is at most 4, the decoder returns MalformedHeader (-1)
and leaves `current` and `value` as they were, whatever the event id and the
protocol version. -/
theorem malformed_header_keeps_cursor (mem : List Nat) (stream : stream_descr) (iwe : iw_event)
    (we_version : Int) (h4 : stream.current + 4 ≤ stream.end_)
    (hlen : hdr_len mem stream.current ≤ 4) :
    (iw_extract_event_stream mem stream iwe we_version).ret = -1 ∧
    (iw_extract_event_stream mem stream iwe we_version).stream.current = stream.current ∧
    (iw_extract_event_stream mem stream iwe we_version).stream.value = stream.value := by
  rcases extract_cases mem stream iwe we_version with
    ⟨h, _⟩ | ⟨_, _, hr, hs⟩ | ⟨_, h, _⟩ | ⟨_, h, _⟩ | ⟨_, h, _⟩ | ⟨_, h, _⟩
  · omega
  · exact ⟨hr, by rw [hs], by rw [hs]⟩
  all_goals omega

/-- C10 at a concrete input: an address event that declares length 3. -/
theorem malformed_header_keeps_cursor_witness :
    ((fresh_stream [3, 0, 0x15, 0x8b, 0, 0]).current + 4 ≤ (fresh_stream [3, 0, 0x15, 0x8b, 0, 0]).end_ ∧
      hdr_len [3, 0, 0x15, 0x8b, 0, 0] (fresh_stream [3, 0, 0x15, 0x8b, 0, 0]).current ≤ 4) ∧
    (iw_extract_event_stream [3, 0, 0x15, 0x8b, 0, 0] (fresh_stream [3, 0, 0x15, 0x8b, 0, 0])
        iwe_init 22).ret = -1 ∧
    (iw_extract_event_stream [3, 0, 0x15, 0x8b, 0, 0] (fresh_stream [3, 0, 0x15, 0x8b, 0, 0])
        iwe_init 22).stream.current = (fresh_stream [3, 0, 0x15, 0x8b, 0, 0]).current ∧
    (iw_extract_event_stream [3, 0, 0x15, 0x8b, 0, 0] (fresh_stream [3, 0, 0x15, 0x8b, 0, 0])
        iwe_init 22).stream.value = (fresh_stream [3, 0, 0x15, 0x8b, 0, 0]).value :=
  ⟨⟨by decide, by decide⟩,
    malformed_header_keeps_cursor [3, 0, 0x15, 0x8b, 0, 0] (fresh_stream [3, 0, 0x15, 0x8b, 0, 0])
      iwe_init 22 (by decide) (by decide)⟩

/-! ### C4: the cursor and `end` -/

/-- C1 at failing inputs, first call on a fresh cursor each time.  The 4-byte
realignment re-copy reads bytes 8..11 of an 8-byte buffer; the two-byte
alternate-length read reads bytes 8 and 9 of an 8-byte buffer; the 8-byte
realignment re-copies bytes 8..11 of a 10-byte buffer; the 4-byte
realignment re-copy of an address event reads bytes 8..23 of a 20-byte
buffer in which every declared length stays inside the buffer. -/
theorem decoder_reads_past_end :
    ((iw_extract_event_stream buf_uint_cut (fresh_stream buf_uint_cut) iwe_init 22).reads
        = [(0, 4), (4, 4), (8, 4)] ∧
      ¬ reads_in_bounds (fresh_stream buf_uint_cut).end_
        (iw_extract_event_stream buf_uint_cut (fresh_stream buf_uint_cut) iwe_init 22).reads) ∧
    ((iw_extract_event_stream buf_point_cut (fresh_stream buf_point_cut) iwe_init 22).reads
        = [(0, 4), (4, 4), (8, 1), (9, 1)] ∧
      ¬ reads_in_bounds (fresh_stream buf_point_cut).end_
        (iw_extract_event_stream buf_point_cut (fresh_stream buf_point_cut) iwe_init 22).reads) ∧
    ((iw_extract_event_stream buf_point_refit (fresh_stream buf_point_refit) iwe_init 22).reads
        = [(0, 4), (4, 4), (8, 1), (9, 1), (8, 4)] ∧
      ¬ reads_in_bounds (fresh_stream buf_point_refit).end_
        (iw_extract_event_stream buf_point_refit (fresh_stream buf_point_refit) iwe_init 22).reads) ∧
    ((iw_extract_event_stream buf_addr_short (fresh_stream buf_addr_short) iwe_init 22).reads
        = [(0, 4), (4, 16), (8, 16)] ∧
      ¬ reads_in_bounds (fresh_stream buf_addr_short).end_
        (iw_extract_event_stream buf_addr_short (fresh_stream buf_addr_short) iwe_init 22).reads) := by
  decide

/-- C2 at a failing input: the ESSID report "TestNet" in a buffer cut after
10 bytes is returned as an Event (1) with a present payload pointer 8 and
length 7, so the payload range ends at 15, past `end = 10`. -/
theorem point_payload_past_end :
    (iw_extract_event_stream (buf_essid.take 10) (fresh_stream (buf_essid.take 10)) iwe_init 22).ret = 1 ∧
    hdr_type (buf_essid.take 10) 0 = IW_HEADER_TYPE_POINT ∧
    (iw_extract_event_stream (buf_essid.take 10) (fresh_stream (buf_essid.take 10)) iwe_init 22).iwe.pointer
      = some 8 ∧
    payload_end (iw_extract_event_stream (buf_essid.take 10) (fresh_stream (buf_essid.take 10))
      iwe_init 22) = some 15 ∧
    (iw_extract_event_stream (buf_essid.take 10) (fresh_stream (buf_essid.take 10)) iwe_init 22).stream.end_
      = 10 := by
  decide

/-- C3 at a failing input: the 15-byte ESSID report "TestNet" is a
well-formed one-event buffer (decoded as an Event, cursor exactly at the end,
payload inside the buffer, then EndOfStream); cut at any offset 8..14, that
is strictly inside the event, the event is still reported as a decoded
Event (1). -/
theorem truncated_point_event_still_decoded :
    ((iw_extract_event_stream buf_essid (fresh_stream buf_essid) iwe_init 22).ret = 1 ∧
      (iw_extract_event_stream buf_essid (fresh_stream buf_essid) iwe_init 22).stream
        = { current := 15, value := none, end_ := 15 } ∧
      payload_end (iw_extract_event_stream buf_essid (fresh_stream buf_essid) iwe_init 22) = some 15 ∧
      (decoder_results buf_essid 22).map (fun r => r.ret) = [1, 0]) ∧
    ∀ n ∈ [8, 9, 10, 11, 12, 13, 14],
      (iw_extract_event_stream (buf_essid.take n) (fresh_stream (buf_essid.take n)) iwe_init 22).ret = 1 := by
  decide

/-! ### C7: the concrete scenario -/

/-- Above the legacy threshold the decoder does not depend on the exact
protocol version. -/
theorem extract_we_above (mem : List Nat) (s : stream_descr) (iwe : iw_event) (we : Int)
    (h : 18 < we) :
    iw_extract_event_stream mem s iwe we = iw_extract_event_stream mem s iwe 19 := by
  have h1 : ¬ we ≤ 18 := by omega
  have h2 : we > 18 := h
  have h3 : ¬ ((19 : Int) ≤ 18) := by decide
  have h4 : (19 : Int) > 18 := by decide
  simp only [iw_extract_event_stream, h1, h2, h3, h4, false_and, true_and, if_false]

theorem scan_loop_we_above (mem : List Nat) (we : Int) (h : 18 < we) :
    ∀ (fuel : Nat) (s : scan_state), scan_loop mem we fuel s = scan_loop mem 19 fuel s := by
  intro fuel
  induction fuel with
  | zero => intro s; rfl
  | succ n ih =>
    intro s
    simp only [scan_loop, extract_we_above mem s.stream s.iwe we h, ih]

theorem scan_trace_we_above (mem : List Nat) (we : Int) (h : 18 < we) :
    ∀ (fuel : Nat) (s : scan_state), scan_trace mem we fuel s = scan_trace mem 19 fuel s := by
  intro fuel
  induction fuel with
  | zero => intro s; rfl
  | succ n ih =>
    intro s
    simp only [scan_trace, extract_we_above mem s.stream s.iwe we h, ih]

/-- C7: for every protocol version above 18, the scenario buffer decodes to
exactly one entry, with BSSID AA:BB:CC:DD:EE:FF, ESSID "TestNet", has_key
true, quality level 60, frequency 2,437,000,000 Hz, the WPA2 flag set and the
WPA flag clear; the decoder returns Event seven times and then EndOfStream. -/
theorem scenario_decodes_to_one_entry (we_version : Int) (h : 18 < we_version) :
    get_scan_list buf_scenario we_version = .done [entry_scenario] ∧
    (decoder_results buf_scenario we_version).map (fun r => r.ret) = [1, 1, 1, 1, 1, 1, 1, 0] ∧
    entry_scenario.ap_addr = [0xAA, 0xBB, 0xCC, 0xDD, 0xEE, 0xFF] ∧
    entry_scenario.essid.take 8 = [84, 101, 115, 116, 78, 101, 116, 0] ∧
    entry_scenario.has_key = true ∧ entry_scenario.qual.level = 60 ∧
    entry_scenario.freq = 2437000000 ∧
    entry_scenario.flags &&& IW_ENC_CAPA_WPA2 ≠ 0 ∧ entry_scenario.flags &&& IW_ENC_CAPA_WPA = 0 := by
  have e1 : get_scan_list buf_scenario we_version = get_scan_list buf_scenario 19 := by
    simp only [get_scan_list, scan_loop_we_above _ _ h]
  have e2 : decoder_results buf_scenario we_version = decoder_results buf_scenario 19 := by
    simp only [decoder_results, scan_trace_we_above _ _ h]
  rw [e1, e2]
  decide

/-- C7 at protocol version 22. -/
theorem scenario_decodes_to_one_entry_witness :
    (18 : Int) < 22 ∧ get_scan_list buf_scenario 22 = .done [entry_scenario] :=
  ⟨by decide, (scenario_decodes_to_one_entry 22 (by decide)).1⟩

/-! ### C5: entries and the completion mask -/

theorem get_scan_list_eq_loop (mem : List Nat) (we : Int) :
    get_scan_list mem we = scan_loop mem we (mem.length + 1) (scan_init mem) := by
  unfold get_scan_list
  split
  · rename_i h
    have hm : mem = [] := List.length_eq_zero.mp h
    subst hm
    simp [scan_loop, scan_init, fresh_stream, extract_eq, IW_EV_LCP_PK_LEN]
  · rfl

theorem decoded_cmds_eq (mem : List Nat) (we : Int) :
    decoded_cmds mem we = cmds_of (scan_trace mem we (mem.length + 1) (scan_init mem)) := rfl

theorem mask_inv_zero (cur : List Nat) : mask_inv 0 cur := by
  intro i _ h
  simp at h

theorem mask_inv_full (cur : List Nat) (h : mask_inv 127 cur) : ∀ k ∈ seven_kinds, k ∈ cur := by
  intro k hk
  simp only [seven_kinds, List.mem_cons, List.mem_singleton, List.not_mem_nil, or_false] at hk
  rcases hk with h0 | h1 | h2 | h3 | h4 | h5 | h6
  · subst h0; exact h 0 (by decide) (by decide)
  · subst h1; exact h 1 (by decide) (by decide)
  · subst h2; exact h 2 (by decide) (by decide)
  · subst h3; exact h 3 (by decide) (by decide)
  · subst h4; exact h 4 (by decide) (by decide)
  · subst h5; exact h 5 (by decide) (by decide)
  · subst h6; exact h 6 (by decide) (by decide)

theorem mask_inv_set (f : Nat) (cur : List Nat) (j : Nat) (cmd : Nat)
    (hcmd : cmd = seven_kinds.getD j 0) (h : mask_inv f cur) :
    mask_inv (f ||| 2 ^ j) (cur ++ [cmd]) := by
  intro i hi hb
  rw [Nat.testBit_or] at hb
  simp only [Bool.or_eq_true] at hb
  rcases hb with hb | hb
  · exact List.mem_append_left _ (h i hi hb)
  · rw [Nat.testBit_two_pow] at hb
    have : j = i := by simpa using hb
    subst this
    rw [hcmd]; simp

theorem mask_inv_keep (f : Nat) (cur : List Nat) (cmd : Nat) (h : mask_inv f cur) :
    mask_inv f (cur ++ [cmd]) := by
  intro i hi hb
  exact List.mem_append_left _ (h i hi hb)

theorem mask_inv_one (cur : List Nat) : mask_inv 1 (cur ++ [SIOCGIWAP]) := by
  intro i hi hb
  have : i = 0 := by
    interval_cases i
    · rfl
    all_goals exact absurd hb (by decide)
  subst this
  simp [seven_kinds]

/-- The `switch` keeps `mask_inv`, and it faults only on an IWEVGENIE event. -/
theorem scan_switch_mask (mem : List Nat) (iwe : iw_event) (f : Nat) (new : scan_entry)
    (cur : List Nat) (h : mask_inv f cur) :
    (∀ f1 new1, scan_switch mem iwe f new = some (f1, new1) → mask_inv f1 (cur ++ [iwe.cmd])) ∧
    (scan_switch mem iwe f new = none → iwe.cmd = IWEVGENIE) := by
  unfold scan_switch
  by_cases h0 : iwe.cmd = SIOCGIWAP
  · rw [if_pos h0]
    refine ⟨?_, by simp⟩
    intro f1 new1 e
    simp only [Option.some.injEq, Prod.mk.injEq] at e
    rw [← e.1, h0]; exact mask_inv_one cur
  rw [if_neg h0]
  by_cases h1 : iwe.cmd = SIOCGIWESSID
  · rw [if_pos h1]
    refine ⟨?_, by simp⟩
    intro f1 new1 e
    simp only [Option.some.injEq, Prod.mk.injEq] at e
    rw [← e.1]; exact mask_inv_set f cur 1 _ (by rw [h1]; rfl) h
  rw [if_neg h1]
  by_cases h2 : iwe.cmd = SIOCGIWMODE
  · rw [if_pos h2]
    refine ⟨?_, by simp⟩
    intro f1 new1 e
    simp only [Option.some.injEq, Prod.mk.injEq] at e
    rw [← e.1]; exact mask_inv_set f cur 2 _ (by rw [h2]; rfl) h
  rw [if_neg h2]
  by_cases h3 : iwe.cmd = SIOCGIWFREQ
  · rw [if_pos h3]
    refine ⟨?_, by simp⟩
    intro f1 new1 e
    simp only [Option.some.injEq, Prod.mk.injEq] at e
    rw [← e.1]; exact mask_inv_set f cur 3 _ (by rw [h3]; rfl) h
  rw [if_neg h3]
  by_cases h4 : iwe.cmd = SIOCGIWENCODE
  · rw [if_pos h4]
    refine ⟨?_, by simp⟩
    intro f1 new1 e
    simp only [Option.some.injEq, Prod.mk.injEq] at e
    rw [← e.1]; exact mask_inv_set f cur 4 _ (by rw [h4]; rfl) h
  rw [if_neg h4]
  by_cases h5 : iwe.cmd = IWEVQUAL
  · rw [if_pos h5]
    refine ⟨?_, by simp⟩
    intro f1 new1 e
    simp only [Option.some.injEq, Prod.mk.injEq] at e
    rw [← e.1]; exact mask_inv_set f cur 5 _ (by rw [h5]; rfl) h
  rw [if_neg h5]
  by_cases h6 : iwe.cmd = IWEVGENIE
  · rw [if_pos h6]
    refine ⟨?_, fun _ => h6⟩
    intro f1 new1 e
    cases hie : iw_extract_ie mem iwe new with
    | none => rw [hie] at e; cases e
    | some r =>
      rw [hie] at e
      simp only [Option.some.injEq, Prod.mk.injEq] at e
      rw [← e.1]; exact mask_inv_set f cur 6 _ (by rw [h6]; rfl) h
  rw [if_neg h6]
  refine ⟨?_, by simp⟩
  intro f1 new1 e
  simp only [Option.some.injEq, Prod.mk.injEq] at e
  rw [← e.1]; exact mask_inv_keep f cur _ h

theorem scan_body_cases (mem : List Nat) (s : scan_state) (r : extract_result) :
    (scan_body mem s r = none ∧
      (r.iwe.overrun ∨ scan_switch mem r.iwe s.f (s.new.getD scan_entry_zero) = none)) ∨
    (∃ new1, scan_switch mem r.iwe s.f (s.new.getD scan_entry_zero) = some (127, new1) ∧
      scan_body mem s r =
        some { stream := r.stream, iwe := r.iwe, new := none, f := 0, head := s.head ++ [new1] }) ∨
    (∃ f1 new1, scan_switch mem r.iwe s.f (s.new.getD scan_entry_zero) = some (f1, new1) ∧
      f1 ≠ 127 ∧
      scan_body mem s r =
        some { stream := r.stream, iwe := r.iwe, new := some new1, f := f1, head := s.head }) := by
  unfold scan_body
  by_cases ho : r.iwe.overrun
  · left; rw [if_pos ho]; exact ⟨rfl, Or.inl ho⟩
  · rw [if_neg ho]
    simp only
    cases hsw : scan_switch mem r.iwe s.f (s.new.getD scan_entry_zero) with
    | none => left; exact ⟨rfl, Or.inr rfl⟩
    | some p =>
      obtain ⟨f1, new1⟩ := p
      right
      by_cases hf : f1 = 127
      · left; subst hf; exact ⟨new1, rfl, by simp⟩
      · right; exact ⟨f1, new1, rfl, hf, by simp [hf]⟩

theorem scan_switch_none (mem : List Nat) (iwe : iw_event) (f : Nat) (new : scan_entry)
    (h : scan_switch mem iwe f new = none) : iwe.cmd = IWEVGENIE := by
  refine (scan_switch_mask mem iwe f new seven_kinds ?_).2 h
  intro i hi _
  interval_cases i <;> decide

/-- The entries appended by the loop from a state on, against the event ids
it decodes from there on: one complete segment per entry. -/
theorem scan_loop_segments (mem : List Nat) (we : Int) :
    ∀ (fuel : Nat) (s : scan_state) (cur : List Nat) (head : List scan_entry),
      mask_inv s.f cur → scan_loop mem we fuel s = .done head →
      ∃ (segs : List (List Nat)) (rest : List Nat),
        cur ++ cmds_of (scan_trace mem we fuel s) = segs.flatten ++ rest ∧
        head.length = s.head.length + segs.length ∧
        ∀ seg ∈ segs, ∀ k ∈ seven_kinds, k ∈ seg := by
  intro fuel
  induction fuel with
  | zero => intro s cur head _ h; cases h
  | succ n ih =>
    intro s cur head hinv hdone
    unfold scan_loop at hdone
    unfold scan_trace
    simp only at hdone ⊢
    by_cases hpos : (iw_extract_event_stream mem s.stream s.iwe we).ret > 0
    · rw [if_pos hpos] at hdone ⊢
      have hm := scan_switch_mask mem (iw_extract_event_stream mem s.stream s.iwe we).iwe s.f
        (s.new.getD scan_entry_zero) cur hinv
      rcases scan_body_cases mem s (iw_extract_event_stream mem s.stream s.iwe we) with
        ⟨hb, _⟩ | ⟨new1, hsw, hb⟩ | ⟨f1, new1, hsw, hf, hb⟩
      · rw [hb] at hdone; cases hdone
      · rw [hb] at hdone ⊢
        simp only at hdone ⊢
        obtain ⟨segs, rest, h1, h2, h3⟩ := ih _ [] head (mask_inv_zero []) hdone
        refine ⟨(cur ++ [(iw_extract_event_stream mem s.stream s.iwe we).iwe.cmd]) :: segs, rest,
          ?_, ?_, ?_⟩
        · simp only [List.nil_append] at h1
          simp only [cmds_of, List.filter_cons, hpos, decide_True, if_true, List.map_cons,
            List.flatten_cons, List.append_assoc, List.singleton_append]
          simp only [cmds_of] at h1
          rw [h1]
          simp
        · simp only [List.length_append, List.length_singleton] at h2
          simp only [List.length_cons]; omega
        · intro seg hseg
          rcases List.mem_cons.mp hseg with e | e
          · subst e; exact mask_inv_full _ (hm.1 _ _ hsw)
          · exact h3 seg e
      · rw [hb] at hdone ⊢
        simp only at hdone ⊢
        obtain ⟨segs, rest, h1, h2, h3⟩ := ih _
          (cur ++ [(iw_extract_event_stream mem s.stream s.iwe we).iwe.cmd]) head (hm.1 _ _ hsw) hdone
        refine ⟨segs, rest, ?_, h2, h3⟩
        simp only [cmds_of, List.filter_cons, hpos, decide_True, if_true, List.map_cons]
        simp only [cmds_of, List.append_assoc, List.singleton_append] at h1
        exact h1
    · rw [if_neg hpos] at hdone ⊢
      simp only [scan_outcome.done.injEq] at hdone
      subst hdone
      refine ⟨[], cur, ?_, by simp, by simp⟩
      simp [cmds_of, hpos]

/-- A run that starts with an event record of full size reaches undefined
behaviour only on a decoded IWEVGENIE event (the NULL dereference of
`iw_extract_ie`) or on a decoder call that wrote past the event record, which
takes a protocol version of 18 or below. -/
theorem scan_loop_fault_cause (mem : List Nat) (we : Int) :
    ∀ (fuel : Nat) (s : scan_state), s.iwe.u.length = IWREQ_DATA_LEN →
      scan_loop mem we fuel s = .fault →
      IWEVGENIE ∈ cmds_of (scan_trace mem we fuel s) ∨
      (we ≤ 18 ∧ ∃ r ∈ scan_trace mem we fuel s, r.iwe.overrun) := by
  intro fuel
  induction fuel with
  | zero => intro s _ h; cases h
  | succ n ih =>
    intro s hsz hfault
    unfold scan_loop at hfault
    unfold scan_trace
    simp only at hfault ⊢
    by_cases hpos : (iw_extract_event_stream mem s.stream s.iwe we).ret > 0
    · rw [if_pos hpos] at hfault ⊢
      cases hb : scan_body mem s (iw_extract_event_stream mem s.stream s.iwe we) with
      | none =>
        rcases scan_body_cases mem s (iw_extract_event_stream mem s.stream s.iwe we) with
          ⟨_, ho | hsw⟩ | ⟨new1, _, hb1⟩ | ⟨f1, new1, _, _, hb1⟩
        · right
          exact ⟨(extract_overrun_only_legacy_point mem s.stream s.iwe we hsz ho).1, _,
            List.mem_singleton.mpr rfl, ho⟩
        · left
          have := scan_switch_none _ _ _ _ hsw
          simp [cmds_of, hpos, this]
        · rw [hb] at hb1; cases hb1
        · rw [hb] at hb1; cases hb1
      | some s1 =>
        rw [hb] at hfault
        simp only at hfault ⊢
        have hs := scan_body_some mem s s1 _ hb
        have hsz1 : s1.iwe.u.length = IWREQ_DATA_LEN := by
          rw [hs.2]
          exact extract_not_overrun_length mem s.stream s.iwe we hsz hs.1
        rcases ih s1 hsz1 hfault with h | ⟨hwe, r, hr, ho⟩
        · left
          simp only [cmds_of, List.filter_cons, hpos, decide_True, if_true, List.map_cons]
          exact List.mem_cons_of_mem _ h
        · right
          exact ⟨hwe, r, List.mem_cons_of_mem _ hr, ho⟩
    · rw [if_neg hpos] at hfault; cases hfault

theorem scan_iter_succ (mem : List Nat) (we : Int) :
    ∀ (k : Nat) (s0 : scan_state),
      scan_iter mem we (k + 1) s0 =
        (scan_iter mem we k s0).bind (fun s => scan_iter mem we 1 s) := by
  intro k
  induction k with
  | zero => intro s0; rfl
  | succ n ih =>
    intro s0
    rw [scan_iter]
    by_cases hpos : (iw_extract_event_stream mem s0.stream s0.iwe we).ret > 0
    · rw [if_pos hpos]
      cases hb : scan_body mem s0 (iw_extract_event_stream mem s0.stream s0.iwe we) with
      | none =>
        simp only
        rw [scan_iter]
        simp only [if_pos hpos, hb, Option.none_bind]
      | some s1 =>
        simp only
        rw [ih s1]
        conv_rhs => rw [scan_iter]
        simp only [if_pos hpos, hb]
    · rw [if_neg hpos]
      conv_rhs => rw [scan_iter]
      simp only [if_neg hpos, Option.none_bind]

theorem scan_body_f_ne (mem : List Nat) (s s1 : scan_state) (r : extract_result)
    (h : scan_body mem s r = some s1) : s1.f ≠ 127 := by
  rcases scan_body_cases mem s r with ⟨hb, _⟩ | ⟨new1, _, hb⟩ | ⟨f1, new1, _, hf, hb⟩
  · rw [hb] at h; cases h
  · rw [hb] at h; cases h; show (0 : Nat) ≠ 127; decide
  · rw [hb] at h; cases h; exact hf

/-- The mask of a loop state reached from the start is never 127. -/
theorem scan_iter_f_ne (mem : List Nat) (we : Int) :
    ∀ (k : Nat) (s0 s : scan_state), s0.f ≠ 127 → scan_iter mem we k s0 = some s → s.f ≠ 127 := by
  intro k
  induction k with
  | zero => intro s0 s h0 h; cases h; exact h0
  | succ n ih =>
    intro s0 s h0 h
    rw [scan_iter] at h
    split at h
    · cases hb : scan_body mem s0 (iw_extract_event_stream mem s0.stream s0.iwe we) with
      | none => rw [hb] at h; cases h
      | some s1 =>
        rw [hb] at h
        exact ih s1 s (scan_body_f_ne mem s0 s1 _ hb) h
    · cases h

theorem lookup_seven (cmd : Nat) (h : cmd ∈ seven_kinds) :
    4 < event_type_size.getD (match lookup_descr cmd with
      | some d => d.header_type
      | none => 0) 0 := by
  simp only [seven_kinds, List.mem_cons, List.mem_singleton, List.not_mem_nil, or_false] at h
  rcases h with h | h | h | h | h | h | h <;> subst h <;> decide

/-- After an outcome 2 the event id is none of the seven, so the `switch`
changes nothing. -/
theorem scan_switch_skipped (mem : List Nat) (s : stream_descr) (iwe : iw_event) (we : Int)
    (f : Nat) (new : scan_entry)
    (h : (iw_extract_event_stream mem s iwe we).ret = 2) :
    scan_switch mem (iw_extract_event_stream mem s iwe we).iwe f new = some (f, new) := by
  have hcmd : (iw_extract_event_stream mem s iwe we).iwe.cmd ∉ seven_kinds := by
    intro hmem
    have hsz := lookup_seven _ hmem
    rw [extract_eq] at h hmem hsz
    by_cases h0 : s.current + IW_EV_LCP_PK_LEN > s.end_
    · rw [if_pos h0] at h; simp at h
    rw [if_neg h0] at h hmem hsz
    by_cases h1 : hdr_len mem s.current ≤ IW_EV_LCP_PK_LEN
    · rw [if_pos h1] at h; simp at h
    rw [if_neg h1] at h hmem hsz
    by_cases h2 : hdr_size mem s.current ≤ IW_EV_LCP_PK_LEN
    · rw [if_pos h2] at hsz
      have : 4 < hdr_size mem s.current := hsz
      simp only [IW_EV_LCP_PK_LEN] at h2
      omega
    rw [if_neg h2] at h
    by_cases h3 : start_ptr s + fixed_len mem s.current we > s.end_
    · rw [if_pos h3] at h; simp at h
    rw [if_neg h3] at h
    by_cases h4 : hdr_type mem s.current = IW_HEADER_TYPE_POINT
    · rw [if_pos h4, (extract_point_ret _ _ _ _ _ _ _).1] at h; simp at h
    · rw [if_neg h4, (extract_fixed_ret mem s iwe we).1] at h; simp at h
  simp only [seven_kinds, List.mem_cons, List.mem_singleton, List.not_mem_nil, or_false,
    not_or] at hcmd
  obtain ⟨c0, c1, c2, c3, c4, c5, c6⟩ := hcmd
  simp only [scan_switch, if_neg c0, if_neg c1, if_neg c2, if_neg c3, if_neg c4, if_neg c5, if_neg c6]

theorem get_scan_list_of_iter (mem : List Nat) (we : Int) (k : Nat) (s : scan_state)
    (hk : scan_iter mem we k (scan_init mem) = some s)
    (hret : (iw_extract_event_stream mem s.stream s.iwe we).ret ≤ 0) :
    get_scan_list mem we = .done s.head := by
  rw [get_scan_list_eq_loop]
  exact scan_loop_of_iter mem we _ k _ s (scan_loop_total mem we) hk hret

/-- C8, as stated, fails: in `buf_skip_first` the first decoder outcome is
SkippedKnownEmpty (2), the loop goes on, and the one entry of the result is
assembled entirely from the events located after that outcome. -/
theorem skipped_event_does_not_stop_loop :
    (decoder_results buf_skip_first 22).map (fun r => r.ret) = [2, 1, 1, 1, 1, 1, 1, 1, 0] ∧
    get_scan_list buf_skip_first 22 = .done [entry_scenario] ∧
    get_scan_list (buf_skip_first.take 8) 22 = .done [] := by
  decide

/-- C8, amended: the assembler stops at the first decoder outcome that is
MalformedHeader (-1) or EndOfStream (0): if after `k` iterations the decoder
returns -1 or 0, the list returned is the list appended by then, and the
candidate in flight is dropped.  An outcome SkippedKnownEmpty (2) does not
stop it: the loop body runs, leaves the mask and the list as they are (the
candidate is allocated if it was not), and decoding goes on at the next
event.  The `k` iterations are iterations of a defined run: `scan_iter` has
no state past a decoder call that wrote past the event record (protocol
version 18 or below), so the record reaches the call at its full size. -/
theorem loop_stops_at_malformed_or_end (mem : List Nat) (we_version : Int) (k : Nat)
    (s : scan_state) (hk : scan_iter mem we_version k (scan_init mem) = some s) :
    ¬ s.iwe.overrun ∧
    (((iw_extract_event_stream mem s.stream s.iwe we_version).ret = -1 ∨
        (iw_extract_event_stream mem s.stream s.iwe we_version).ret = 0) →
      get_scan_list mem we_version = .done s.head) ∧
    ((iw_extract_event_stream mem s.stream s.iwe we_version).ret = 2 →
      scan_iter mem we_version (k + 1) (scan_init mem) =
        some { stream := (iw_extract_event_stream mem s.stream s.iwe we_version).stream,
               iwe := (iw_extract_event_stream mem s.stream s.iwe we_version).iwe,
               new := some (s.new.getD scan_entry_zero), f := s.f, head := s.head }) := by
  have hsz : s.iwe.u.length = IWREQ_DATA_LEN := scan_iter_u_length mem we_version k (scan_init mem) s rfl hk
  refine ⟨by unfold iw_event.overrun; rw [hsz]; exact Nat.lt_irrefl _, ?_, ?_⟩
  · intro h
    apply get_scan_list_of_iter mem we_version k s hk
    rcases h with h | h <;> omega
  · intro h
    have hf : s.f ≠ 127 := scan_iter_f_ne mem we_version k _ s (by show (0 : Nat) ≠ 127; decide) hk
    have hno : ¬ (iw_extract_event_stream mem s.stream s.iwe we_version).iwe.overrun := by
      intro ho
      have h1 := (extract_overrun_only_legacy_point mem s.stream s.iwe we_version hsz ho).2.1
      omega
    rw [scan_iter_succ, hk]
    simp only [Option.some_bind, scan_iter]
    rw [if_pos (by rw [h]; decide)]
    simp only [scan_body, if_neg hno, scan_switch_skipped mem s.stream s.iwe we_version _ _ h,
      if_neg hf]

/-- C8 amended, at concrete inputs: the scenario buffer (EndOfStream after
seven iterations) and `buf_skip_first` (outcome 2 at the start). -/
theorem loop_stops_at_malformed_or_end_witness :
    (∃ s, scan_iter buf_scenario 22 7 (scan_init buf_scenario) = some s ∧
      (iw_extract_event_stream buf_scenario s.stream s.iwe 22).ret = 0 ∧
      get_scan_list buf_scenario 22 = .done s.head) ∧
    (scan_iter buf_skip_first 22 0 (scan_init buf_skip_first) = some (scan_init buf_skip_first) ∧
      (iw_extract_event_stream buf_skip_first (scan_init buf_skip_first).stream
        (scan_init buf_skip_first).iwe 22).ret = 2 ∧
      (scan_iter buf_skip_first 22 1 (scan_init buf_skip_first)).map (fun s => (s.f, s.head))
        = some (0, [])) :=
  ⟨⟨(scan_iter buf_scenario 22 7 (scan_init buf_scenario)).getD (scan_init buf_scenario),
      by decide, by decide,
      (loop_stops_at_malformed_or_end buf_scenario 22 7
        ((scan_iter buf_scenario 22 7 (scan_init buf_scenario)).getD (scan_init buf_scenario))
        (by decide)).2.1 (Or.inr (by decide))⟩,
    ⟨rfl, by decide, by
      rw [(loop_stops_at_malformed_or_end buf_skip_first 22 0 _ rfl).2.2 (by decide)]
      rfl⟩⟩

/-- C9, as stated, fails: in `buf_truncated_mid` six kinds are decoded, the
seventh call returns TruncatedPayload (-2), and the loop ends there with an
empty list, although the information-element event that follows lies inside
the buffer and would complete the entry if decoding went on from the advanced
cursor. -/
theorem truncated_event_ends_loop :
    (decoder_results buf_truncated_mid 22).map (fun r => r.ret) = [1, 1, 1, 1, 1, 1, -2] ∧
    get_scan_list buf_truncated_mid 22 = .done [] ∧
    ((state_past_next buf_truncated_mid 22 6).map
        (fun s => (s.stream.current, s.stream.end_, s.f,
          (scan_loop buf_truncated_mid 22 3 s)))
      = some (79, 89, 63, .done [{ entry_scenario with flags := 0 }])) := by
  decide

/-- C9, amended: a TruncatedPayload outcome (-2) advances the cursor by the
declared length of the offending event and leaves `value` and `end` as they
were; the assembler loop ends at it, returning the list appended by then
(the candidate in flight is dropped, the events after it are not
decoded).  The iterations before it are those of a defined run: `scan_iter`
has no state past a decoder call that wrote past the event record (protocol
version 18 or below), and a call that returns -2 copies nothing into the
record. -/
theorem truncated_payload_advances_and_stops (mem : List Nat) (we_version : Int) :
    (∀ (stream : stream_descr) (iwe : iw_event),
      (iw_extract_event_stream mem stream iwe we_version).ret = -2 →
      (iw_extract_event_stream mem stream iwe we_version).stream =
        { stream with current := stream.current + hdr_len mem stream.current }) ∧
    (∀ (k : Nat) (s : scan_state), scan_iter mem we_version k (scan_init mem) = some s →
      (iw_extract_event_stream mem s.stream s.iwe we_version).ret = -2 →
      ¬ s.iwe.overrun ∧
      (iw_extract_event_stream mem s.stream s.iwe we_version).iwe.u = s.iwe.u ∧
      get_scan_list mem we_version = .done s.head) := by
  constructor
  · intro stream iwe h
    rcases extract_cases mem stream iwe we_version with
      ⟨_, hr, _⟩ | ⟨_, _, hr, _⟩ | ⟨_, _, _, hr, _⟩ | ⟨_, _, _, _, _, hs⟩ |
      ⟨_, _, _, _, _, hr, _⟩ | ⟨_, _, _, _, _, hr, _⟩
    · rw [hr] at h; cases h
    · rw [hr] at h; cases h
    · rw [hr] at h; cases h
    · exact hs
    · rw [hr] at h; cases h
    · rw [hr] at h; cases h
  · intro k s hk h
    have hsz : s.iwe.u.length = IWREQ_DATA_LEN := scan_iter_u_length mem we_version k (scan_init mem) s rfl hk
    refine ⟨by unfold iw_event.overrun; rw [hsz]; exact Nat.lt_irrefl _, ?_, ?_⟩
    · exact extract_truncated_u mem s.stream s.iwe we_version h
    · apply get_scan_list_of_iter mem we_version k s hk
      omega

/-- C9 amended, at `buf_truncated_mid`: the first call at offset 71 returns
-2 and moves the cursor to 79; the loop, six iterations in, returns the
list built by then. -/
theorem truncated_payload_advances_and_stops_witness :
    ((iw_extract_event_stream buf_truncated_mid ⟨71, none, 89⟩ iwe_init 22).ret = -2 ∧
      (iw_extract_event_stream buf_truncated_mid ⟨71, none, 89⟩ iwe_init 22).stream
        = ⟨79, none, 89⟩) ∧
    (∃ s, scan_iter buf_truncated_mid 22 6 (scan_init buf_truncated_mid) = some s ∧
      (iw_extract_event_stream buf_truncated_mid s.stream s.iwe 22).ret = -2 ∧
      get_scan_list buf_truncated_mid 22 = .done s.head) :=
  ⟨⟨by decide, by
      rw [(truncated_payload_advances_and_stops buf_truncated_mid 22).1 ⟨71, none, 89⟩ iwe_init
        (by decide)]
      decide⟩,
    ⟨(scan_iter buf_truncated_mid 22 6 (scan_init buf_truncated_mid)).getD (scan_init buf_truncated_mid),
      by decide, by decide,
      ((truncated_payload_advances_and_stops buf_truncated_mid 22).2 6
        ((scan_iter buf_truncated_mid 22 6 (scan_init buf_truncated_mid)).getD
          (scan_init buf_truncated_mid)) (by decide) (by decide)).2.2⟩⟩

/-! ### C6: the round trip of well-formed events -/

/-! #### Reading bytes of a buffer given as an append -/

theorem rd_shift (pre m : List Nat) (j : Nat) : rd (pre ++ m) (pre.length + j) = rd m j := by
  unfold rd
  rw [List.getD_append_right _ _ _ _ (Nat.le_add_right _ _)]
  simp

theorem rd_shift_zero (pre m : List Nat) : rd (pre ++ m) pre.length = rd m 0 := by
  have := rd_shift pre m 0
  simpa using this

theorem rd_cons_zero (b : Nat) (l : List Nat) : rd (b :: l) 0 = b % 256 := rfl

theorem rd_cons_succ (b : Nat) (l : List Nat) (j : Nat) : rd (b :: l) (j + 1) = rd l j := rfl

theorem read_bytes_shift (pre m : List Nat) :
    ∀ (n j : Nat), read_bytes (pre ++ m) (pre.length + j) n = read_bytes m j n := by
  intro n
  induction n with
  | zero => intro j; rfl
  | succ n ih =>
    intro j
    simp only [read_bytes, rd_shift]
    rw [Nat.add_assoc, ih]

theorem read_bytes_shift_zero (pre m : List Nat) (n : Nat) :
    read_bytes (pre ++ m) pre.length n = read_bytes m 0 n := by
  have := read_bytes_shift pre m n 0
  simpa using this

theorem read_bytes_cons_succ (b : Nat) (l : List Nat) :
    ∀ (n j : Nat), read_bytes (b :: l) (j + 1) n = read_bytes l j n := by
  intro n
  induction n with
  | zero => intro j; rfl
  | succ n ih => intro j; simp only [read_bytes, rd_cons_succ, ih]

/-- Reading exactly a list of bytes that sits at the front. -/
theorem read_bytes_front : ∀ (l post : List Nat), bytes_ok l →
    read_bytes (l ++ post) 0 l.length = l := by
  intro l
  induction l with
  | nil => intro post _; rfl
  | cons b l ih =>
    intro post h
    have hb : b < 256 := h b (List.mem_cons_self _ _)
    have hl : bytes_ok l := fun x hx => h x (List.mem_cons_of_mem _ hx)
    simp only [List.cons_append, List.length_cons, read_bytes, rd_cons_zero]
    rw [read_bytes_cons_succ, ih post hl, Nat.mod_eq_of_lt hb]

/-- Reading a list of bytes that sits in the middle of the buffer. -/
theorem read_bytes_mid (pre l post : List Nat) (h : bytes_ok l) :
    read_bytes (pre ++ (l ++ post)) pre.length l.length = l := by
  rw [read_bytes_shift_zero, read_bytes_front l post h]

/-- Reading the first `n` bytes of a list that sits at the front. -/
theorem read_bytes_take (l post : List Nat) (n : Nat) (h : bytes_ok l) (hn : n ≤ l.length) :
    read_bytes (l ++ post) 0 n = l.take n := by
  have e : l ++ post = l.take n ++ (l.drop n ++ post) := by
    rw [← List.append_assoc, List.take_append_drop]
  have hlen : (l.take n).length = n := by simp [hn]
  have hok : bytes_ok (l.take n) := fun x hx => h x (List.mem_of_mem_take hx)
  rw [e]
  have := read_bytes_front (l.take n) (l.drop n ++ post) hok
  rw [hlen] at this
  exact this

theorem hdr_len_shift (pre m : List Nat) : hdr_len (pre ++ m) pre.length = hdr_len m 0 := by
  simp only [hdr_len, rd_shift, rd_shift_zero, Nat.zero_add]

theorem hdr_cmd_shift (pre m : List Nat) : hdr_cmd (pre ++ m) pre.length = hdr_cmd m 0 := by
  simp only [hdr_cmd, rd_shift, Nat.zero_add]

theorem hdr_type_shift (pre m : List Nat) : hdr_type (pre ++ m) pre.length = hdr_type m 0 := by
  simp only [hdr_type, hdr_cmd_shift]

theorem hdr_size_shift (pre m : List Nat) : hdr_size (pre ++ m) pre.length = hdr_size m 0 := by
  simp only [hdr_size, hdr_type_shift]

theorem fixed_len_shift (pre m : List Nat) (we : Int) :
    fixed_len (pre ++ m) pre.length we = fixed_len m 0 we := by
  simp only [fixed_len, hdr_type_shift, hdr_size_shift]

theorem hdr_len_header (len cmd : Nat) (rest : List Nat) (h : len < 65536) :
    hdr_len (ev_header len cmd ++ rest) 0 = len := by
  simp only [hdr_len, ev_header, le16_bytes, List.cons_append, List.nil_append, rd_cons_zero,
    rd_cons_succ, Nat.zero_add, Nat.mod_mod]
  omega

theorem hdr_cmd_header (len cmd : Nat) (rest : List Nat) (h : cmd < 65536) :
    hdr_cmd (ev_header len cmd ++ rest) 0 = cmd := by
  simp only [hdr_cmd, ev_header, le16_bytes, List.cons_append, List.nil_append, rd_cons_zero,
    rd_cons_succ, Nat.zero_add, Nat.mod_mod]
  omega

/-! #### The decoder on well-formed events -/

/-- The decoder on a fixed-size event whose declared length is exactly its
packed size, met with `value` unset and lying inside the buffer. -/
theorem extract_fixed_event (mem : List Nat) (s : stream_descr) (iwe : iw_event) (we : Int)
    (hv : s.value = none)
    (hty : hdr_type mem s.current ≠ IW_HEADER_TYPE_POINT)
    (hsz : 4 < hdr_size mem s.current)
    (hlen : hdr_len mem s.current = hdr_size mem s.current)
    (hend : s.current + hdr_size mem s.current ≤ s.end_) :
    iw_extract_event_stream mem s iwe we =
      ⟨1, { current := s.current + hdr_size mem s.current, value := none, end_ := s.end_ },
        iwe_copied mem s iwe we,
        [(s.current, 4), (s.current + 4, hdr_size mem s.current - 4)]⟩ := by
  have hel : fixed_len mem s.current we = hdr_size mem s.current - 4 := by
    unfold fixed_len
    rw [if_neg (fun h => hty h.2)]; rfl
  have hsp : start_ptr s = s.current + 4 := by simp [start_ptr, hv, IW_EV_LCP_PK_LEN]
  rw [extract_eq]
  rw [if_neg (by simp only [IW_EV_LCP_PK_LEN]; omega)]
  rw [if_neg (by simp only [IW_EV_LCP_PK_LEN]; omega)]
  rw [if_neg (by simp only [IW_EV_LCP_PK_LEN]; omega)]
  rw [if_neg (by rw [hel, hsp]; omega)]
  rw [if_neg hty]
  unfold extract_fixed
  have hl : (iwe_copied mem s iwe we).len = hdr_len mem s.current := rfl
  have hnofix : ¬ (s.value = none ∧
      (((iwe_copied mem s iwe we).len - IW_EV_LCP_PK_LEN) % fixed_len mem s.current we = 4 ∨
        ((iwe_copied mem s iwe we).len = 12 ∧
          (hdr_type mem s.current = IW_HEADER_TYPE_UINT ∨
            hdr_type mem s.current = IW_HEADER_TYPE_QUAL)))) := by
    rw [hl, hel, hlen]
    simp only [IW_EV_LCP_PK_LEN, Nat.mod_self]
    rintro ⟨_, h | ⟨h12, h⟩⟩
    · omega
    · have h8 : hdr_size mem s.current = 8 := by
        unfold hdr_size
        rcases h with h | h <;> rw [h] <;> rfl
      omega
  rw [if_neg hnofix]
  unfold fixed_advance
  rw [if_neg (by rw [hl, hel, hsp, hlen]; omega)]
  simp only [hl, hlen, hel, hsp, IW_EV_LCP_PK_LEN, List.cons_append, List.nil_append]

/-- The `unsigned` difference of line 423 when the declared length covers
the fixed part. -/
theorem extra_len_eq (len el : Nat) (h : el + 4 ≤ len) (hlt : len < 2 ^ 32) :
    (len + 2 ^ 32 - (el + IW_EV_LCP_PK_LEN)) % 2 ^ 32 = len - (el + 4) := by
  simp only [IW_EV_LCP_PK_LEN]
  omega

/-- The decoder on an `iw_point` event with token size 1 whose declared
length is header + fixed part + `length` payload bytes, with `length` within
the descriptor's bounds. -/
theorem extract_point_event (mem : List Nat) (s : stream_descr) (iwe : iw_event) (we : Int)
    (d : iw_ioctl_description) (n : Nat)
    (hv : s.value = none)
    (hty : hdr_type mem s.current = IW_HEADER_TYPE_POINT)
    (hd : lookup_descr (hdr_cmd mem s.current) = some d)
    (hts : d.token_size = 1) (hmin : d.min_tokens = 0) (hmax : n ≤ d.max_tokens)
    (hn : (iwe_copied mem s iwe we).data_length = n)
    (hlen : hdr_len mem s.current = 4 + fixed_len mem s.current we + n)
    (hlt : hdr_len mem s.current < 65536)
    (hend : s.current + 4 + fixed_len mem s.current we ≤ s.end_) :
    iw_extract_event_stream mem s iwe we =
      ⟨1, { current := s.current + hdr_len mem s.current, value := none, end_ := s.end_ },
        { iwe_copied mem s iwe we with
          pointer := if 0 < n then some (s.current + 4 + fixed_len mem s.current we) else none },
        [(s.current, 4), (s.current + 4, fixed_len mem s.current we)]⟩ := by
  have hsz : hdr_size mem s.current = 8 := by
    unfold hdr_size; rw [hty]; rfl
  have hel : 4 ≤ fixed_len mem s.current we := by
    unfold fixed_len; rw [hsz]; simp only [IW_EV_LCP_PK_LEN, IW_EV_POINT_OFF]; split <;> omega
  have hsp : start_ptr s = s.current + 4 := by simp [start_ptr, hv, IW_EV_LCP_PK_LEN]
  rw [extract_eq]
  rw [if_neg (by simp only [IW_EV_LCP_PK_LEN]; omega)]
  rw [if_neg (by simp only [IW_EV_LCP_PK_LEN]; omega)]
  rw [if_neg (by simp only [IW_EV_LCP_PK_LEN]; omega)]
  rw [if_neg (by rw [hsp]; omega)]
  rw [if_pos hty]
  have hl : (iwe_copied mem s iwe we).len = hdr_len mem s.current := rfl
  have hex : ((iwe_copied mem s iwe we).len + 2 ^ 32 -
      (fixed_len mem s.current we + IW_EV_LCP_PK_LEN)) % 2 ^ 32 = n := by
    rw [hl, extra_len_eq _ _ (by omega) (by omega)]; omega
  unfold extract_point
  simp only [hex, hd]
  by_cases hn0 : 0 < n
  · rw [if_pos hn0]
    have hdl : ({ iwe_copied mem s iwe we with
        pointer := some (start_ptr s + fixed_len mem s.current we) } : iw_event).data_length = n := hn
    have htl : n * d.token_size % 2 ^ 32 = n := by
      rw [hts, Nat.mul_one]; apply Nat.mod_eq_of_lt; omega
    simp only [hdl, htl, point_fixup, ne_eq, not_true_eq_false, false_and, if_false,
      point_discard, gt_iff_lt, lt_irrefl, hmin, Nat.not_lt_zero, List.append_nil]
    rw [if_neg (by omega)]
    simp only [hl, hsp, hv, IW_EV_LCP_PK_LEN, List.cons_append, List.nil_append, if_pos hn0]
  · rw [if_neg hn0, if_neg hn0]
    simp only [hl, hsp, hv, IW_EV_LCP_PK_LEN, List.cons_append, List.nil_append]

theorem iwe_copied_at (pre m : List Nat) (iwe : iw_event) (we : Int) :
    iwe_copied (pre ++ m) (stream_at (pre ++ m) pre.length) iwe we =
      { len := hdr_len m 0, cmd := hdr_cmd m 0,
        u := memcpy_into iwe.u
          (if we > 18 ∧ hdr_type m 0 = IW_HEADER_TYPE_POINT then IW_EV_POINT_OFF else 0)
          (read_bytes m 4 (fixed_len m 0 we)),
        pointer := iwe.pointer } := by
  simp only [iwe_copied, iwe_hdr, stream_at, start_ptr, hdr_len_shift, hdr_cmd_shift,
    hdr_type_shift, fixed_len_shift, IW_EV_LCP_PK_LEN, read_bytes_shift]

theorem le32_bytes_val (x : Nat) (h : x < 2 ^ 32) (rest : List Nat) :
    le32 (le32_bytes x ++ rest) 0 = x := by
  simp only [le32, le16, le32_bytes, List.cons_append, List.nil_append, List.getD_cons_zero,
    List.getD_cons_succ, Nat.zero_add]
  omega

theorem le16_bytes_val (x : Nat) (h : x < 2 ^ 16) (rest : List Nat) :
    le16 (le16_bytes x ++ rest) 0 = x := by
  simp only [le16, le16_bytes, List.cons_append, List.nil_append, List.getD_cons_zero,
    List.getD_cons_succ, Nat.zero_add]
  omega

theorem bytes_ok_le16_bytes (x : Nat) : bytes_ok (le16_bytes x) := by
  intro b hb
  simp only [le16_bytes, List.mem_cons, List.mem_singleton, List.not_mem_nil, or_false] at hb
  rcases hb with h | h <;> omega

theorem bytes_ok_le32_bytes (x : Nat) : bytes_ok (le32_bytes x) := by
  intro b hb
  simp only [le32_bytes, List.mem_cons, List.mem_singleton, List.not_mem_nil, or_false] at hb
  rcases hb with h | h | h | h <;> omega

theorem bytes_ok_append (l1 l2 : List Nat) (h1 : bytes_ok l1) (h2 : bytes_ok l2) :
    bytes_ok (l1 ++ l2) := by
  intro b hb
  rcases List.mem_append.mp hb with h | h
  · exact h1 b h
  · exact h2 b h

theorem bytes_ok_replicate_zero (n : Nat) : bytes_ok (List.replicate n 0) := by
  intro b hb
  rw [List.eq_of_mem_replicate hb]; decide

theorem ev_header_length (len cmd : Nat) : (ev_header len cmd).length = 4 := rfl

theorem read_bytes_after_header (len cmd : Nat) (rest : List Nat) (j n : Nat) :
    read_bytes (ev_header len cmd ++ rest) (4 + j) n = read_bytes rest j n := by
  have := read_bytes_shift (ev_header len cmd) rest n j
  rwa [ev_header_length] at this

theorem read_bytes_after_header_zero (len cmd : Nat) (rest : List Nat) (n : Nat) :
    read_bytes (ev_header len cmd ++ rest) 4 n = read_bytes rest 0 n :=
  read_bytes_after_header len cmd rest 0 n

theorem memcpy_into_zero (u l : List Nat) : memcpy_into u 0 l = l ++ u.drop l.length := by
  simp [memcpy_into]

theorem to_signed_small (w x : Nat) (h : x < 2 ^ (w - 1)) : to_signed w x = (x : Int) := by
  unfold to_signed
  rw [if_pos h]

theorem scan_switch_mode (mem : List Nat) (iwe : iw_event) (f : Nat) (new : scan_entry)
    (h : iwe.cmd = SIOCGIWMODE) :
    scan_switch mem iwe f new = some (f ||| 4, { new with mode := to_signed 32 (le32 iwe.u 0) }) := by
  unfold scan_switch
  rw [if_neg (by rw [h]; decide), if_neg (by rw [h]; decide), if_pos h]

/-- Facts about a fixed-size event that sits at the front of `m`. -/
theorem fixed_event_facts (sz cmd ty : Nat) (rest : List Nat) (hsz : sz < 65536)
    (hcmd : cmd < 65536)
    (hty : (match lookup_descr cmd with
      | some d => d.header_type
      | none => 0) = ty)
    (hsize : event_type_size.getD ty 0 = sz) (hpt : ty ≠ IW_HEADER_TYPE_POINT) (we : Int) :
    hdr_len (ev_header sz cmd ++ rest) 0 = sz ∧ hdr_cmd (ev_header sz cmd ++ rest) 0 = cmd ∧
    hdr_type (ev_header sz cmd ++ rest) 0 = ty ∧ hdr_size (ev_header sz cmd ++ rest) 0 = sz ∧
    fixed_len (ev_header sz cmd ++ rest) 0 we = sz - 4 := by
  have h1 := hdr_len_header sz cmd rest hsz
  have h2 := hdr_cmd_header sz cmd rest hcmd
  have h3 : hdr_type (ev_header sz cmd ++ rest) 0 = ty := by unfold hdr_type; rw [h2]; exact hty
  have h4 : hdr_size (ev_header sz cmd ++ rest) 0 = sz := by unfold hdr_size; rw [h3]; exact hsize
  refine ⟨h1, h2, h3, h4, ?_⟩
  unfold fixed_len
  rw [if_neg (fun h => hpt (h3 ▸ h.2)), h4]; rfl

/-- The decoder on a well-formed fixed-size event in the middle of a
buffer. -/
theorem decode_fixed_at (sz cmd ty : Nat) (pre body post : List Nat) (iwe : iw_event)
    (we : Int) (hsz : sz < 65536) (h4 : 4 < sz) (hcmd : cmd < 65536)
    (hty : (match lookup_descr cmd with
      | some d => d.header_type
      | none => 0) = ty)
    (hsize : event_type_size.getD ty 0 = sz) (hpt : ty ≠ IW_HEADER_TYPE_POINT)
    (hbody : body.length = sz - 4) (hok : bytes_ok body) :
    iw_extract_event_stream (pre ++ (ev_header sz cmd ++ (body ++ post)))
        (stream_at (pre ++ (ev_header sz cmd ++ (body ++ post))) pre.length) iwe we =
      ⟨1, stream_at (pre ++ (ev_header sz cmd ++ (body ++ post))) (pre.length + sz),
        { len := sz, cmd := cmd, u := body ++ iwe.u.drop body.length, pointer := iwe.pointer },
        [(pre.length, 4), (pre.length + 4, sz - 4)]⟩ := by
  obtain ⟨f1, f2, f3, f4, f5⟩ := fixed_event_facts sz cmd ty (body ++ post) hsz hcmd hty hsize hpt we
  have hlength : (pre ++ (ev_header sz cmd ++ (body ++ post))).length
      = pre.length + sz + post.length := by
    simp only [List.length_append, ev_header_length, hbody]; omega
  have hex := extract_fixed_event (pre ++ (ev_header sz cmd ++ (body ++ post)))
    (stream_at (pre ++ (ev_header sz cmd ++ (body ++ post))) pre.length) iwe we rfl
    (by show hdr_type _ pre.length ≠ _; rw [hdr_type_shift, f3]; exact hpt)
    (by show 4 < hdr_size _ pre.length; rw [hdr_size_shift, f4]; exact h4)
    (by show hdr_len _ pre.length = hdr_size _ pre.length; rw [hdr_size_shift, hdr_len_shift, f1, f4])
    (by show pre.length + hdr_size _ pre.length ≤ (pre ++ (ev_header sz cmd ++ (body ++ post))).length
        rw [hdr_size_shift, f4, hlength]; omega)
  rw [hex, iwe_copied_at, f1, f2, f3, f5]
  have e1 : (stream_at (pre ++ (ev_header sz cmd ++ (body ++ post))) pre.length).current
      = pre.length := rfl
  have e2 : (stream_at (pre ++ (ev_header sz cmd ++ (body ++ post))) pre.length).end_
      = (pre ++ (ev_header sz cmd ++ (body ++ post))).length := rfl
  rw [e1, e2, hdr_size_shift, f4, if_neg (fun h => hpt h.2), read_bytes_after_header_zero,
    ← hbody, read_bytes_front body post hok, memcpy_into_zero]
  rfl

theorem scan_switch_addr (mem : List Nat) (iwe : iw_event) (f : Nat) (new : scan_entry)
    (h : iwe.cmd = SIOCGIWAP) :
    scan_switch mem iwe f new = some (1, { new with ap_addr := (iwe.u.drop 2).take 6 }) := by
  unfold scan_switch
  rw [if_pos h]

theorem scan_switch_freq (mem : List Nat) (iwe : iw_event) (f : Nat) (new : scan_entry)
    (h : iwe.cmd = SIOCGIWFREQ) :
    scan_switch mem iwe f new = some (f ||| 8,
      { new with freq := freq_to_hz (to_signed 32 (le32 iwe.u 0)) (to_signed 16 (le16 iwe.u 4)) }) := by
  unfold scan_switch
  rw [if_neg (by rw [h]; decide), if_neg (by rw [h]; decide), if_neg (by rw [h]; decide), if_pos h]

theorem scan_switch_qual (mem : List Nat) (iwe : iw_event) (f : Nat) (new : scan_entry)
    (h : iwe.cmd = IWEVQUAL) :
    scan_switch mem iwe f new = some (f ||| 32,
      { new with qual := ⟨iwe.u.getD 0 0, iwe.u.getD 1 0, iwe.u.getD 2 0, iwe.u.getD 3 0⟩ }) := by
  unfold scan_switch
  rw [if_neg (by rw [h]; decide), if_neg (by rw [h]; decide), if_neg (by rw [h]; decide),
    if_neg (by rw [h]; decide), if_neg (by rw [h]; decide), if_pos h]

theorem length_body_drop (body u : List Nat) (hb : body.length ≤ IWREQ_DATA_LEN)
    (hu : u.length = IWREQ_DATA_LEN) : (body ++ u.drop body.length).length = IWREQ_DATA_LEN := by
  simp only [List.length_append, List.length_drop]; omega

theorem decode_mode (we : Int) (a : ap_report) (hwf : a.wf) (pre post : List Nat)
    (iwe : iw_event) (hu : iwe.u.length = IWREQ_DATA_LEN) (f : Nat) (new : scan_entry) :
    decodes_as (pre ++ (encode_kind we a .mode ++ post)) we pre.length
      (pre.length + (encode_kind we a .mode).length) iwe f new
      (kind_mask .mode f) (kind_update a .mode new) := by
  obtain ⟨_, _, hmode, _⟩ := hwf
  have hm : encode_kind we a .mode ++ post =
      ev_header IW_EV_UINT_PK_LEN SIOCGIWMODE ++ (le32_bytes a.mode ++ post) := by
    simp only [encode_kind, List.append_assoc]
  have hl : (encode_kind we a .mode).length = IW_EV_UINT_PK_LEN := rfl
  unfold decodes_as
  rw [hm, hl]
  rw [decode_fixed_at IW_EV_UINT_PK_LEN SIOCGIWMODE IW_HEADER_TYPE_UINT pre (le32_bytes a.mode) post
    iwe we (by decide) (by decide) (by decide) rfl rfl (by decide) rfl (bytes_ok_le32_bytes _)]
  refine ⟨rfl, rfl, length_body_drop _ _ (by show (4 : Nat) ≤ 16; decide) hu, ?_⟩
  rw [scan_switch_mode _ _ _ _ rfl]
  simp only [le32_bytes_val a.mode (by omega), to_signed_small 32 a.mode hmode, kind_mask,
    kind_update]

theorem decode_qual (we : Int) (a : ap_report) (hwf : a.wf) (pre post : List Nat)
    (iwe : iw_event) (hu : iwe.u.length = IWREQ_DATA_LEN) (f : Nat) (new : scan_entry) :
    decodes_as (pre ++ (encode_kind we a .qual ++ post)) we pre.length
      (pre.length + (encode_kind we a .qual).length) iwe f new
      (kind_mask .qual f) (kind_update a .qual new) := by
  obtain ⟨_, _, _, _, _, ⟨hq, hl, hn, hup⟩, _⟩ := hwf
  have hm : encode_kind we a .qual ++ post =
      ev_header IW_EV_QUAL_PK_LEN IWEVQUAL ++
        ([a.qual.qual, a.qual.level, a.qual.noise, a.qual.updated] ++ post) := by
    simp only [encode_kind, List.append_assoc]
  have hlen : (encode_kind we a .qual).length = IW_EV_QUAL_PK_LEN := rfl
  have hok : bytes_ok [a.qual.qual, a.qual.level, a.qual.noise, a.qual.updated] := by
    intro b hb
    simp only [List.mem_cons, List.mem_singleton, List.not_mem_nil, or_false] at hb
    rcases hb with h | h | h | h <;> omega
  unfold decodes_as
  rw [hm, hlen]
  rw [decode_fixed_at IW_EV_QUAL_PK_LEN IWEVQUAL IW_HEADER_TYPE_QUAL pre
    [a.qual.qual, a.qual.level, a.qual.noise, a.qual.updated] post
    iwe we (by decide) (by decide) (by decide) rfl rfl (by decide) rfl hok]
  refine ⟨rfl, rfl, length_body_drop _ _ (by show (4 : Nat) ≤ 16; decide) hu, ?_⟩
  rw [scan_switch_qual _ _ _ _ rfl]
  rfl

theorem decode_freq (we : Int) (a : ap_report) (hwf : a.wf) (pre post : List Nat)
    (iwe : iw_event) (hu : iwe.u.length = IWREQ_DATA_LEN) (f : Nat) (new : scan_entry) :
    decodes_as (pre ++ (encode_kind we a .freq ++ post)) we pre.length
      (pre.length + (encode_kind we a .freq).length) iwe f new
      (kind_mask .freq f) (kind_update a .freq new) := by
  obtain ⟨_, _, _, ⟨hfm, hfe⟩, _⟩ := hwf
  have hm : encode_kind we a .freq ++ post =
      ev_header IW_EV_FREQ_PK_LEN SIOCGIWFREQ ++
        ((le32_bytes a.freq_m ++ le16_bytes a.freq_e ++ [0, 0]) ++ post) := by
    simp only [encode_kind, List.append_assoc]
  have hlen : (encode_kind we a .freq).length = IW_EV_FREQ_PK_LEN := rfl
  have hok : bytes_ok (le32_bytes a.freq_m ++ le16_bytes a.freq_e ++ [0, 0]) :=
    bytes_ok_append _ _ (bytes_ok_append _ _ (bytes_ok_le32_bytes _) (bytes_ok_le16_bytes _))
      (bytes_ok_replicate_zero 2)
  unfold decodes_as
  rw [hm, hlen]
  rw [decode_fixed_at IW_EV_FREQ_PK_LEN SIOCGIWFREQ IW_HEADER_TYPE_FREQ pre
    (le32_bytes a.freq_m ++ le16_bytes a.freq_e ++ [0, 0]) post
    iwe we (by decide) (by decide) (by decide) rfl rfl (by decide)
    (by simp [le32_bytes, le16_bytes, IW_EV_FREQ_PK_LEN, IW_EV_LCP_PK_LEN]) hok]
  refine ⟨rfl, rfl, length_body_drop _ _ (by simp [le32_bytes, le16_bytes, IWREQ_DATA_LEN]) hu, ?_⟩
  rw [scan_switch_freq _ _ _ _ rfl]
  have e1 : le32 (le32_bytes a.freq_m ++ le16_bytes a.freq_e ++ [0, 0] ++
      List.drop (le32_bytes a.freq_m ++ le16_bytes a.freq_e ++ [0, 0]).length iwe.u) 0 = a.freq_m := by
    rw [List.append_assoc, List.append_assoc]
    exact le32_bytes_val _ (by omega) _
  have e2 : le16 (le32_bytes a.freq_m ++ le16_bytes a.freq_e ++ [0, 0] ++
      List.drop (le32_bytes a.freq_m ++ le16_bytes a.freq_e ++ [0, 0]).length iwe.u) 4 = a.freq_e := by
    simp only [le16, le32_bytes, le16_bytes, List.cons_append, List.nil_append,
      List.getD_cons_succ, List.getD_cons_zero]
    omega
  simp only [e1, e2, to_signed_small 32 a.freq_m hfm, to_signed_small 16 a.freq_e hfe, kind_mask,
    kind_update]

theorem decode_addr (we : Int) (a : ap_report) (hwf : a.wf) (pre post : List Nat)
    (iwe : iw_event) (hu : iwe.u.length = IWREQ_DATA_LEN) (f : Nat) (new : scan_entry) :
    decodes_as (pre ++ (encode_kind we a .addr ++ post)) we pre.length
      (pre.length + (encode_kind we a .addr).length) iwe f new
      (kind_mask .addr f) (kind_update a .addr new) := by
  obtain ⟨⟨hbl, hbo⟩, _⟩ := hwf
  have hm : encode_kind we a .addr ++ post =
      ev_header IW_EV_ADDR_PK_LEN SIOCGIWAP ++
        (([1, 0] ++ a.bssid ++ List.replicate 8 0) ++ post) := by
    simp only [encode_kind, List.append_assoc]
  have hlen : (encode_kind we a .addr).length = IW_EV_ADDR_PK_LEN := by
    simp [encode_kind, ev_header_length, hbl, IW_EV_ADDR_PK_LEN, IW_EV_LCP_PK_LEN]
  have hok : bytes_ok ([1, 0] ++ a.bssid ++ List.replicate 8 0) :=
    bytes_ok_append _ _ (bytes_ok_append _ _ (by intro b hb; simp at hb; omega) hbo)
      (bytes_ok_replicate_zero 8)
  have hbody : ([1, 0] ++ a.bssid ++ List.replicate 8 0).length = IW_EV_ADDR_PK_LEN - 4 := by
    simp [hbl, IW_EV_ADDR_PK_LEN, IW_EV_LCP_PK_LEN]
  unfold decodes_as
  rw [hm, hlen]
  rw [decode_fixed_at IW_EV_ADDR_PK_LEN SIOCGIWAP IW_HEADER_TYPE_ADDR pre
    ([1, 0] ++ a.bssid ++ List.replicate 8 0) post
    iwe we (by decide) (by decide) (by decide) rfl rfl (by decide) hbody hok]
  refine ⟨rfl, rfl, length_body_drop _ _ (by rw [hbody]; decide) hu, ?_⟩
  rw [scan_switch_addr _ _ _ _ rfl]
  have e : (List.drop 2 ([1, 0] ++ a.bssid ++ List.replicate 8 0 ++
      List.drop ([1, 0] ++ a.bssid ++ List.replicate 8 0).length iwe.u)).take 6 = a.bssid := by
    rw [List.append_assoc, List.append_assoc]
    show (a.bssid ++ _).take 6 = a.bssid
    rw [← hbl, List.take_left']
    rfl
  simp only [e, kind_mask, kind_update]

theorem point_fixed_length (we : Int) (n fl : Nat) :
    (point_fixed we n fl).length = if we ≤ 18 then 12 else 4 := by
  unfold point_fixed
  split <;> rfl

theorem bytes_ok_point_fixed (we : Int) (n fl : Nat) : bytes_ok (point_fixed we n fl) := by
  unfold point_fixed
  apply bytes_ok_append
  · split
    · exact bytes_ok_replicate_zero _
    · intro b hb; cases hb
  · exact bytes_ok_append _ _ (bytes_ok_le16_bytes _) (bytes_ok_le16_bytes _)

/-- The union after the fixed part of an `iw_point` event has been copied
in: `length` and `flags` read back. -/
theorem point_fixed_copied (we : Int) (n fl : Nat) (u : List Nat) (hu : u.length = IWREQ_DATA_LEN)
    (hn : n < 65536) (hfl : fl < 65536) :
    (memcpy_into u (if we > 18 then IW_EV_POINT_OFF else 0) (point_fixed we n fl)).length
      = IWREQ_DATA_LEN ∧
    le16 (memcpy_into u (if we > 18 then IW_EV_POINT_OFF else 0) (point_fixed we n fl))
      IW_EV_POINT_OFF = n ∧
    le16 (memcpy_into u (if we > 18 then IW_EV_POINT_OFF else 0) (point_fixed we n fl))
      (IW_EV_POINT_OFF + 2) = fl := by
  obtain ⟨u0, u1, u2, u3, u4, u5, u6, u7, rest, hrest, rfl⟩ :
      ∃ u0 u1 u2 u3 u4 u5 u6 u7 rest, rest.length = 8 ∧
        u = u0 :: u1 :: u2 :: u3 :: u4 :: u5 :: u6 :: u7 :: rest := by
    match u, hu with
    | u0 :: u1 :: u2 :: u3 :: u4 :: u5 :: u6 :: u7 :: rest, h =>
      exact ⟨u0, u1, u2, u3, u4, u5, u6, u7, rest, by simpa [IWREQ_DATA_LEN] using h, rfl⟩
  by_cases hwe : we ≤ 18
  · have h1 : ¬ we > 18 := by omega
    simp only [point_fixed, if_pos hwe, if_neg h1, memcpy_into, IW_EV_POINT_OFF, le16_bytes,
      List.replicate, List.take_zero, List.nil_append, List.cons_append, List.length_cons,
      List.length_nil, le16, List.getD_cons_succ, List.getD_cons_zero, IWREQ_DATA_LEN,
      List.length_append, List.length_drop, List.drop_succ_cons, Nat.zero_add]
    refine ⟨by omega, by omega, by omega⟩
  · have h1 : we > 18 := by omega
    simp only [point_fixed, if_neg hwe, if_pos h1, memcpy_into, IW_EV_POINT_OFF, le16_bytes,
      List.take_succ_cons, List.take_zero, List.nil_append, List.cons_append, List.length_cons,
      List.length_nil, le16, List.getD_cons_succ, List.getD_cons_zero, IWREQ_DATA_LEN,
      List.length_append, List.length_drop, List.drop_succ_cons, Nat.zero_add]
    refine ⟨by omega, by omega, by omega⟩

theorem point_event_length (we : Int) (cmd fl : Nat) (payload : List Nat) :
    (point_event we cmd fl payload).length =
      4 + (point_fixed we payload.length fl).length + payload.length := by
  simp only [point_event, List.length_append, ev_header_length]; omega

/-- The decoder on a well-formed `iw_point` event in the middle of a
buffer. -/
theorem decode_point_at (we : Int) (cmd fl : Nat) (payload pre post : List Nat) (iwe : iw_event)
    (d : iw_ioctl_description) (hcmd : cmd < 65536) (hd : lookup_descr cmd = some d)
    (hpt : d.header_type = IW_HEADER_TYPE_POINT) (hts : d.token_size = 1)
    (hmin : d.min_tokens = 0) (hmax : payload.length ≤ d.max_tokens)
    (hn : payload.length ≤ 1024) (hfl : fl < 65536) (hu : iwe.u.length = IWREQ_DATA_LEN) :
    (iw_extract_event_stream (pre ++ (point_event we cmd fl payload ++ post))
        (stream_at (pre ++ (point_event we cmd fl payload ++ post)) pre.length) iwe we).ret = 1 ∧
    (iw_extract_event_stream (pre ++ (point_event we cmd fl payload ++ post))
        (stream_at (pre ++ (point_event we cmd fl payload ++ post)) pre.length) iwe we).stream =
      stream_at (pre ++ (point_event we cmd fl payload ++ post))
        (pre.length + (point_event we cmd fl payload).length) ∧
    (iw_extract_event_stream (pre ++ (point_event we cmd fl payload ++ post))
        (stream_at (pre ++ (point_event we cmd fl payload ++ post)) pre.length) iwe we).iwe.cmd
      = cmd ∧
    (iw_extract_event_stream (pre ++ (point_event we cmd fl payload ++ post))
        (stream_at (pre ++ (point_event we cmd fl payload ++ post)) pre.length) iwe we).iwe.u.length
      = IWREQ_DATA_LEN ∧
    (iw_extract_event_stream (pre ++ (point_event we cmd fl payload ++ post))
        (stream_at (pre ++ (point_event we cmd fl payload ++ post)) pre.length) iwe we).iwe.data_length
      = payload.length ∧
    (iw_extract_event_stream (pre ++ (point_event we cmd fl payload ++ post))
        (stream_at (pre ++ (point_event we cmd fl payload ++ post)) pre.length) iwe we).iwe.data_flags
      = fl ∧
    (iw_extract_event_stream (pre ++ (point_event we cmd fl payload ++ post))
        (stream_at (pre ++ (point_event we cmd fl payload ++ post)) pre.length) iwe we).iwe.pointer
      = (if 0 < payload.length
          then some (pre.length + 4 + (point_fixed we payload.length fl).length) else none) := by
  have hfxl := point_fixed_length we payload.length fl
  have hfx12 : (point_fixed we payload.length fl).length ≤ 12 := by rw [hfxl]; split <;> omega
  have hfx4 : 4 ≤ (point_fixed we payload.length fl).length := by rw [hfxl]; split <;> omega
  have hm : point_event we cmd fl payload ++ post =
      ev_header (IW_EV_LCP_PK_LEN + (point_fixed we payload.length fl).length + payload.length) cmd ++
        (point_fixed we payload.length fl ++ (payload ++ post)) := by
    simp only [point_event, List.append_assoc]
  have hlenlt : IW_EV_LCP_PK_LEN + (point_fixed we payload.length fl).length + payload.length
      < 65536 := by simp only [IW_EV_LCP_PK_LEN]; omega
  rw [point_event_length, hm]
  generalize hmd : ev_header (IW_EV_LCP_PK_LEN + (point_fixed we payload.length fl).length +
      payload.length) cmd ++ (point_fixed we payload.length fl ++ (payload ++ post)) = m
  have f1 : hdr_len m 0 = 4 + (point_fixed we payload.length fl).length + payload.length := by
    rw [← hmd, hdr_len_header _ _ _ hlenlt]; rfl
  have f2 : hdr_cmd m 0 = cmd := by rw [← hmd, hdr_cmd_header _ _ _ hcmd]
  have f3 : hdr_type m 0 = IW_HEADER_TYPE_POINT := by
    unfold hdr_type; rw [f2, hd]; exact hpt
  have f4 : hdr_size m 0 = 8 := by unfold hdr_size; rw [f3]; rfl
  have f5 : fixed_len m 0 we = (point_fixed we payload.length fl).length := by
    unfold fixed_len
    rw [f3, f4, hfxl]
    by_cases hwe : we ≤ 18
    · rw [if_pos ⟨hwe, rfl⟩, if_pos hwe]; rfl
    · rw [if_neg (fun h => hwe h.1), if_neg hwe]; rfl
  have hrb : read_bytes m 4 (fixed_len m 0 we) = point_fixed we payload.length fl := by
    rw [f5, ← hmd, read_bytes_after_header_zero,
      read_bytes_front _ _ (bytes_ok_point_fixed we payload.length fl)]
  have hdst : (if we > 18 ∧ hdr_type m 0 = IW_HEADER_TYPE_POINT then IW_EV_POINT_OFF else 0)
      = (if we > 18 then IW_EV_POINT_OFF else 0) := by
    rw [f3]; simp
  have hco := iwe_copied_at pre m iwe we
  rw [hrb, hdst] at hco
  obtain ⟨c1, c2, c3⟩ := point_fixed_copied we payload.length fl iwe.u hu (by omega) hfl
  have hlength : (pre ++ m).length = pre.length + (4 + (point_fixed we payload.length fl).length +
      payload.length) + post.length := by
    rw [← hmd]; simp only [List.length_append, ev_header_length]; omega
  have hex := extract_point_event (pre ++ m) (stream_at (pre ++ m) pre.length) iwe we d
    payload.length rfl
    (by show hdr_type _ pre.length = _; rw [hdr_type_shift, f3])
    (by show lookup_descr (hdr_cmd _ pre.length) = _; rw [hdr_cmd_shift, f2, hd])
    hts hmin hmax
    (by rw [hco]; exact c2)
    (by show hdr_len _ pre.length = 4 + fixed_len _ pre.length we + _
        rw [hdr_len_shift, fixed_len_shift, f1, f5])
    (by show hdr_len _ pre.length < _; rw [hdr_len_shift, f1]; omega)
    (by show pre.length + 4 + fixed_len _ pre.length we ≤ (pre ++ m).length
        rw [fixed_len_shift, f5, hlength]; omega)
  rw [hex, hco]
  refine ⟨rfl, ?_, f2, c1, c2, c3, ?_⟩
  · show (⟨pre.length + hdr_len _ pre.length, none, _⟩ : stream_descr) = _
    rw [hdr_len_shift, f1]; rfl
  · show (if 0 < payload.length then some (pre.length + 4 + fixed_len _ pre.length we) else none) = _
    rw [fixed_len_shift, f5]

theorem scan_switch_essid (mem : List Nat) (iwe : iw_event) (f : Nat) (new : scan_entry)
    (h : iwe.cmd = SIOCGIWESSID) :
    scan_switch mem iwe f new = some (f ||| 2,
      { new with essid :=
          match iwe.pointer with
          | some p =>
            if iwe.data_flags ≠ 0 ∧ iwe.data_length ≠ 0
            then memcpy_into (List.replicate ESSID_BUF_LEN 0) 0 (read_bytes mem p iwe.data_length)
            else List.replicate ESSID_BUF_LEN 0
          | none => List.replicate ESSID_BUF_LEN 0 }) := by
  unfold scan_switch
  rw [if_neg (by rw [h]; decide), if_pos h]

theorem scan_switch_encode (mem : List Nat) (iwe : iw_event) (f : Nat) (new : scan_entry)
    (h : iwe.cmd = SIOCGIWENCODE) :
    scan_switch mem iwe f new = some (f ||| 16,
      { new with has_key := decide (iwe.data_flags &&& IW_ENCODE_DISABLED = 0) }) := by
  unfold scan_switch
  rw [if_neg (by rw [h]; decide), if_neg (by rw [h]; decide), if_neg (by rw [h]; decide),
    if_neg (by rw [h]; decide), if_pos h]

theorem scan_switch_genie (mem : List Nat) (iwe : iw_event) (f : Nat) (new : scan_entry)
    (h : iwe.cmd = IWEVGENIE) :
    scan_switch mem iwe f new =
      match iw_extract_ie mem iwe new with
      | some r => some (f ||| 64, r.1)
      | none => none := by
  unfold scan_switch
  rw [if_neg (by rw [h]; decide), if_neg (by rw [h]; decide), if_neg (by rw [h]; decide),
    if_neg (by rw [h]; decide), if_neg (by rw [h]; decide), if_neg (by rw [h]; decide), if_pos h]

/-- Reading back the payload of a well-formed `iw_point` event. -/
theorem point_payload_read (we : Int) (cmd fl : Nat) (payload pre post : List Nat)
    (hok : bytes_ok payload) :
    read_bytes (pre ++ (point_event we cmd fl payload ++ post))
      (pre.length + 4 + (point_fixed we payload.length fl).length) payload.length = payload := by
  have e : pre ++ (point_event we cmd fl payload ++ post) =
      (pre ++ (ev_header (IW_EV_LCP_PK_LEN + (point_fixed we payload.length fl).length +
        payload.length) cmd ++ point_fixed we payload.length fl)) ++ (payload ++ post) := by
    simp only [point_event, List.append_assoc]
  have hl : (pre ++ (ev_header (IW_EV_LCP_PK_LEN + (point_fixed we payload.length fl).length +
        payload.length) cmd ++ point_fixed we payload.length fl)).length =
      pre.length + 4 + (point_fixed we payload.length fl).length := by
    simp only [List.length_append, ev_header_length]; omega
  rw [e, ← hl]
  exact read_bytes_mid _ _ _ hok

theorem decode_essid (we : Int) (a : ap_report) (hwf : a.wf) (pre post : List Nat)
    (iwe : iw_event) (hu : iwe.u.length = IWREQ_DATA_LEN) (f : Nat) (new : scan_entry) :
    decodes_as (pre ++ (encode_kind we a .essid ++ post)) we pre.length
      (pre.length + (encode_kind we a .essid).length) iwe f new
      (kind_mask .essid f) (kind_update a .essid new) := by
  obtain ⟨_, ⟨hel, heo, hf0, hf1⟩, _⟩ := hwf
  simp only [IW_ESSID_MAX_SIZE] at hel
  have hk : encode_kind we a .essid = point_event we SIOCGIWESSID a.essid_flags a.essid := rfl
  obtain ⟨h1, h2, h3, h4, h5, h6, h7⟩ := decode_point_at we SIOCGIWESSID a.essid_flags a.essid
    pre post iwe (descr_point 1 0 (IW_ESSID_MAX_SIZE + 1) IW_DESCR_FLAG_DUMP) (by decide) (by rfl)
    rfl rfl rfl (by show a.essid.length ≤ 33; omega) (by omega) hf1 hu
  unfold decodes_as
  rw [hk]
  refine ⟨h1, h2, h4, ?_⟩
  rw [scan_switch_essid _ _ _ _ h3, h5, h6, h7]
  simp only [kind_mask, kind_update]
  congr 2
  by_cases hn : 0 < a.essid.length
  · rw [if_pos hn]
    simp only
    rw [if_pos ⟨by omega, by omega⟩, point_payload_read we _ _ _ _ _ heo, memcpy_into_zero,
      List.drop_replicate]
  · rw [if_neg hn]
    have : a.essid = [] := List.length_eq_zero.mp (by omega)
    simp [this]

theorem decode_encode (we : Int) (a : ap_report) (hwf : a.wf) (pre post : List Nat)
    (iwe : iw_event) (hu : iwe.u.length = IWREQ_DATA_LEN) (f : Nat) (new : scan_entry) :
    decodes_as (pre ++ (encode_kind we a .encode ++ post)) we pre.length
      (pre.length + (encode_kind we a .encode).length) iwe f new
      (kind_mask .encode f) (kind_update a .encode new) := by
  obtain ⟨_, _, _, _, ⟨hf, hkl, _⟩, _⟩ := hwf
  simp only [IW_ENCODING_TOKEN_MAX] at hkl
  have hk : encode_kind we a .encode = point_event we SIOCGIWENCODE a.enc_flags a.enc_key := rfl
  obtain ⟨h1, h2, h3, h4, h5, h6, h7⟩ := decode_point_at we SIOCGIWENCODE a.enc_flags a.enc_key
    pre post iwe (descr_point 1 0 IW_ENCODING_TOKEN_MAX (IW_DESCR_FLAG_DUMP ||| IW_DESCR_FLAG_RESTRICT))
    (by decide) (by rfl) rfl rfl rfl (by show a.enc_key.length ≤ 64; omega) (by omega) hf hu
  unfold decodes_as
  rw [hk]
  refine ⟨h1, h2, h4, ?_⟩
  rw [scan_switch_encode _ _ _ _ h3, h6]
  rfl

/-! #### The classifier on a well-formed element sequence -/

theorem ie_caps_nil : ie_caps [] = 0 := rfl

theorem ie_caps_cons (e : ie_element) (rest : List ie_element) :
    ie_caps (e :: rest) = ie_caps [e] ||| ie_caps rest := by
  simp only [ie_caps, List.any_cons, List.any_nil, Bool.or_false, IW_ENC_CAPA_WPA2,
    IW_ENC_CAPA_WPA]
  cases decide (e.tag = 0x30 ∧ 4 ≤ e.body.length) <;>
  cases decide (e.tag = 0xdd ∧ 8 ≤ e.body.length ∧ e.body.take 4 = [0x00, 0x50, 0xf2, 0x01]) <;>
  cases rest.any (fun e => decide (e.tag = 0x30 ∧ 4 ≤ e.body.length)) <;>
  cases rest.any (fun e => decide (e.tag = 0xdd ∧ 8 ≤ e.body.length ∧
      e.body.take 4 = [0x00, 0x50, 0xf2, 0x01])) <;> rfl

theorem ie_caps_single (e : ie_element) :
    ie_caps [e] =
      if e.tag = 0x30 ∧ 4 ≤ e.body.length then IW_ENC_CAPA_WPA2
      else if e.tag = 0xdd ∧ 8 ≤ e.body.length ∧ e.body.take 4 = [0x00, 0x50, 0xf2, 0x01]
        then IW_ENC_CAPA_WPA else 0 := by
  simp only [ie_caps, List.any_cons, List.any_nil, Bool.or_false, decide_eq_true_eq]
  by_cases h1 : e.tag = 0x30 ∧ 4 ≤ e.body.length
  · have h2 : ¬ (e.tag = 0xdd ∧ 8 ≤ e.body.length ∧ e.body.take 4 = [0x00, 0x50, 0xf2, 0x01]) := by
      intro h; rw [h1.1] at h; exact absurd h.1 (by decide)
    rw [if_pos h1, if_neg h2, if_pos h1]; rfl
  · rw [if_neg h1, if_neg h1]
    split <;> rfl

/-- One iteration of the classifier loop on a well-formed element. -/
theorem ie_loop_step (e : ie_element) (pre tail : List Nat) (buffer length i fuel flags : Nat)
    (reads : List Nat) (htag : e.tag < 256) (hlen : e.body.length < 256) (hok : bytes_ok e.body)
    (hpos : buffer + i = pre.length) (hfit : i + 2 ≤ length) :
    ∃ reads1,
      ie_loop (pre ++ (e.tag :: e.body.length :: (e.body ++ tail))) buffer length (fuel + 1) i
          flags reads =
        ie_loop (pre ++ (e.tag :: e.body.length :: (e.body ++ tail))) buffer length fuel
          (i + (e.body.length + 2)) (flags ||| ie_caps [e]) reads1 := by
  have hty : rd (pre ++ (e.tag :: e.body.length :: (e.body ++ tail))) (buffer + i) = e.tag := by
    rw [hpos, rd_shift_zero, rd_cons_zero, Nat.mod_eq_of_lt htag]
  have hln : rd (pre ++ (e.tag :: e.body.length :: (e.body ++ tail))) (buffer + (i + 1))
      = e.body.length := by
    rw [← Nat.add_assoc, hpos, rd_shift, rd_cons_succ, rd_cons_zero, Nat.mod_eq_of_lt hlen]
  have hrb : ∀ n, read_bytes (pre ++ (e.tag :: e.body.length :: (e.body ++ tail)))
      (buffer + (i + 2)) n = read_bytes (e.body ++ tail) 0 n := by
    intro n
    rw [← Nat.add_assoc, hpos, read_bytes_shift, read_bytes_cons_succ, read_bytes_cons_succ]
  have hr5 : rd (pre ++ (e.tag :: e.body.length :: (e.body ++ tail))) (buffer + (i + 5))
      = rd (e.body ++ tail) 3 := by
    rw [← Nat.add_assoc, hpos, rd_shift]; rfl
  rw [ie_loop]
  simp only [hty, hln, if_pos hfit, hrb, hr5]
  by_cases h30 : e.tag = 0x30
  · rw [if_pos h30]
    by_cases h4 : e.body.length < 4
    · have hc : ie_caps [e] = 0 := by
        rw [ie_caps_single, if_neg (fun h => by omega),
          if_neg (fun h => by rw [h30] at h; exact absurd h.1 (by decide))]
      rw [if_pos h4, hc, Nat.or_zero]
      exact ⟨_, rfl⟩
    · have hc : ie_caps [e] = IW_ENC_CAPA_WPA2 := by
        rw [ie_caps_single, if_pos ⟨h30, by omega⟩]
      rw [if_neg h4, hc]
      exact ⟨_, rfl⟩
  · rw [if_neg h30]
    by_cases hdd : e.tag = 0xdd
    · rw [if_pos hdd]
      by_cases h8 : e.body.length < 8
      · have hc : ie_caps [e] = 0 := by
          rw [ie_caps_single, if_neg (fun h => h30 h.1), if_neg (fun h => by omega)]
        rw [if_pos h8, hc, Nat.or_zero]
        exact ⟨_, rfl⟩
      · rw [if_neg h8]
        obtain ⟨b0, b1, b2, b3, tl, hb⟩ : ∃ b0 b1 b2 b3 tl, e.body = b0 :: b1 :: b2 :: b3 :: tl := by
          match hb : e.body, h8 with
          | b0 :: b1 :: b2 :: b3 :: tl, _ => exact ⟨b0, b1, b2, b3, tl, rfl⟩
          | [], h | [_], h | [_, _], h | [_, _, _], h => simp at h
        have q0 : b0 < 256 := hok b0 (by rw [hb]; simp)
        have q1 : b1 < 256 := hok b1 (by rw [hb]; simp)
        have q2 : b2 < 256 := hok b2 (by rw [hb]; simp)
        have q3 : b3 < 256 := hok b3 (by rw [hb]; simp)
        have hrd : read_bytes (e.body ++ tail) 0 3 = [b0, b1, b2] := by
          rw [read_bytes_take e.body tail 3 hok (by omega), hb]
          rfl
        have hrd3 : rd (e.body ++ tail) 3 = b3 := by
          rw [hb]
          show b3 % 256 = b3
          exact Nat.mod_eq_of_lt q3
        have htk : e.body.take 4 = [b0, b1, b2, b3] := by rw [hb]; rfl
        rw [hrd, hrd3]
        by_cases houi : [b0, b1, b2] = [0x00, 0x50, 0xf2]
        · rw [if_neg (not_not.mpr houi)]
          by_cases h1 : b3 = 1
          · have hc : ie_caps [e] = IW_ENC_CAPA_WPA := by
              rw [ie_caps_single, if_neg (fun h => h30 h.1), htk, if_pos]
              refine ⟨hdd, by omega, ?_⟩
              simp only [List.cons.injEq, and_true] at houi ⊢
              exact ⟨houi.1, houi.2.1, houi.2.2, h1⟩
            rw [if_neg (not_not.mpr h1), hc]
            exact ⟨_, rfl⟩
          · have hc : ie_caps [e] = 0 := by
              rw [ie_caps_single, if_neg (fun h => h30 h.1), htk, if_neg]
              rintro ⟨_, _, h⟩
              simp only [List.cons.injEq, and_true] at h
              exact h1 h.2.2.2
            rw [if_pos h1, hc, Nat.or_zero]
            exact ⟨_, rfl⟩
        · have hc : ie_caps [e] = 0 := by
            rw [ie_caps_single, if_neg (fun h => h30 h.1), htk, if_neg]
            rintro ⟨_, _, h⟩
            apply houi
            simp only [List.cons.injEq, and_true] at h ⊢
            exact ⟨h.1, h.2.1, h.2.2.1⟩
          rw [if_pos houi, hc, Nat.or_zero]
          exact ⟨_, rfl⟩
    · have hc : ie_caps [e] = 0 := by
        rw [ie_caps_single, if_neg (fun h => h30 h.1), if_neg (fun h => hdd h.1)]
      rw [if_neg hdd, hc, Nat.or_zero]
      exact ⟨_, rfl⟩

/-- The classifier loop over a well-formed tag-length-value sequence yields
the capability flags that the elements carry. -/
theorem ie_loop_elements : ∀ (ies : List ie_element) (pre post : List Nat)
    (buffer length i fuel flags : Nat) (reads : List Nat),
    (∀ e ∈ ies, e.tag < 256 ∧ e.body.length < 256 ∧ bytes_ok e.body) →
    buffer + i = pre.length → length = i + (ie_bytes ies).length → ies.length ≤ fuel →
    (ie_loop (pre ++ (ie_bytes ies ++ post)) buffer length fuel i flags reads).1
      = flags ||| ie_caps ies := by
  intro ies
  induction ies with
  | nil =>
    intro pre post buffer length i fuel flags reads _ _ hl _
    simp only [ie_bytes, List.length_nil, Nat.add_zero] at hl
    rw [ie_caps_nil, Nat.or_zero]
    cases fuel with
    | zero => rfl
    | succ n =>
      rw [ie_loop, if_neg (by omega)]
  | cons e rest ih =>
    intro pre post buffer length i fuel flags reads hwf hpos hl hfuel
    obtain ⟨htag, hlen, hok⟩ := hwf e (List.mem_cons_self _ _)
    have hwf' : ∀ x ∈ rest, x.tag < 256 ∧ x.body.length < 256 ∧ bytes_ok x.body :=
      fun x hx => hwf x (List.mem_cons_of_mem _ hx)
    cases fuel with
    | zero => simp at hfuel
    | succ n =>
      have hbytes : ie_bytes (e :: rest) ++ post =
          e.tag :: e.body.length :: (e.body ++ (ie_bytes rest ++ post)) := by
        simp only [ie_bytes, List.cons_append, List.append_assoc]
      have hblen : (ie_bytes (e :: rest)).length = e.body.length + 2 + (ie_bytes rest).length := by
        simp only [ie_bytes, List.length_cons, List.length_append]; omega
      rw [hbytes]
      obtain ⟨reads1, hstep⟩ := ie_loop_step e pre (ie_bytes rest ++ post) buffer length i n flags
        reads htag hlen hok hpos (by omega)
      rw [hstep]
      have hre : pre ++ (e.tag :: e.body.length :: (e.body ++ (ie_bytes rest ++ post))) =
          (pre ++ (e.tag :: e.body.length :: e.body)) ++ (ie_bytes rest ++ post) := by
        simp only [List.append_assoc, List.cons_append]
      rw [hre, ih (pre ++ (e.tag :: e.body.length :: e.body)) post buffer length
        (i + (e.body.length + 2)) n (flags ||| ie_caps [e]) reads1 hwf'
        (by simp only [List.length_append, List.length_cons]; omega) (by omega)
        (by simp only [List.length_cons] at hfuel; omega),
        ie_caps_cons e rest, Nat.lor_assoc]

theorem ie_bytes_length_ge : ∀ (ies : List ie_element), ies.length ≤ (ie_bytes ies).length := by
  intro ies
  induction ies with
  | nil => exact Nat.le_refl _
  | cons e rest ih =>
    simp only [ie_bytes, List.length_cons, List.length_append]; omega

theorem decode_genie (we : Int) (a : ap_report) (hwf : a.wf) (pre post : List Nat)
    (iwe : iw_event) (hu : iwe.u.length = IWREQ_DATA_LEN) (f : Nat) (new : scan_entry) :
    decodes_as (pre ++ (encode_kind we a .genie ++ post)) we pre.length
      (pre.length + (encode_kind we a .genie).length) iwe f new
      (kind_mask .genie f) (kind_update a .genie new) := by
  obtain ⟨_, _, _, _, _, _, ⟨hil, hie⟩⟩ := hwf
  simp only [IW_GENERIC_IE_MAX] at hil
  have hk : encode_kind we a .genie = point_event we IWEVGENIE 0 (ie_bytes a.ies) := rfl
  obtain ⟨h1, h2, h3, h4, h5, h6, h7⟩ := decode_point_at we IWEVGENIE 0 (ie_bytes a.ies)
    pre post iwe (descr_point 1 0 IW_GENERIC_IE_MAX 0) (by decide) (by rfl)
    rfl rfl rfl (by show (ie_bytes a.ies).length ≤ 1024; omega) (by omega) (by decide) hu
  unfold decodes_as
  rw [hk]
  refine ⟨h1, h2, h4, ?_⟩
  rw [scan_switch_genie _ _ _ _ h3]
  unfold iw_extract_ie
  rw [h5, h7]
  by_cases hn : 0 < (ie_bytes a.ies).length
  · rw [if_pos hn]
    simp only
    have e : pre ++ (point_event we IWEVGENIE 0 (ie_bytes a.ies) ++ post) =
        (pre ++ (ev_header (IW_EV_LCP_PK_LEN + (point_fixed we (ie_bytes a.ies).length 0).length +
          (ie_bytes a.ies).length) IWEVGENIE ++ point_fixed we (ie_bytes a.ies).length 0)) ++
        (ie_bytes a.ies ++ post) := by
      simp only [point_event, List.append_assoc]
    have hl : (pre ++ (ev_header (IW_EV_LCP_PK_LEN + (point_fixed we (ie_bytes a.ies).length 0).length +
          (ie_bytes a.ies).length) IWEVGENIE ++ point_fixed we (ie_bytes a.ies).length 0)).length =
        pre.length + 4 + (point_fixed we (ie_bytes a.ies).length 0).length := by
      simp only [List.length_append, ev_header_length]; omega
    rw [e, ie_loop_elements a.ies _ post _ _ 0 _ new.flags [] hie (by rw [hl]; rfl) (by omega)
      (ie_bytes_length_ge a.ies)]
    rfl
  · rw [if_neg hn]
    have h0 : (ie_bytes a.ies).length = 0 := by omega
    have hnil : a.ies = [] := by
      have := ie_bytes_length_ge a.ies
      exact List.length_eq_zero.mp (by omega)
    simp only [h0, kind_mask, kind_update, hnil, ie_caps_nil, Nat.or_zero]
    rfl

/-- Every well-formed event of a well-formed report is decoded as an Event
that delivers exactly its value to the candidate. -/
theorem decode_kind (we : Int) (a : ap_report) (hwf : a.wf) (k : report_kind)
    (pre post : List Nat) (iwe : iw_event) (hu : iwe.u.length = IWREQ_DATA_LEN) (f : Nat)
    (new : scan_entry) :
    decodes_as (pre ++ (encode_kind we a k ++ post)) we pre.length
      (pre.length + (encode_kind we a k).length) iwe f new
      (kind_mask k f) (kind_update a k new) := by
  cases k
  · exact decode_addr we a hwf pre post iwe hu f new
  · exact decode_essid we a hwf pre post iwe hu f new
  · exact decode_mode we a hwf pre post iwe hu f new
  · exact decode_freq we a hwf pre post iwe hu f new
  · exact decode_encode we a hwf pre post iwe hu f new
  · exact decode_qual we a hwf pre post iwe hu f new
  · exact decode_genie we a hwf pre post iwe hu f new

/-! #### The loop on a buffer of well-formed events -/

/-- The loop body after an Event whose `switch` result is known. -/
theorem scan_body_of_switch (mem : List Nat) (s : scan_state) (r : extract_result)
    (f1 : Nat) (new1 : scan_entry) (hno : ¬ r.iwe.overrun)
    (h : scan_switch mem r.iwe s.f (s.new.getD scan_entry_zero) = some (f1, new1)) :
    scan_body mem s r = some
      { stream := r.stream, iwe := r.iwe,
        new := if f1 = 127 then none else some new1,
        f := if f1 = 127 then 0 else f1,
        head := if f1 = 127 then s.head ++ [new1] else s.head } := by
  simp only [scan_body, if_neg hno, h]
  by_cases h127 : f1 = 127
  · simp only [if_pos h127]
  · simp only [if_neg h127]

/-- The loop over a buffer made of well-formed events follows `abs_step`. -/
theorem scan_iter_events (we : Int) (a : ap_report) (hwf : a.wf) :
    ∀ (kinds : List report_kind) (pre post : List Nat) (s : scan_state),
      s.stream = stream_at (pre ++ (encode_events we a kinds ++ post)) pre.length →
      s.iwe.u.length = IWREQ_DATA_LEN →
      ∃ s1, scan_iter (pre ++ (encode_events we a kinds ++ post)) we kinds.length s = some s1 ∧
        s1.stream = stream_at (pre ++ (encode_events we a kinds ++ post))
          (pre.length + (encode_events we a kinds).length) ∧
        s1.iwe.u.length = IWREQ_DATA_LEN ∧
        (s1.f, s1.new, s1.head) = kinds.foldl (abs_step a) (s.f, s.new, s.head) := by
  intro kinds
  induction kinds with
  | nil =>
    intro pre post s hs hu
    exact ⟨s, rfl, by simpa [encode_events] using hs, hu, rfl⟩
  | cons k rest ih =>
    intro pre post s hs hu
    have hmem : pre ++ (encode_events we a (k :: rest) ++ post) =
        pre ++ (encode_kind we a k ++ (encode_events we a rest ++ post)) := by
      simp only [encode_events, List.append_assoc]
    have hmem2 : pre ++ (encode_events we a (k :: rest) ++ post) =
        (pre ++ encode_kind we a k) ++ (encode_events we a rest ++ post) := by
      simp only [encode_events, List.append_assoc]
    obtain ⟨d1, d2, d3, d4⟩ := decode_kind we a hwf k pre (encode_events we a rest ++ post) s.iwe hu
      s.f (s.new.getD scan_entry_zero)
    rw [← hmem] at d1 d2 d3 d4
    rw [← hs] at d1 d2 d3 d4
    generalize hmm : pre ++ (encode_events we a (k :: rest) ++ post) = mem at *
    generalize hr : iw_extract_event_stream mem s.stream s.iwe we = r at *
    have hb := scan_body_of_switch mem s r _ _
      (by unfold iw_event.overrun; rw [d3]; exact Nat.lt_irrefl _) d4
    rw [List.length_cons, scan_iter]
    simp only [hr]
    rw [if_pos (by rw [d1]; decide), hb]
    simp only
    have hst : r.stream
        = stream_at ((pre ++ encode_kind we a k) ++ (encode_events we a rest ++ post))
            (pre ++ encode_kind we a k).length := by
      rw [d2, hmem2, List.length_append]
    obtain ⟨s1, i1, i2, i3, i4⟩ := ih (pre ++ encode_kind we a k) post
      (scan_state.mk r.stream r.iwe
        (if kind_mask k s.f = 127 then none else some (kind_update a k (s.new.getD scan_entry_zero)))
        (if kind_mask k s.f = 127 then 0 else kind_mask k s.f)
        (if kind_mask k s.f = 127 then s.head ++ [kind_update a k (s.new.getD scan_entry_zero)]
          else s.head)) hst d3
    rw [← hmem2] at i1 i2
    refine ⟨s1, i1, ?_, i3, ?_⟩
    · rw [i2]; simp only [encode_events, List.length_append, Nat.add_assoc]
    · rw [i4]
      simp only [List.foldl_cons, abs_step]
      by_cases h127 : kind_mask k s.f = 127
      · simp only [if_pos h127]
      · simp only [if_neg h127]

theorem kind_mask_comm (x y : report_kind) (hx : x ∈ six_kinds) (hy : y ∈ six_kinds) (z : Nat) :
    kind_mask y (kind_mask x z) = kind_mask x (kind_mask y z) := by
  have hxa : x ≠ .addr := by rintro rfl; exact absurd hx (by decide)
  have hya : y ≠ .addr := by rintro rfl; exact absurd hy (by decide)
  cases x <;> cases y <;> first
    | exact absurd rfl hxa
    | exact absurd rfl hya
    | rfl
    | (simp only [kind_mask]; rw [Nat.lor_assoc, Nat.lor_assoc]; rfl)

theorem mask_of_perm (l1 l2 : List report_kind) (h : l1.Perm l2) (hs : l1 ⊆ six_kinds) :
    mask_of l1 = mask_of l2 := by
  unfold mask_of
  exact h.foldl_eq' (fun x hx y hy z => kind_mask_comm x y (hs hx) (hs hy) z) 1

theorem mask_of_sublists :
    ∀ l ∈ six_kinds.sublists', (mask_of l = 127 ↔ l.length = 6) := by
  decide

/-- After the address report and events of distinct kinds among the six
others, the mask is 127 exactly when all six have been seen. -/
theorem mask_of_full_iff (l : List report_kind) (hn : l.Nodup) (hs : l ⊆ six_kinds) :
    mask_of l = 127 ↔ l.length = 6 := by
  obtain ⟨l1, hp, hsub⟩ := List.subperm_of_subset hn hs
  have h1 := mask_of_sublists l1 (List.mem_sublists'.mpr hsub)
  have hs1 : l1 ⊆ six_kinds := hsub.subset
  rw [← mask_of_perm l1 l hp hs1, ← hp.length_eq]
  exact h1

theorem mask_of_snoc (seen : List report_kind) (k : report_kind) :
    mask_of (seen ++ [k]) = kind_mask k (mask_of seen) := by
  simp only [mask_of, List.foldl_append, List.foldl_cons, List.foldl_nil]

/-- The six events after the address report, in any order without
repetition: the entry is appended at the last one and not before. -/
theorem abs_fold_rest (a : ap_report) :
    ∀ (rest seen : List report_kind) (new : scan_entry),
      (seen ++ rest).Nodup → (seen ++ rest) ⊆ six_kinds → (seen ++ rest).length = 6 →
      rest ≠ [] →
      rest.foldl (abs_step a) (mask_of seen, some new, []) =
        (0, none, [rest.foldl (fun e k => kind_update a k e) new]) := by
  intro rest
  induction rest with
  | nil => intro _ _ _ _ _ h; exact absurd rfl h
  | cons k rest ih =>
    intro seen new hn hs hl _
    have hm := mask_of_snoc seen k
    have hre : seen ++ k :: rest = (seen ++ [k]) ++ rest := by simp
    cases rest with
    | nil =>
      have h127 : kind_mask k (mask_of seen) = 127 := by
        rw [← hm]; exact (mask_of_full_iff _ hn hs).mpr hl
      simp only [List.foldl_cons, List.foldl_nil, abs_step, if_pos h127, Option.getD_some,
        List.nil_append]
    | cons k2 rest =>
      rw [hre] at hn hs hl
      have hn1 : (seen ++ [k]).Nodup := (List.nodup_append.mp hn).1
      have hs1 : (seen ++ [k]) ⊆ six_kinds := fun x hx => hs (List.mem_append_left _ hx)
      have hne : kind_mask k (mask_of seen) ≠ 127 := by
        rw [← hm]
        intro h
        have := (mask_of_full_iff _ hn1 hs1).mp h
        simp only [List.length_append, List.length_cons] at hl this
        omega
      rw [List.foldl_cons]
      have hstep : abs_step a (mask_of seen, some new, []) k =
          (mask_of (seen ++ [k]), some (kind_update a k new), []) := by
        simp only [abs_step, if_neg hne, Option.getD_some, hm]
      rw [hstep, ih (seen ++ [k]) (kind_update a k new) hn hs hl (by simp)]
      rfl

theorem kind_update_comm (a : ap_report) (x y : report_kind) (e : scan_entry) :
    kind_update a y (kind_update a x e) = kind_update a x (kind_update a y e) := by
  cases x <;> cases y <;> rfl

theorem kind_update_all (a : ap_report) :
    six_kinds.foldl (fun e k => kind_update a k e) (kind_update a .addr scan_entry_zero)
      = expected_entry a := by
  simp only [six_kinds, List.foldl_cons, List.foldl_nil, kind_update, scan_entry_zero,
    expected_entry, Nat.zero_or]

/-- An address report followed by the six other events in any order: one
entry, appended at the seventh event. -/
theorem abs_fold_report (a : ap_report) (order : List report_kind) (hp : order.Perm six_kinds) :
    (report_kind.addr :: order).foldl (abs_step a) (0, none, []) =
      (0, none, [expected_entry a]) := by
  have hn : order.Nodup := hp.nodup_iff.mpr (by decide)
  have hs : order ⊆ six_kinds := hp.subset
  have hl : order.length = 6 := hp.length_eq
  have hne : order ≠ [] := by intro h; rw [h] at hl; cases hl
  have h0 : abs_step a (0, none, []) .addr =
      (mask_of [], some (kind_update a .addr scan_entry_zero), []) := by
    simp only [abs_step, kind_mask, mask_of, List.foldl_nil, Option.getD_none]
    rfl
  rw [List.foldl_cons, h0, abs_fold_rest a order [] _ (by simpa using hn) (by simpa using hs)
    (by simpa using hl) hne]
  rw [hp.foldl_eq' (fun x _ y _ z => kind_update_comm a x y z), kind_update_all]

/-- The scenario buffer is the wire form of the scenario report, and the
scenario entry is the entry it describes. -/
theorem buf_scenario_is_encoding :
    encode_events 22 report_scenario (report_kind.addr :: six_kinds) = buf_scenario ∧
    expected_entry report_scenario = entry_scenario := by
  decide

theorem flag_set_wpa2 (x : Nat) : flag_set x IW_ENC_CAPA_WPA2 ↔ x.testBit 1 = true := by
  unfold flag_set IW_ENC_CAPA_WPA2
  have h := Nat.and_two_pow x 1
  simp only [pow_one] at h
  rw [h]
  cases x.testBit 1 <;> simp

theorem flag_set_wpa (x : Nat) : flag_set x IW_ENC_CAPA_WPA ↔ x.testBit 0 = true := by
  unfold flag_set IW_ENC_CAPA_WPA
  have h := Nat.and_two_pow x 0
  simp only [pow_zero] at h
  rw [h]
  cases x.testBit 0 <;> simp

theorem testBit_or_wpa2 (x k : Nat) :
    (x ||| IW_ENC_CAPA_WPA2).testBit k = (x.testBit k || decide (k = 1)) := by
  have h : IW_ENC_CAPA_WPA2 = 2 ^ 1 := rfl
  rw [Nat.testBit_or, h, Nat.testBit_two_pow]
  congr 1
  simp [eq_comm]

theorem testBit_or_wpa (x k : Nat) :
    (x ||| IW_ENC_CAPA_WPA).testBit k = (x.testBit k || decide (k = 0)) := by
  have h : IW_ENC_CAPA_WPA = 2 ^ 0 := rfl
  rw [Nat.testBit_or, h, Nat.testBit_two_pow]
  congr 1
  simp [eq_comm]

theorem ie_visited_bound {mem : List Nat} {buffer L s j : Nat}
    (h : ie_visited mem buffer L s j) : s + 2 ≤ L := by
  cases h with
  | here _ h => exact h
  | later _ _ h _ => exact h

theorem ie_visited_iff (mem : List Nat) (buffer L s j : Nat) :
    ie_visited mem buffer L s j ↔
      s + 2 ≤ L ∧ (j = s ∨ ie_visited mem buffer L (s + (2 + ie_len mem buffer s)) j) := by
  constructor
  · intro h
    cases h with
    | here _ h => exact ⟨h, Or.inl rfl⟩
    | later _ _ h h1 => exact ⟨h, Or.inr h1⟩
  · rintro ⟨h, rfl | h1⟩
    · exact ie_visited.here _ h
    · exact ie_visited.later _ _ h h1

/-- One step of the specification: the flags `f1` after the element at `i`
account for that element, the rest of the loop for the elements after it. -/
theorem ie_loop_spec_step (mem : List Nat) (buffer L i flags f1 out : Nat) (hfit : i + 2 ≤ L)
    (h1 : f1.testBit 1 = true ↔ flags.testBit 1 = true ∨ ie_marks_wpa2 mem buffer i)
    (h0 : f1.testBit 0 = true ↔ flags.testBit 0 = true ∨ ie_marks_wpa mem buffer i)
    (hk : ∀ k, 2 ≤ k → f1.testBit k = flags.testBit k)
    (hrest : ie_loop_spec mem buffer L (i + (2 + ie_len mem buffer i)) f1 out) :
    ie_loop_spec mem buffer L i flags out := by
  obtain ⟨r1, r0, rk⟩ := hrest
  refine ⟨?_, ?_, fun k hk2 => (rk k hk2).trans (hk k hk2)⟩
  · rw [r1, h1]
    constructor
    · rintro ((h | h) | ⟨j, hj, hm⟩)
      · exact Or.inl h
      · exact Or.inr ⟨i, ie_visited.here _ hfit, h⟩
      · exact Or.inr ⟨j, ie_visited.later _ _ hfit hj, hm⟩
    · rintro (h | ⟨j, hj, hm⟩)
      · exact Or.inl (Or.inl h)
      · rcases (ie_visited_iff mem buffer L i j).1 hj with ⟨_, rfl | hj1⟩
        · exact Or.inl (Or.inr hm)
        · exact Or.inr ⟨j, hj1, hm⟩
  · rw [r0, h0]
    constructor
    · rintro ((h | h) | ⟨j, hj, hm⟩)
      · exact Or.inl h
      · exact Or.inr ⟨i, ie_visited.here _ hfit, h⟩
      · exact Or.inr ⟨j, ie_visited.later _ _ hfit hj, hm⟩
    · rintro (h | ⟨j, hj, hm⟩)
      · exact Or.inl (Or.inl h)
      · rcases (ie_visited_iff mem buffer L i j).1 hj with ⟨_, rfl | hj1⟩
        · exact Or.inl (Or.inr hm)
        · exact Or.inr ⟨j, hj1, hm⟩

theorem ie_loop_spec_done (mem : List Nat) (buffer L i flags : Nat) (h : ¬ i + 2 ≤ L) :
    ie_loop_spec mem buffer L i flags flags := by
  refine ⟨⟨Or.inl, ?_⟩, ⟨Or.inl, ?_⟩, fun _ _ => rfl⟩
  · rintro (h1 | ⟨j, hj, _⟩)
    · exact h1
    · exact absurd (ie_visited_bound hj) h
  · rintro (h1 | ⟨j, hj, _⟩)
    · exact h1
    · exact absurd (ie_visited_bound hj) h

theorem read_bytes_three (mem : List Nat) (p a b c : Nat) :
    read_bytes mem p 3 = [a, b, c] ↔ rd mem p = a ∧ rd mem (p + 1) = b ∧ rd mem (p + 2) = c := by
  simp [read_bytes, Nat.add_assoc]

/-- The loop of the classifier meets the specification whenever the
iteration bound covers the rest of the payload. -/
theorem ie_loop_meets_spec (mem : List Nat) (buffer L : Nat) :
    ∀ (fuel i flags : Nat) (reads : List Nat), L ≤ i + fuel →
      ie_loop_spec mem buffer L i flags (ie_loop mem buffer L fuel i flags reads).1 := by
  intro fuel
  induction fuel with
  | zero =>
    intro i flags reads h
    rw [ie_loop]
    exact ie_loop_spec_done mem buffer L i flags (by omega)
  | succ fuel ih =>
    intro i flags reads h
    rw [ie_loop]
    by_cases hfit : i + 2 ≤ L
    · rw [if_pos hfit]
      have hnext : i + (rd mem (buffer + (i + 1)) + 2) = i + (2 + ie_len mem buffer i) := by
        unfold ie_len; omega
      have hfuel : L ≤ i + (2 + ie_len mem buffer i) + fuel := by omega
      simp only [hnext]
      by_cases h30 : rd mem (buffer + i) = 0x30
      · rw [if_pos h30]
        have hnw : ¬ ie_marks_wpa mem buffer i := by
          intro hw; unfold ie_marks_wpa ie_tag at hw; omega
        by_cases h4 : rd mem (buffer + (i + 1)) < 4
        · rw [if_pos h4]
          have hn2 : ¬ ie_marks_wpa2 mem buffer i := by
            intro hw; unfold ie_marks_wpa2 ie_len at hw; omega
          exact ie_loop_spec_step mem buffer L i flags flags _ hfit (by simp [hn2]) (by simp [hnw])
            (fun _ _ => rfl) (ih _ _ _ hfuel)
        · rw [if_neg h4]
          have hy2 : ie_marks_wpa2 mem buffer i := ⟨h30, by unfold ie_len; omega⟩
          refine ie_loop_spec_step mem buffer L i flags (flags ||| IW_ENC_CAPA_WPA2) _ hfit ?_ ?_ ?_
            (ih _ _ _ hfuel)
          · rw [testBit_or_wpa2]; simp [hy2]
          · rw [testBit_or_wpa2]; simp [hnw]
          · intro k hk
            rw [testBit_or_wpa2]
            have : ¬ k = 1 := by omega
            simp [this]
      · rw [if_neg h30]
        have hn2 : ¬ ie_marks_wpa2 mem buffer i := fun hw => h30 hw.1
        by_cases hdd : rd mem (buffer + i) = 0xdd
        · rw [if_pos hdd]
          by_cases h8 : rd mem (buffer + (i + 1)) < 8
          · rw [if_pos h8]
            have hnw : ¬ ie_marks_wpa mem buffer i := by
              intro hw; unfold ie_marks_wpa ie_len at hw; omega
            exact ie_loop_spec_step mem buffer L i flags flags _ hfit (by simp [hn2])
              (by simp [hnw]) (fun _ _ => rfl) (ih _ _ _ hfuel)
          · rw [if_neg h8]
            by_cases houi : read_bytes mem (buffer + (i + 2)) 3 = [0x00, 0x50, 0xf2]
            · rw [if_neg (not_not.2 houi)]
              rw [read_bytes_three] at houi
              by_cases h5 : rd mem (buffer + (i + 5)) = 1
              · rw [if_neg (not_not.2 h5)]
                have hyw : ie_marks_wpa mem buffer i := by
                  refine ⟨hdd, by unfold ie_len; omega, houi.1, ?_, ?_, h5⟩
                  · have := houi.2.1; rwa [Nat.add_assoc] at this
                  · have := houi.2.2; rwa [Nat.add_assoc] at this
                refine ie_loop_spec_step mem buffer L i flags (flags ||| IW_ENC_CAPA_WPA) _ hfit
                  ?_ ?_ ?_ (ih _ _ _ hfuel)
                · rw [testBit_or_wpa]; simp [hn2]
                · rw [testBit_or_wpa]; simp [hyw]
                · intro k hk
                  rw [testBit_or_wpa]
                  have : ¬ k = 0 := by omega
                  simp [this]
              · rw [if_pos h5]
                have hnw : ¬ ie_marks_wpa mem buffer i := fun hw => h5 hw.2.2.2.2.2
                exact ie_loop_spec_step mem buffer L i flags flags _ hfit (by simp [hn2])
                  (by simp [hnw]) (fun _ _ => rfl) (ih _ _ _ hfuel)
            · rw [if_pos houi]
              have hnw : ¬ ie_marks_wpa mem buffer i := by
                intro hw
                apply houi
                rw [read_bytes_three]
                refine ⟨hw.2.2.1, ?_, ?_⟩
                · rw [Nat.add_assoc]; exact hw.2.2.2.1
                · rw [Nat.add_assoc]; exact hw.2.2.2.2.1
              exact ie_loop_spec_step mem buffer L i flags flags _ hfit (by simp [hn2])
                (by simp [hnw]) (fun _ _ => rfl) (ih _ _ _ hfuel)
        · rw [if_neg hdd]
          have hnw : ¬ ie_marks_wpa mem buffer i := fun hw => hdd hw.1
          exact ie_loop_spec_step mem buffer L i flags flags _ hfit (by simp [hn2])
            (by simp [hnw]) (fun _ _ => rfl) (ih _ _ _ hfuel)
    · rw [if_neg hfit]
      exact ie_loop_spec_done mem buffer L i flags hfit

/-- C11: `iw_extract_ie` equals the reference definition.  For every present
payload (pointer `buffer`, declared total length `L = iwe.data_length`) and
every candidate entry the classifier returns an entry in which the WPA2 flag
is set iff it was set before or some element visited from offset 0 has tag
0x30 and inner length at least 4, the WPA flag is set iff it was set before
or some visited element has tag 0xdd, inner length at least 8 and payload
bytes 00 50 F2 01, no other flag bit changes and no other field changes. -/
theorem classifier_equals_reference (mem : List Nat) (iwe : iw_event) (sr : scan_entry)
    (buffer : Nat) (hp : iwe.pointer = some buffer) :
    ∃ out reads, iw_extract_ie mem iwe sr = some (out, reads) ∧
      (flag_set out.flags IW_ENC_CAPA_WPA2 ↔
        flag_set sr.flags IW_ENC_CAPA_WPA2 ∨
          ∃ j, ie_visited mem buffer iwe.data_length 0 j ∧ ie_marks_wpa2 mem buffer j) ∧
      (flag_set out.flags IW_ENC_CAPA_WPA ↔
        flag_set sr.flags IW_ENC_CAPA_WPA ∨
          ∃ j, ie_visited mem buffer iwe.data_length 0 j ∧ ie_marks_wpa mem buffer j) ∧
      (∀ k, 2 ≤ k → out.flags.testBit k = sr.flags.testBit k) ∧
      out = { sr with flags := out.flags } := by
  have h := ie_loop_meets_spec mem buffer iwe.data_length iwe.data_length 0 sr.flags []
    (by omega)
  refine ⟨_, _, by rw [iw_extract_ie, hp], ?_, ?_, h.2.2, rfl⟩
  · rw [flag_set_wpa2, flag_set_wpa2]; exact h.1
  · rw [flag_set_wpa, flag_set_wpa]; exact h.2.1

/-- Witness of C11 on a two-element payload. -/
theorem classifier_equals_reference_witness :
    iwe_ie_example.pointer = some 0 ∧
    ∃ out reads, iw_extract_ie buf_ie_example iwe_ie_example scan_entry_zero = some (out, reads) ∧
      (flag_set out.flags IW_ENC_CAPA_WPA2 ↔
        flag_set scan_entry_zero.flags IW_ENC_CAPA_WPA2 ∨
          ∃ j, ie_visited buf_ie_example 0 iwe_ie_example.data_length 0 j ∧
            ie_marks_wpa2 buf_ie_example 0 j) ∧
      (flag_set out.flags IW_ENC_CAPA_WPA ↔
        flag_set scan_entry_zero.flags IW_ENC_CAPA_WPA ∨
          ∃ j, ie_visited buf_ie_example 0 iwe_ie_example.data_length 0 j ∧
            ie_marks_wpa buf_ie_example 0 j) ∧
      (∀ k, 2 ≤ k → out.flags.testBit k = scan_entry_zero.flags.testBit k) ∧
      out = { scan_entry_zero with flags := out.flags } :=
  ⟨rfl, classifier_equals_reference buf_ie_example iwe_ie_example scan_entry_zero 0 rfl⟩

/-! ### C12: the comparators as orders -/

theorem strncmp_self (n : Nat) : ∀ a : List Nat, strncmp a a n = 0 := by
  induction n with
  | zero => intro a; rfl
  | succ n ih => intro a; rw [strncmp]; simp [ih]

theorem strncmp_antisymm (n : Nat) : ∀ a b : List Nat, strncmp b a n = - strncmp a b n := by
  induction n with
  | zero => intro a b; rfl
  | succ n ih =>
    intro a b
    rw [strncmp, strncmp]
    by_cases h : a.headD 0 = b.headD 0
    · rw [if_neg (not_not.2 h), if_neg (not_not.2 h.symm), ← h]
      by_cases h0 : a.headD 0 = 0
      · rw [if_pos h0, if_pos h0]; rfl
      · rw [if_neg h0, if_neg h0]; exact ih _ _
    · rw [if_pos h, if_pos (fun e => h e.symm)]; omega

theorem strncmp_trans (n : Nat) : ∀ a b c : List Nat,
    (strncmp a b n ≤ 0 → strncmp b c n ≤ 0 → strncmp a c n ≤ 0) ∧
    (strncmp a b n < 0 → strncmp b c n ≤ 0 → strncmp a c n < 0) ∧
    (strncmp a b n ≤ 0 → strncmp b c n < 0 → strncmp a c n < 0) := by
  induction n with
  | zero => intro a b c; simp [strncmp]
  | succ n ih =>
    intro a b c
    have ih1 := ih a.tail b.tail c.tail
    rw [strncmp, strncmp, strncmp]
    generalize a.headD 0 = x at *
    generalize b.headD 0 = y at *
    generalize c.headD 0 = z at *
    generalize strncmp a.tail b.tail n = r1 at *
    generalize strncmp b.tail c.tail n = r2 at *
    generalize strncmp a.tail c.tail n = r3 at *
    by_cases hab : x = y
    · subst hab
      by_cases hbc : x = z
      · subst hbc
        by_cases h0 : x = 0
        · simp [h0]
        · simpa [h0] using ih1
      · by_cases h0 : x = 0
        · simp only [ne_eq, not_true_eq_false, if_false, h0, if_true, hbc, not_false_eq_true]
          subst h0
          refine ⟨?_, ?_, ?_⟩ <;> intros <;> omega
        · simp only [ne_eq, not_true_eq_false, if_false, h0, if_true, hbc, not_false_eq_true]
          refine ⟨?_, ?_, ?_⟩ <;> intros <;> omega
    · by_cases hbc : y = z
      · subst hbc
        simp only [ne_eq, not_true_eq_false, if_false, if_true, hab, not_false_eq_true]
        refine ⟨?_, ?_, ?_⟩ <;> intros <;> omega
      · by_cases hac : x = z
        · subst hac
          simp only [ne_eq, not_true_eq_false, if_false, if_true, hab, hbc, not_false_eq_true]
          refine ⟨?_, ?_, ?_⟩ <;> intros <;> omega
        · simp only [ne_eq, not_true_eq_false, if_false, if_true, hab, hbc, hac,
            not_false_eq_true]
          refine ⟨?_, ?_, ?_⟩ <;> intros <;> omega

theorem bool_lt_iff (x y : Bool) : x < y ↔ x.toNat < y.toNat := by
  cases x <;> cases y <;> decide

theorem bool_eq_iff (x y : Bool) : x = y ↔ x.toNat = y.toNat := by
  cases x <;> cases y <;> decide

theorem scan_cmp_iff (o : scan_sort_order) (a b : scan_entry) :
    scan_cmp o a b = true ↔ scan_lt o a b := by
  cases o
  · simp only [scan_cmp, cmp_chan, cmp_essid, cmp_sig, cmp_freq, scan_lt]
    split_ifs <;> simp only [decide_eq_true_eq] <;> omega
  · simp only [scan_cmp, cmp_sig, scan_lt, decide_eq_true_eq]
  · simp only [scan_cmp, cmp_essid, cmp_sig, cmp_freq, scan_lt]
    split_ifs <;> simp only [decide_eq_true_eq] <;> omega
  · simp only [scan_cmp, cmp_open, scan_lt, decide_eq_true_eq, bool_lt_iff]
  · simp only [scan_cmp, cmp_chan_sig, cmp_chan, cmp_essid, cmp_sig, cmp_freq, scan_lt]
    split_ifs <;> simp only [decide_eq_true_eq] <;> omega
  · simp only [scan_cmp, cmp_open_sig, cmp_open, cmp_sig, scan_lt, bool_eq_iff a.has_key]
    split_ifs <;> simp only [decide_eq_true_eq, bool_lt_iff] <;> omega

theorem scan_cmp_false_iff (o : scan_sort_order) (a b : scan_entry) :
    scan_cmp o a b = false ↔ ¬ scan_lt o a b := by
  rw [← scan_cmp_iff]; simp

theorem scan_lt_trans (o : scan_sort_order) (a b c : scan_entry)
    (h1 : scan_lt o a b) (h2 : scan_lt o b c) : scan_lt o a c := by
  have t := strncmp_trans IW_ESSID_MAX_SIZE a.essid b.essid c.essid
  cases o <;> simp only [scan_lt] at * <;> omega

theorem scan_lt_irrefl (o : scan_sort_order) (a : scan_entry) : ¬ scan_lt o a a := by
  have t := strncmp_self IW_ESSID_MAX_SIZE a.essid
  cases o <;> simp only [scan_lt] <;> omega

theorem scan_lt_asymm (o : scan_sort_order) (a b : scan_entry) (h : scan_lt o a b) :
    ¬ scan_lt o b a := by
  have t := strncmp_antisymm IW_ESSID_MAX_SIZE a.essid b.essid
  cases o <;> simp only [scan_lt] at * <;> omega

/-- Neither entry is before the other exactly when the keys agree. -/
theorem scan_lt_incomparable (o : scan_sort_order) (a b : scan_entry) :
    (¬ scan_lt o a b ∧ ¬ scan_lt o b a) ↔ same_keys o a b := by
  have t := strncmp_antisymm IW_ESSID_MAX_SIZE a.essid b.essid
  cases o <;> simp only [scan_lt, same_keys, bool_eq_iff a.has_key] <;> omega

theorem scan_lt_neg_trans (o : scan_sort_order) (a b c : scan_entry)
    (h1 : ¬ scan_lt o a b) (h2 : ¬ scan_lt o b c) : ¬ scan_lt o a c := by
  have t := strncmp_trans IW_ESSID_MAX_SIZE c.essid b.essid a.essid
  have t1 := strncmp_antisymm IW_ESSID_MAX_SIZE a.essid b.essid
  have t2 := strncmp_antisymm IW_ESSID_MAX_SIZE b.essid c.essid
  have t3 := strncmp_antisymm IW_ESSID_MAX_SIZE a.essid c.essid
  cases o <;> simp only [scan_lt] at * <;> omega

theorem same_keys_refl (o : scan_sort_order) (a : scan_entry) : same_keys o a a :=
  (scan_lt_incomparable o a a).1 ⟨scan_lt_irrefl o a, scan_lt_irrefl o a⟩

theorem same_keys_symm (o : scan_sort_order) (a b : scan_entry) (h : same_keys o a b) :
    same_keys o b a :=
  (scan_lt_incomparable o b a).1 ((scan_lt_incomparable o a b).2 h).symm

theorem same_keys_trans (o : scan_sort_order) (a b c : scan_entry) (h1 : same_keys o a b)
    (h2 : same_keys o b c) : same_keys o a c := by
  have k1 := (scan_lt_incomparable o a b).2 h1
  have k2 := (scan_lt_incomparable o b c).2 h2
  exact (scan_lt_incomparable o a c).1
    ⟨scan_lt_neg_trans o a b c k1.1 k2.1, scan_lt_neg_trans o c b a k2.2 k1.2⟩

/-- C12, counterexample: two distinct entries (they differ in the BSSID)
that no comparator orders either way, so none of the six is total on
distinct entries. -/
theorem equal_keys_ordered_neither_way :
    entry_scenario ≠ entry_twin ∧
    ∀ o, scan_cmp o entry_scenario entry_twin = false ∧
      scan_cmp o entry_twin entry_scenario = false :=
  ⟨by decide, fun o => by cases o <;> decide⟩

/-- C12, amended: each of the six comparators is a strict weak order.  It
is irreflexive and transitive, at most one of `cmp a b` and `cmp b a` holds,
exactly one holds when `a` and `b` differ in a sort key of the order, none
holds when they agree on the keys, and agreeing on the keys is transitive. -/
theorem comparators_are_strict_weak_orders (o : scan_sort_order) (a b c : scan_entry) :
    scan_cmp o a a = false ∧
    (scan_cmp o a b = true → scan_cmp o b c = true → scan_cmp o a c = true) ∧
    ¬ (scan_cmp o a b = true ∧ scan_cmp o b a = true) ∧
    (¬ same_keys o a b → (scan_cmp o a b = true ∨ scan_cmp o b a = true)) ∧
    (same_keys o a b → scan_cmp o a b = false ∧ scan_cmp o b a = false) ∧
    (same_keys o a b → same_keys o b c → same_keys o a c) := by
  refine ⟨(scan_cmp_false_iff o a a).2 (scan_lt_irrefl o a), ?_, ?_, ?_, ?_,
    same_keys_trans o a b c⟩
  · intro h1 h2
    exact (scan_cmp_iff o a c).2
      (scan_lt_trans o a b c ((scan_cmp_iff o a b).1 h1) ((scan_cmp_iff o b c).1 h2))
  · rintro ⟨h1, h2⟩
    exact scan_lt_asymm o a b ((scan_cmp_iff o a b).1 h1) ((scan_cmp_iff o b a).1 h2)
  · intro h
    by_contra hn
    rw [not_or] at hn
    apply h
    apply (scan_lt_incomparable o a b).1
    exact ⟨fun k => hn.1 ((scan_cmp_iff o a b).2 k), fun k => hn.2 ((scan_cmp_iff o b a).2 k)⟩
  · intro h
    have k := (scan_lt_incomparable o a b).2 h
    exact ⟨(scan_cmp_false_iff o a b).2 k.1, (scan_cmp_false_iff o b a).2 k.2⟩

/-- Witness of C12 on three entries of one network in the by-ESSID order. -/
theorem comparators_are_strict_weak_orders_witness :
    (scan_cmp .SO_ESSID entry_scenario entry_strong = true ∧
      scan_cmp .SO_ESSID entry_strong entry_high = true) ∧
    scan_cmp .SO_ESSID entry_scenario entry_high = true :=
  ⟨⟨by decide, by decide⟩,
    (comparators_are_strict_weak_orders .SO_ESSID entry_scenario entry_strong entry_high).2.1
      (by decide) (by decide)⟩

/-! ### C13, C14, C15: `sort_scan_list` -/

theorem sort_insert_perm (conf : wavemon_conf) (new : scan_entry) :
    ∀ head, (sort_insert conf new head).Perm (new :: head) := by
  intro head
  induction head with
  | nil => exact List.Perm.refl _
  | cons cur rest ih =>
    rw [sort_insert]
    split
    · exact (List.Perm.cons cur ih).trans (List.Perm.swap new cur rest)
    · exact List.Perm.refl _

theorem sort_loop_perm (conf : wavemon_conf) :
    ∀ l head, (sort_loop conf l head).Perm (head ++ l) := by
  intro l
  induction l with
  | nil => intro head; rw [sort_loop, List.append_nil]
  | cons new rest ih =>
    intro head
    rw [sort_loop]
    refine (ih _).trans ?_
    refine (List.Perm.append_right rest (sort_insert_perm conf new head)).trans ?_
    exact (List.perm_middle).symm

theorem sort_scan_list_perm (conf : wavemon_conf) (l : List scan_entry) :
    (sort_scan_list conf l).Perm l := by
  have h := sort_loop_perm conf l []
  rwa [List.nil_append] at h

theorem walk_passes_in_direction (conf : wavemon_conf) (cur x : scan_entry)
    (h : walk_passes conf cur x) : in_direction conf cur x := by
  unfold walk_passes at h
  constructor
  · intro ha
    rw [ha] at h
    rw [scan_cmp_false_iff]
    exact scan_lt_asymm _ _ _ ((scan_cmp_iff _ _ _).1 h.symm)
  · intro ha
    rw [ha] at h
    exact h.symm

theorem walk_stops_in_direction (conf : wavemon_conf) (cur x : scan_entry)
    (h : ¬ walk_passes conf cur x) : in_direction conf x cur := by
  unfold walk_passes at h
  constructor
  · intro ha
    rw [ha] at h
    cases hc : scan_cmp conf.scan_sort_order cur x
    · rfl
    · exact absurd hc.symm h
  · intro ha
    rw [ha] at h
    have hc : scan_cmp conf.scan_sort_order cur x = true := by
      cases hc : scan_cmp conf.scan_sort_order cur x
      · exact absurd hc.symm h
      · rfl
    rw [scan_cmp_false_iff]
    exact scan_lt_asymm _ _ _ ((scan_cmp_iff _ _ _).1 hc)

/-- When the walk stops at `cur`, the new entry may also stand before every
entry that `cur` may stand before. -/
theorem walk_stops_before_rest (conf : wavemon_conf) (cur x y : scan_entry)
    (h : ¬ walk_passes conf cur x) (hy : in_direction conf cur y) : in_direction conf x y := by
  have hx := walk_stops_in_direction conf cur x h
  unfold walk_passes at h
  constructor
  · intro ha
    have h1 := hy.1 ha
    have h2 := hx.1 ha
    rw [scan_cmp_false_iff] at *
    exact scan_lt_neg_trans _ y cur x h1 h2
  · intro ha
    have h1 := hy.2 ha
    rw [ha] at h
    have hc : scan_cmp conf.scan_sort_order cur x = true := by
      cases hc : scan_cmp conf.scan_sort_order cur x
      · exact absurd hc.symm h
      · rfl
    rw [scan_cmp_false_iff] at *
    intro hxy
    exact h1 (scan_lt_trans _ cur x y ((scan_cmp_iff _ _ _).1 hc) hxy)

theorem sort_insert_sorted (conf : wavemon_conf) (new : scan_entry) :
    ∀ head, head.Pairwise (in_direction conf) →
      (sort_insert conf new head).Pairwise (in_direction conf) := by
  intro head
  induction head with
  | nil => intro _; exact List.pairwise_singleton _ _
  | cons cur rest ih =>
    intro h
    rw [List.pairwise_cons] at h
    rw [sort_insert]
    by_cases hw : conf.scan_sort_asc = scan_cmp conf.scan_sort_order cur new
    · rw [if_pos hw, List.pairwise_cons]
      refine ⟨?_, ih h.2⟩
      intro y hy
      rcases List.mem_cons.1 ((sort_insert_perm conf new rest).mem_iff.1 hy) with rfl | hy1
      · exact walk_passes_in_direction conf cur _ hw
      · exact h.1 y hy1
    · rw [if_neg hw, List.pairwise_cons, List.pairwise_cons]
      refine ⟨?_, h⟩
      intro y hy
      rcases List.mem_cons.1 hy with rfl | hy1
      · exact walk_stops_in_direction conf _ new hw
      · exact walk_stops_before_rest conf cur new y hw (h.1 y hy1)

theorem sort_loop_sorted (conf : wavemon_conf) :
    ∀ l head, head.Pairwise (in_direction conf) →
      (sort_loop conf l head).Pairwise (in_direction conf) := by
  intro l
  induction l with
  | nil => intro head h; exact h
  | cons new rest ih => intro head h; exact ih _ (sort_insert_sorted conf new head h)

theorem sort_scan_list_sorted (conf : wavemon_conf) (l : List scan_entry) :
    (sort_scan_list conf l).Pairwise (in_direction conf) :=
  sort_loop_sorted conf l [] List.Pairwise.nil

theorem pairwise_at {α : Type} {R : α → α → Prop} {l : List α} (h : l.Pairwise R)
    {i j : Nat} {x y : α} (hij : i < j) (hx : l[i]? = some x) (hy : l[j]? = some y) : R x y := by
  rw [List.pairwise_iff_getElem] at h
  obtain ⟨hi, rfl⟩ := List.getElem?_eq_some_iff.1 hx
  obtain ⟨hj, rfl⟩ := List.getElem?_eq_some_iff.1 hy
  exact h i j hi hj hij

/-- C13: the output of `sort_scan_list` is sorted in the configured
direction, for each of the six orders and every input list: for all
positions `i < j` holding the entries `x` and `y`, ascending means that the
comparator does not hold for `(y, x)`, descending that it does not hold for
`(x, y)`. -/
theorem sort_output_is_sorted (conf : wavemon_conf) (l : List scan_entry) (i j : Nat)
    (x y : scan_entry) (hij : i < j) (hx : (sort_scan_list conf l)[i]? = some x)
    (hy : (sort_scan_list conf l)[j]? = some y) :
    (conf.scan_sort_asc = true → scan_cmp conf.scan_sort_order y x = false) ∧
    (conf.scan_sort_asc = false → scan_cmp conf.scan_sort_order x y = false) :=
  pairwise_at (sort_scan_list_sorted conf l) hij hx hy

/-- Witness of C13: three entries sorted by ESSID, ascending. -/
theorem sort_output_is_sorted_witness :
    ((0 < 2 ∧
      (sort_scan_list conf_essid_asc [entry_high, entry_strong, entry_scenario])[0]?
        = some entry_scenario ∧
      (sort_scan_list conf_essid_asc [entry_high, entry_strong, entry_scenario])[2]?
        = some entry_high)) ∧
    ((conf_essid_asc.scan_sort_asc = true →
        scan_cmp conf_essid_asc.scan_sort_order entry_high entry_scenario = false) ∧
      (conf_essid_asc.scan_sort_asc = false →
        scan_cmp conf_essid_asc.scan_sort_order entry_scenario entry_high = false)) :=
  ⟨⟨by decide, by decide, by decide⟩,
    sort_output_is_sorted conf_essid_asc [entry_high, entry_strong, entry_scenario] 0 2
      entry_scenario entry_high (by decide) (by decide) (by decide)⟩

/-- An entry that every node of `head` lets pass is linked in at the end. -/
theorem sort_insert_at_end (conf : wavemon_conf) (new : scan_entry) :
    ∀ head, (∀ cur ∈ head, walk_passes conf cur new) → sort_insert conf new head = head ++ [new] := by
  intro head
  induction head with
  | nil => intro _; rfl
  | cons cur rest ih =>
    intro h
    have hc : conf.scan_sort_asc = scan_cmp conf.scan_sort_order cur new :=
      h cur (List.mem_cons_self _ _)
    rw [sort_insert, if_pos hc, ih (fun c hc => h c (List.mem_cons_of_mem _ hc))]
    rfl

/-- A list in which every entry lets all later ones pass comes out of the
loop unchanged. -/
theorem sort_loop_fixed (conf : wavemon_conf) :
    ∀ l head, (head ++ l).Pairwise (walk_passes conf) → sort_loop conf l head = head ++ l := by
  intro l
  induction l with
  | nil => intro head _; rw [sort_loop, List.append_nil]
  | cons new rest ih =>
    intro head h
    have h1 : (head ++ [new] ++ rest).Pairwise (walk_passes conf) := by
      rwa [List.append_assoc, List.singleton_append]
    rw [sort_loop, sort_insert_at_end conf new head]
    · rw [ih _ h1, List.append_assoc, List.singleton_append]
    · intro cur hc
      rw [List.pairwise_append] at h
      exact h.2.2 cur hc new (List.mem_cons_self _ _)

theorem sort_scan_list_fixed (conf : wavemon_conf) (l : List scan_entry)
    (h : l.Pairwise (walk_passes conf)) : sort_scan_list conf l = l := by
  have k := sort_loop_fixed conf l [] (by rwa [List.nil_append])
  rwa [List.nil_append] at k

/-- C14, counterexample: ascending by signal level, two entries with equal
keys that differ in the BSSID: sorting the sorted list again exchanges them. -/
theorem ascending_resort_swaps_equal_keys :
    sort_scan_list conf_sig_asc [entry_scenario, entry_twin] = [entry_twin, entry_scenario] ∧
    sort_scan_list conf_sig_asc (sort_scan_list conf_sig_asc [entry_scenario, entry_twin])
      ≠ sort_scan_list conf_sig_asc [entry_scenario, entry_twin] :=
  ⟨by decide, by decide⟩

/-- C14, amended: sorting the output of `sort_scan_list` again, in the same
order and direction, returns it unchanged for every list in the descending
direction, and in the ascending direction for every list in which no two
entries agree on the sort keys of the order. -/
theorem resort_is_identity (conf : wavemon_conf) (l : List scan_entry)
    (h : conf.scan_sort_asc = true →
      l.Pairwise (fun a b => ¬ same_keys conf.scan_sort_order a b)) :
    sort_scan_list conf (sort_scan_list conf l) = sort_scan_list conf l := by
  apply sort_scan_list_fixed
  have hs := sort_scan_list_sorted conf l
  cases ha : conf.scan_sort_asc
  · refine hs.imp ?_
    intro a b hab
    unfold walk_passes
    rw [ha, hab.2 ha]
  · have hsym : Symmetric (fun a b => ¬ same_keys conf.scan_sort_order a b) :=
      fun a b hab hba => hab (same_keys_symm _ _ _ hba)
    have hp := ((sort_scan_list_perm conf l).pairwise_iff (fun {_ _} hab => hsym hab)).2 (h ha)
    refine (hs.and hp).imp ?_
    intro a b hab
    unfold walk_passes
    rw [ha]
    have h1 := hab.1.1 ha
    cases hc : scan_cmp conf.scan_sort_order a b
    · exact absurd ((scan_lt_incomparable _ a b).1
        ⟨(scan_cmp_false_iff _ _ _).1 hc, (scan_cmp_false_iff _ _ _).1 h1⟩) hab.2
    · rfl

/-- Witness of C14: ascending by ESSID, three entries with different keys. -/
theorem resort_is_identity_witness :
    (conf_essid_asc.scan_sort_asc = true →
      [entry_high, entry_strong, entry_scenario].Pairwise
        (fun a b => ¬ same_keys conf_essid_asc.scan_sort_order a b)) ∧
    sort_scan_list conf_essid_asc
        (sort_scan_list conf_essid_asc [entry_high, entry_strong, entry_scenario])
      = sort_scan_list conf_essid_asc [entry_high, entry_strong, entry_scenario] :=
  ⟨fun _ => by decide,
    resort_is_identity conf_essid_asc [entry_high, entry_strong, entry_scenario]
      (fun _ => by decide)⟩

/-- C15: in the by-ESSID order, two entries whose ESSIDs compare equal over
the bounded length and whose frequencies are equal are ordered by signal
level (`cmp_essid a b` holds exactly when the level of `a` is strictly below
that of `b`), and an ascending by-ESSID sort puts such entries in
non-decreasing signal level. -/
theorem equal_essid_and_frequency_by_signal :
    (∀ a b : scan_entry, strncmp a.essid b.essid IW_ESSID_MAX_SIZE = 0 → a.freq = b.freq →
      (cmp_essid a b = true ↔ a.qual.level < b.qual.level)) ∧
    (∀ (l : List scan_entry) (i j : Nat) (x y : scan_entry), i < j →
      (sort_scan_list conf_essid_asc l)[i]? = some x →
      (sort_scan_list conf_essid_asc l)[j]? = some y →
      strncmp x.essid y.essid IW_ESSID_MAX_SIZE = 0 → x.freq = y.freq →
      x.qual.level ≤ y.qual.level) := by
  have key : ∀ a b : scan_entry, strncmp a.essid b.essid IW_ESSID_MAX_SIZE = 0 →
      a.freq = b.freq → (cmp_essid a b = true ↔ a.qual.level < b.qual.level) := by
    intro a b he hf
    simp only [cmp_essid, he, hf, if_true, cmp_sig, decide_eq_true_eq]
  refine ⟨key, ?_⟩
  intro l i j x y hij hx hy he hf
  have h := (pairwise_at (sort_scan_list_sorted conf_essid_asc l) hij hx hy).1 rfl
  have he1 : strncmp y.essid x.essid IW_ESSID_MAX_SIZE = 0 := by
    rw [strncmp_antisymm, he]; rfl
  have h2 := key y x he1 hf.symm
  have h3 : ¬ y.qual.level < x.qual.level := by
    intro hlt
    have := h2.2 hlt
    have h4 : scan_cmp conf_essid_asc.scan_sort_order y x = cmp_essid y x := rfl
    rw [h4, this] at h
    exact absurd h (by decide)
  omega

/-- Witness of C15: same ESSID and frequency, levels 60 and 80. -/
theorem equal_essid_and_frequency_by_signal_witness :
    (strncmp entry_scenario.essid entry_strong.essid IW_ESSID_MAX_SIZE = 0 ∧
      entry_scenario.freq = entry_strong.freq) ∧
    (cmp_essid entry_scenario entry_strong = true ↔
      entry_scenario.qual.level < entry_strong.qual.level) :=
  ⟨⟨by decide, by decide⟩,
    equal_essid_and_frequency_by_signal.1 entry_scenario entry_strong (by decide) (by decide)⟩

/-! ### C16, C17: the channel histogram -/

theorem qsort_insertion_contract : qsort_contract qsort_insertion := by
  intro compar l htrans htot
  haveI : IsTrans cnt (fun a b => compar a b ≤ 0) := ⟨htrans⟩
  haveI : IsTotal cnt (fun a b => compar a b ≤ 0) := ⟨htot⟩
  exact ⟨List.perm_insertionSort _ l, List.sorted_insertionSort _ l⟩

theorem cmp_cnt_trans (conf : wavemon_conf) (a b c : cnt) (h1 : cmp_cnt conf a b ≤ 0)
    (h2 : cmp_cnt conf b c ≤ 0) : cmp_cnt conf a c ≤ 0 := by
  unfold cmp_cnt at *
  split_ifs at * <;> omega

theorem cmp_cnt_total (conf : wavemon_conf) (a b : cnt) :
    cmp_cnt conf a b ≤ 0 ∨ cmp_cnt conf b a ≤ 0 := by
  unfold cmp_cnt
  split_ifs <;> omega

theorem lfind_idx_lt (c : Int) : ∀ arr : List cnt,
    lfind_idx { val := c, count := 0 } arr < arr.length ↔ c ∈ arr.map cnt.val := by
  intro arr
  induction arr with
  | nil => simp [lfind_idx]
  | cons e rest ih =>
    rw [lfind_idx]
    by_cases h : cmp_key { val := c, count := 0 } e = 0
    · have hc : c = e.val := by unfold cmp_key at h; simp only at h; omega
      rw [if_pos h]
      simp [hc]
    · have hc : ¬ c = e.val := by
        intro hc; apply h; unfold cmp_key; simp only; omega
      rw [if_neg h]
      simp only [List.length_cons, Nat.add_lt_add_iff_right, ih, List.map_cons, List.mem_cons, hc,
        false_or]

theorem count_incr_found (c : Int) : ∀ arr : List cnt, (arr.map cnt.val).Nodup →
    c ∈ arr.map cnt.val →
    count_incr (lfind_idx { val := c, count := 0 } arr) arr =
      arr.map (fun b => if b.val = c then { b with count := b.count + 1 } else b) := by
  intro arr
  induction arr with
  | nil => intro _ h; simp at h
  | cons e rest ih =>
    intro hnd hmem
    rw [List.map_cons, List.nodup_cons] at hnd
    rw [lfind_idx]
    by_cases h : cmp_key { val := c, count := 0 } e = 0
    · have hc : e.val = c := by unfold cmp_key at h; simp only at h; omega
      rw [if_pos h, count_incr, List.map_cons, if_pos hc]
      congr 1
      have hid : ∀ b ∈ rest,
          (fun b : cnt => if b.val = c then { b with count := b.count + 1 } else b) b = id b := by
        intro b hb
        have : ¬ b.val = c := by
          intro hbc
          apply hnd.1
          rw [hc, ← hbc]
          exact List.mem_map_of_mem _ hb
        simp only [if_neg this, id]
      rw [List.map_congr_left hid, List.map_id]
    · have hc : ¬ e.val = c := by
        intro hc; apply h; unfold cmp_key; simp only; omega
      rw [if_neg h, count_incr, List.map_cons, if_neg hc]
      congr 1
      apply ih hnd.2
      rw [List.map_cons, List.mem_cons] at hmem
      rcases hmem with h1 | h1
      · exact absurd h1.symm hc
      · exact h1

theorem count_incr_appended (k : cnt) : ∀ arr : List cnt,
    count_incr arr.length (arr ++ [k]) = arr ++ [{ k with count := k.count + 1 }] := by
  intro arr
  induction arr with
  | nil => rfl
  | cons e rest ih => rw [List.length_cons, List.cons_append, count_incr, ih]; rfl

/-- The search and the increment together are one tally. -/
theorem lsearch_count_incr (c : Int) (arr : List cnt) (hnd : (arr.map cnt.val).Nodup) :
    count_incr (lsearch { val := c, count := 0 } arr).2 (lsearch { val := c, count := 0 } arr).1
      = tally c arr := by
  unfold lsearch tally
  by_cases h : c ∈ arr.map cnt.val
  · rw [if_pos ((lfind_idx_lt c arr).2 h), if_pos h]
    exact count_incr_found c arr hnd h
  · rw [if_neg (fun k => h ((lfind_idx_lt c arr).1 k)), if_neg h]
    exact count_incr_appended _ arr

theorem lsearch_length (c : Int) (arr : List cnt) :
    (lsearch { val := c, count := 0 } arr).1.length ≤ arr.length + 1 := by
  unfold lsearch
  split
  · exact Nat.le_succ _
  · simp

theorem tally_vals_found (c : Int) (arr : List cnt) :
    (arr.map (fun b : cnt => if b.val = c then { b with count := b.count + 1 } else b)).map cnt.val
      = arr.map cnt.val := by
  rw [List.map_map]
  apply List.map_congr_left
  intro b _
  simp only [Function.comp]
  split <;> rfl

theorem count_chan_snoc (seen : List scan_entry) (cur : scan_entry) (v : Int) :
    ((seen ++ [cur]).map scan_entry.chan).count v
      = (seen.map scan_entry.chan).count v + (if cur.chan = v then 1 else 0) := by
  rw [List.map_append, List.count_append, List.map_singleton, List.count_singleton]
  simp only [beq_iff_eq]

/-- An entry on a non-negative channel: the tally accounts for it. -/
theorem tally_bins (seen : List scan_entry) (arr : List cnt) (cur : scan_entry)
    (h : bins_of seen arr) (hc : 0 ≤ cur.chan) :
    bins_of (seen ++ [cur]) (tally cur.chan arr) := by
  obtain ⟨hnd, hmem, hcount⟩ := h
  unfold tally
  by_cases hin : cur.chan ∈ arr.map cnt.val
  · rw [if_pos hin]
    refine ⟨by rw [tally_vals_found]; exact hnd, ?_, ?_⟩
    · intro c
      rw [tally_vals_found, hmem c, List.map_append, List.mem_append, List.map_singleton,
        List.mem_singleton]
      constructor
      · rintro ⟨h0, h1⟩; exact ⟨h0, Or.inl h1⟩
      · rintro ⟨h0, h1 | h1⟩
        · exact ⟨h0, h1⟩
        · rw [h1]; exact (hmem _).1 hin
    · intro b hb
      rw [List.mem_map] at hb
      obtain ⟨b0, hb0, rfl⟩ := hb
      have hk := hcount b0 hb0
      by_cases hv : b0.val = cur.chan
      · rw [if_pos hv]
        simp only
        rw [count_chan_snoc, if_pos hv.symm, hk]
        push_cast
        rfl
      · rw [if_neg hv, count_chan_snoc, if_neg (fun e => hv e.symm), hk]
        rfl
  · rw [if_neg hin]
    have hnot : cur.chan ∉ seen.map scan_entry.chan := fun k => hin ((hmem _).2 ⟨hc, k⟩)
    refine ⟨?_, ?_, ?_⟩
    · rw [List.map_append, List.map_singleton]
      exact List.Nodup.append hnd (List.nodup_singleton _)
        (by
          intro x hx hx1
          rw [List.mem_singleton] at hx1
          have hx2 : x = cur.chan := hx1
          exact hin (hx2 ▸ hx))
    · intro c
      rw [List.map_append, List.mem_append, List.map_singleton, List.mem_singleton, hmem c,
        List.map_append, List.mem_append, List.map_singleton, List.mem_singleton]
      constructor
      · rintro (⟨h0, h1⟩ | h1)
        · exact ⟨h0, Or.inl h1⟩
        · exact ⟨h1 ▸ hc, Or.inr h1⟩
      · rintro ⟨h0, h1 | h1⟩
        · exact Or.inl ⟨h0, h1⟩
        · exact Or.inr h1
    · intro b hb
      rw [List.mem_append, List.mem_singleton] at hb
      rcases hb with hb | rfl
      · have hv : ¬ cur.chan = b.val := by
          intro e
          apply hin
          rw [e]
          exact List.mem_map_of_mem _ hb
        rw [count_chan_snoc, if_neg hv, hcount b hb]
        rfl
      · simp only
        rw [count_chan_snoc, if_pos rfl, List.count_eq_zero_of_not_mem hnot]
        rfl

/-- An entry on a negative channel is counted nowhere. -/
theorem skip_bins (seen : List scan_entry) (arr : List cnt) (cur : scan_entry)
    (h : bins_of seen arr) (hc : ¬ 0 ≤ cur.chan) : bins_of (seen ++ [cur]) arr := by
  obtain ⟨hnd, hmem, hcount⟩ := h
  refine ⟨hnd, ?_, ?_⟩
  · intro c
    rw [hmem c, List.map_append, List.mem_append, List.map_singleton, List.mem_singleton]
    constructor
    · rintro ⟨h0, h1⟩; exact ⟨h0, Or.inl h1⟩
    · rintro ⟨h0, h1 | h1⟩
      · exact ⟨h0, h1⟩
      · exact absurd (h1 ▸ h0) hc
  · intro b hb
    have hb0 : 0 ≤ b.val := ((hmem b.val).1 (List.mem_map_of_mem _ hb)).1
    have hv : ¬ cur.chan = b.val := fun e => hc (e ▸ hb0)
    rw [count_chan_snoc, if_neg hv, hcount b hb]
    rfl

theorem tally_length (c : Int) (arr : List cnt) : (tally c arr).length ≤ arr.length + 1 := by
  unfold tally
  split
  · rw [List.length_map]; exact Nat.le_succ _
  · simp

/-- The loop over the entries neither runs out of the array nor miscounts,
when the array was allocated for at least as many members as there are
entries. -/
theorem stats_loop_bins (cap : Nat) : ∀ (l seen : List scan_entry) (arr : List cnt),
    bins_of seen arr → arr.length ≤ seen.length → seen.length + l.length ≤ cap →
    ∃ out, stats_loop cap l arr = some out ∧ bins_of (seen ++ l) out := by
  intro l
  induction l with
  | nil =>
    intro seen arr h _ _
    exact ⟨arr, rfl, by rwa [List.append_nil]⟩
  | cons cur rest ih =>
    intro seen arr h hlen hcap
    rw [List.length_cons] at hcap
    have happ : seen ++ cur :: rest = (seen ++ [cur]) ++ rest := by
      rw [List.append_assoc, List.singleton_append]
    have hlen1 : (seen ++ [cur]).length = seen.length + 1 := by simp
    rw [stats_loop, happ]
    by_cases hc : cur.chan ≥ 0
    · rw [if_pos hc]
      have hl := lsearch_length cur.chan arr
      simp only
      rw [if_pos (by omega), lsearch_count_incr cur.chan arr h.1]
      exact ih (seen ++ [cur]) _ (tally_bins seen arr cur h hc)
        (by have := tally_length cur.chan arr; omega) (by omega)
    · rw [if_neg hc]
      exact ih (seen ++ [cur]) arr (skip_bins seen arr cur h hc) (by omega) (by omega)

theorem bins_of_nil : bins_of [] [] := by
  refine ⟨List.nodup_nil, ?_, ?_⟩
  · intro c; simp
  · intro b hb; simp at hb

theorem bins_of_perm (seen : List scan_entry) (arr out : List cnt) (h : bins_of seen arr)
    (hp : out.Perm arr) : bins_of seen out := by
  obtain ⟨hnd, hmem, hcount⟩ := h
  refine ⟨((hp.map cnt.val).nodup_iff).2 hnd, ?_, ?_⟩
  · intro c; rw [(hp.map cnt.val).mem_iff]; exact hmem c
  · intro b hb; exact hcount b (hp.mem_iff.1 hb)

/-- What `compute_channel_stats` produces, whatever the configuration: it
returns, touches only the histogram and its size, and the bins account for
the entries and are in the order that `cmp_cnt` asks for. -/
theorem channel_stats_general (qsort : (cnt → cnt → Int) → List cnt → List cnt)
    (hq : qsort_contract qsort) (conf : wavemon_conf) (sr : scan_result)
    (hn : sr.num.entries = sr.head.length) (h0 : sr.channel_stats = none) :
    ∃ out, compute_channel_stats qsort conf sr = some out ∧
      out.head = sr.head ∧ bins_of sr.head out.bins ∧
      out.bins.Pairwise (fun a b => cmp_cnt conf a b ≤ 0) := by
  unfold compute_channel_stats
  by_cases he : sr.num.entries = 0
  · rw [if_pos he]
    have hnil : sr.head = [] := List.length_eq_zero.1 (by omega)
    refine ⟨sr, rfl, rfl, ?_, ?_⟩
    · unfold scan_result.bins
      rw [h0, hnil]
      exact bins_of_nil
    · unfold scan_result.bins
      rw [h0]
      exact List.Pairwise.nil
  · rw [if_neg he]
    obtain ⟨arr, harr, hb⟩ := stats_loop_bins sr.num.entries sr.head [] [] bins_of_nil
      (le_refl _) (by simp only [List.length_nil]; omega)
    rw [List.nil_append] at hb
    rw [harr]
    refine ⟨_, rfl, rfl, ?_, ?_⟩
    · unfold scan_result.bins
      simp only
      by_cases hl : arr.length > 0
      · rw [if_pos hl]
        exact bins_of_perm _ _ _ hb
          (hq (cmp_cnt conf) arr (cmp_cnt_trans conf) (cmp_cnt_total conf)).1
      · rw [if_neg hl]
        have : arr = [] := List.length_eq_zero.1 (by omega)
        rw [this] at hb
        exact hb
    · unfold scan_result.bins
      simp only
      by_cases hl : arr.length > 0
      · rw [if_pos hl]
        exact (hq (cmp_cnt conf) arr (cmp_cnt_trans conf) (cmp_cnt_total conf)).2
      · rw [if_neg hl]
        exact List.Pairwise.nil

/-- The bins for entries on the channels 1, 1, 6, 6, 6, 11 (in any order of
the entries), before they are sorted. -/
theorem bins_of_scenario (head : List scan_entry) (bins : List cnt)
    (hp : (head.map scan_entry.chan).Perm [1, 1, 6, 6, 6, 11]) (hb : bins_of head bins) :
    ∃ x y z, bins = [x, y, z] ∧ x.val ≠ y.val ∧ x.val ≠ z.val ∧ y.val ≠ z.val ∧
      ∀ b ∈ bins, (b.val = 1 ∧ b.count = 2) ∨ (b.val = 6 ∧ b.count = 3) ∨
        (b.val = 11 ∧ b.count = 1) := by
  obtain ⟨hnd, hmem, hcount⟩ := hb
  have hvals : ∀ c, c ∈ bins.map cnt.val ↔ c ∈ ([1, 6, 11] : List Int) := by
    intro c
    rw [hmem c, hp.mem_iff]
    simp only [List.mem_cons, List.mem_singleton, List.not_mem_nil, or_false]
    omega
  have hperm : (bins.map cnt.val).Perm [1, 6, 11] :=
    (List.perm_ext_iff_of_nodup hnd (by decide)).2 hvals
  have hlen : bins.length = 3 := by
    have := hperm.length_eq
    rwa [List.length_map] at this
  have hall : ∀ b ∈ bins, (b.val = 1 ∧ b.count = 2) ∨ (b.val = 6 ∧ b.count = 3) ∨
      (b.val = 11 ∧ b.count = 1) := by
    intro b hb
    have h1 := (hvals b.val).1 (List.mem_map_of_mem _ hb)
    have h2 := hcount b hb
    rw [hp.count_eq] at h2
    simp only [List.mem_cons, List.mem_singleton, List.not_mem_nil, or_false] at h1
    rcases h1 with h1 | h1 | h1
    · left; rw [h1] at h2; exact ⟨h1, by rw [h2]; rfl⟩
    · right; left; rw [h1] at h2; exact ⟨h1, by rw [h2]; rfl⟩
    · right; right; rw [h1] at h2; exact ⟨h1, by rw [h2]; rfl⟩
  match bins, hlen, hnd, hall with
  | [x, y, z], _, hnd, hall =>
    simp only [List.map_cons, List.map_nil, List.nodup_cons, List.mem_cons, List.mem_singleton,
      List.not_mem_nil, or_false, not_or, not_false_eq_true, List.nodup_nil, and_true] at hnd
    exact ⟨x, y, z, rfl, hnd.1.1, hnd.1.2, hnd.2, hall⟩

theorem cnt_eq (b : cnt) (v c : Int) (h : b.val = v ∧ b.count = c) : b = ⟨v, c⟩ := by
  cases b
  simp only at h
  rw [h.1, h.2]

theorem bins_some (sr : scan_result) (l : List cnt) (h : sr.bins = l) (hl : l ≠ []) :
    sr.channel_stats = some l := by
  unfold scan_result.bins at h
  cases hc : sr.channel_stats with
  | none => rw [hc] at h; exact absurd h.symm hl
  | some a => rw [hc] at h; rw [← h]; rfl

/-- C16: for every entry list whose entry counter equals its length (and no
histogram allocated yet, as the function asks), under any configuration
other than by-channel descending, `compute_channel_stats` returns a histogram
with exactly one bin per distinct non-negative channel among the entries,
each count being the number of entries on that channel, in non-increasing
count; for entries on the channels 1, 1, 6, 6, 6, 11 the bins are
(6,3), (1,2), (11,1).  This holds for every `qsort` that meets the contract
of the C library. -/
theorem histogram_default_order (qsort : (cnt → cnt → Int) → List cnt → List cnt)
    (hq : qsort_contract qsort) (conf : wavemon_conf) (sr : scan_result)
    (hn : sr.num.entries = sr.head.length) (h0 : sr.channel_stats = none)
    (hconf : ¬ (conf.scan_sort_order = .SO_CHAN ∧ conf.scan_sort_asc = false)) :
    ∃ out, compute_channel_stats qsort conf sr = some out ∧
      (out.bins.map cnt.val).Nodup ∧
      (∀ c, c ∈ out.bins.map cnt.val ↔ 0 ≤ c ∧ c ∈ sr.head.map scan_entry.chan) ∧
      (∀ b ∈ out.bins, b.count = ((sr.head.map scan_entry.chan).count b.val : Nat)) ∧
      out.bins.Pairwise (fun a b => b.count ≤ a.count) ∧
      ((sr.head.map scan_entry.chan).Perm [1, 1, 6, 6, 6, 11] →
        out.channel_stats = some [⟨6, 3⟩, ⟨1, 2⟩, ⟨11, 1⟩]) := by
  obtain ⟨out, hout, _, hb, hs⟩ := channel_stats_general qsort hq conf sr hn h0
  have hsorted : out.bins.Pairwise (fun a b => b.count ≤ a.count) := by
    refine hs.imp ?_
    intro a b hab
    unfold cmp_cnt at hab
    rw [if_neg hconf] at hab
    omega
  refine ⟨out, hout, hb.1, hb.2.1, hb.2.2, hsorted, ?_⟩
  intro hp
  obtain ⟨x, y, z, hxyz, h1, h2, h3, hall⟩ := bins_of_scenario sr.head out.bins hp hb
  rw [hxyz] at hsorted hall
  simp only [List.pairwise_cons, List.mem_cons, List.mem_singleton, List.not_mem_nil,
    forall_eq_or_imp, forall_eq, or_false, false_implies, implies_true, and_true,
    List.Pairwise.nil] at hsorted
  have hx := hall x (List.mem_cons_self _ _)
  have hy := hall y (List.mem_cons_of_mem _ (List.mem_cons_self _ _))
  have hz := hall z (List.mem_cons_of_mem _ (List.mem_cons_of_mem _ (List.mem_cons_self _ _)))
  have ex : x = ⟨6, 3⟩ := cnt_eq x _ _ (by omega)
  have ey : y = ⟨1, 2⟩ := cnt_eq y _ _ (by omega)
  have ez : z = ⟨11, 1⟩ := cnt_eq z _ _ (by omega)
  rw [ex, ey, ez] at hxyz
  exact bins_some out _ hxyz (by simp)

/-- Witness of C16: the entries on the channels 1, 1, 6, 6, 6, 11, sorted
by signal level, with insertion sort for `qsort`. -/
theorem histogram_default_order_witness :
    (qsort_contract qsort_insertion ∧
      (result_on_channels [1, 1, 6, 6, 6, 11]).num.entries
        = (result_on_channels [1, 1, 6, 6, 6, 11]).head.length ∧
      (result_on_channels [1, 1, 6, 6, 6, 11]).channel_stats = none ∧
      ¬ (conf_sig_asc.scan_sort_order = .SO_CHAN ∧ conf_sig_asc.scan_sort_asc = false)) ∧
    ∃ out, compute_channel_stats qsort_insertion conf_sig_asc
        (result_on_channels [1, 1, 6, 6, 6, 11]) = some out ∧
      (out.bins.map cnt.val).Nodup ∧
      (∀ c, c ∈ out.bins.map cnt.val ↔
        0 ≤ c ∧ c ∈ (result_on_channels [1, 1, 6, 6, 6, 11]).head.map scan_entry.chan) ∧
      (∀ b ∈ out.bins, b.count =
        (((result_on_channels [1, 1, 6, 6, 6, 11]).head.map scan_entry.chan).count b.val : Nat)) ∧
      out.bins.Pairwise (fun a b => b.count ≤ a.count) ∧
      (((result_on_channels [1, 1, 6, 6, 6, 11]).head.map scan_entry.chan).Perm
          [1, 1, 6, 6, 6, 11] →
        out.channel_stats = some [⟨6, 3⟩, ⟨1, 2⟩, ⟨11, 1⟩]) :=
  ⟨⟨qsort_insertion_contract, by decide, rfl, by decide⟩,
    histogram_default_order qsort_insertion qsort_insertion_contract conf_sig_asc
      (result_on_channels [1, 1, 6, 6, 6, 11]) (by decide) rfl (by decide)⟩

/-- C17, counterexample: by-channel descending, entries on the channels
1, 1, 6, 6, 6, 11: the bins come out in increasing count, (11,1), (1,2),
(6,3), which is not non-increasing; and for entries on the channels 1 and 6
the two bins of equal count stand in ascending channel order with this
`qsort`. -/
theorem chan_descending_bins_ascend :
    (compute_channel_stats qsort_insertion conf_chan_desc
        (result_on_channels [1, 1, 6, 6, 6, 11])).map scan_result.bins
      = some [⟨11, 1⟩, ⟨1, 2⟩, ⟨6, 3⟩] ∧
    ¬ ([⟨11, 1⟩, ⟨1, 2⟩, ⟨6, 3⟩] : List cnt).Pairwise (fun a b => b.count ≤ a.count) ∧
    (compute_channel_stats qsort_insertion conf_chan_desc (result_on_channels [1, 6])).map
        scan_result.bins
      = some [⟨1, 1⟩, ⟨6, 1⟩] :=
  ⟨by decide, by decide, by decide⟩

/-- C17, amended: when the ranking order is by-channel and the direction is
descending, the bins of `compute_channel_stats` are the same bins (one per
distinct non-negative channel, with its number of entries) sorted by count
in non-decreasing order; for entries on the channels 1, 1, 6, 6, 6, 11 they
are (11,1), (1,2), (6,3).  Nothing is said about bins of equal count: their
order is left to `qsort`. -/
theorem histogram_chan_descending (qsort : (cnt → cnt → Int) → List cnt → List cnt)
    (hq : qsort_contract qsort) (conf : wavemon_conf) (sr : scan_result)
    (hn : sr.num.entries = sr.head.length) (h0 : sr.channel_stats = none)
    (ho : conf.scan_sort_order = .SO_CHAN) (hd : conf.scan_sort_asc = false) :
    ∃ out, compute_channel_stats qsort conf sr = some out ∧
      (out.bins.map cnt.val).Nodup ∧
      (∀ c, c ∈ out.bins.map cnt.val ↔ 0 ≤ c ∧ c ∈ sr.head.map scan_entry.chan) ∧
      (∀ b ∈ out.bins, b.count = ((sr.head.map scan_entry.chan).count b.val : Nat)) ∧
      out.bins.Pairwise (fun a b => a.count ≤ b.count) ∧
      ((sr.head.map scan_entry.chan).Perm [1, 1, 6, 6, 6, 11] →
        out.channel_stats = some [⟨11, 1⟩, ⟨1, 2⟩, ⟨6, 3⟩]) := by
  obtain ⟨out, hout, _, hb, hs⟩ := channel_stats_general qsort hq conf sr hn h0
  have hsorted : out.bins.Pairwise (fun a b => a.count ≤ b.count) := by
    refine hs.imp ?_
    intro a b hab
    unfold cmp_cnt at hab
    rw [if_pos ⟨ho, hd⟩] at hab
    omega
  refine ⟨out, hout, hb.1, hb.2.1, hb.2.2, hsorted, ?_⟩
  intro hp
  obtain ⟨x, y, z, hxyz, h1, h2, h3, hall⟩ := bins_of_scenario sr.head out.bins hp hb
  rw [hxyz] at hsorted hall
  simp only [List.pairwise_cons, List.mem_cons, List.mem_singleton, List.not_mem_nil,
    forall_eq_or_imp, forall_eq, or_false, false_implies, implies_true, and_true,
    List.Pairwise.nil] at hsorted
  have hx := hall x (List.mem_cons_self _ _)
  have hy := hall y (List.mem_cons_of_mem _ (List.mem_cons_self _ _))
  have hz := hall z (List.mem_cons_of_mem _ (List.mem_cons_of_mem _ (List.mem_cons_self _ _)))
  have ex : x = ⟨11, 1⟩ := cnt_eq x _ _ (by omega)
  have ey : y = ⟨1, 2⟩ := cnt_eq y _ _ (by omega)
  have ez : z = ⟨6, 3⟩ := cnt_eq z _ _ (by omega)
  rw [ex, ey, ez] at hxyz
  exact bins_some out _ hxyz (by simp)

/-- Witness of C17: the entries on the channels 1, 1, 6, 6, 6, 11. -/
theorem histogram_chan_descending_witness :
    (qsort_contract qsort_insertion ∧
      (result_on_channels [1, 1, 6, 6, 6, 11]).num.entries
        = (result_on_channels [1, 1, 6, 6, 6, 11]).head.length ∧
      (result_on_channels [1, 1, 6, 6, 6, 11]).channel_stats = none ∧
      conf_chan_desc.scan_sort_order = .SO_CHAN ∧ conf_chan_desc.scan_sort_asc = false) ∧
    ∃ out, compute_channel_stats qsort_insertion conf_chan_desc
        (result_on_channels [1, 1, 6, 6, 6, 11]) = some out ∧
      (out.bins.map cnt.val).Nodup ∧
      (∀ c, c ∈ out.bins.map cnt.val ↔
        0 ≤ c ∧ c ∈ (result_on_channels [1, 1, 6, 6, 6, 11]).head.map scan_entry.chan) ∧
      (∀ b ∈ out.bins, b.count =
        (((result_on_channels [1, 1, 6, 6, 6, 11]).head.map scan_entry.chan).count b.val : Nat)) ∧
      out.bins.Pairwise (fun a b => a.count ≤ b.count) ∧
      (((result_on_channels [1, 1, 6, 6, 6, 11]).head.map scan_entry.chan).Perm
          [1, 1, 6, 6, 6, 11] →
        out.channel_stats = some [⟨11, 1⟩, ⟨1, 2⟩, ⟨6, 3⟩]) :=
  ⟨⟨qsort_insertion_contract, by decide, rfl, rfl, rfl⟩,
    histogram_chan_descending qsort_insertion qsort_insertion_contract conf_chan_desc
      (result_on_channels [1, 1, 6, 6, 6, 11]) (by decide) rfl rfl rfl⟩

/-! ### C20: when the payload pointer of a point event is kept -/

/-- The three checks of lines 474-486 on the event that they leave with a
payload pointer. -/
theorem point_discard_kept (iwe : iw_event) (d : iw_ioctl_description) (extra_len token_len p : Nat)
    (h : (point_discard iwe d extra_len token_len).pointer = some p) :
    (point_discard iwe d extra_len token_len).u = iwe.u ∧ token_len ≤ extra_len ∧
    (iwe.data_length ≤ d.max_tokens ∨ d.flags &&& IW_DESCR_FLAG_NOMAX ≠ 0) ∧
    d.min_tokens ≤ iwe.data_length := by
  unfold point_discard at h ⊢
  simp only [iw_event.data_length] at h ⊢
  by_cases h1 : token_len > extra_len
  · simp only [h1, if_true] at h
    split_ifs at h
  · simp only [h1, if_false] at h ⊢
    by_cases h2 : le16 iwe.u IW_EV_POINT_OFF > d.max_tokens ∧ d.flags &&& IW_DESCR_FLAG_NOMAX = 0
    · simp only [h2, and_self, if_true] at h
      split_ifs at h
    · simp only [h2, if_false] at h ⊢
      by_cases h3 : le16 iwe.u IW_EV_POINT_OFF < d.min_tokens
      · simp only [h3, if_true] at h
        simp at h
      · simp only [h3, if_false]
        refine ⟨trivial, by omega, ?_, by omega⟩
        by_cases h4 : d.flags &&& IW_DESCR_FLAG_NOMAX = 0
        · left
          have := fun k => h2 ⟨k, h4⟩
          omega
        · right; exact h4

/-- What does hold of every point event handed over with a payload pointer:
the declared count is within the token bounds of the descriptor. -/
theorem point_payload_token_bounds (mem : List Nat) (s : stream_descr) (iwe : iw_event)
    (we : Int) (d : iw_ioctl_description) (p : Nat)
    (hret : (iw_extract_event_stream mem s iwe we).ret = 1)
    (hty : hdr_type mem s.current = IW_HEADER_TYPE_POINT)
    (hd : lookup_descr (hdr_cmd mem s.current) = some d)
    (hp : (iw_extract_event_stream mem s iwe we).iwe.pointer = some p) :
    ((iw_extract_event_stream mem s iwe we).iwe.data_length ≤ d.max_tokens ∨
      d.flags &&& IW_DESCR_FLAG_NOMAX ≠ 0) ∧
    d.min_tokens ≤ (iw_extract_event_stream mem s iwe we).iwe.data_length := by
  rw [extract_eq] at hret hp ⊢
  split_ifs at hret hp ⊢ with h0 h1 h2 h3
  · exact absurd (show (0 : Int) = 1 from hret) (by decide)
  · exact absurd (show (-1 : Int) = 1 from hret) (by decide)
  · exact absurd (show (2 : Int) = 1 from hret) (by decide)
  · exact absurd (show (-2 : Int) = 1 from hret) (by decide)
  · rw [hd] at hp ⊢
    unfold extract_point at hp ⊢
    simp only at hp ⊢
    split_ifs at hp ⊢ with h4
    · have k := point_discard_kept _ _ _ _ _ hp
      simp only [iw_event.data_length] at k ⊢
      rw [k.1]
      exact ⟨k.2.2.1, k.2.2.2⟩

/-- An ESSID report handed over with a payload pointer declares at most
`IW_ESSID_MAX_SIZE + 1` bytes. -/
theorem essid_payload_at_most_33 (mem : List Nat) (s : stream_descr) (iwe : iw_event)
    (we : Int) (p : Nat) (hret : (iw_extract_event_stream mem s iwe we).ret = 1)
    (hcmd : hdr_cmd mem s.current = SIOCGIWESSID)
    (hp : (iw_extract_event_stream mem s iwe we).iwe.pointer = some p) :
    (iw_extract_event_stream mem s iwe we).iwe.data_length ≤ IW_ESSID_MAX_SIZE + 1 := by
  have hd : lookup_descr (hdr_cmd mem s.current)
      = some (descr_point 1 0 (IW_ESSID_MAX_SIZE + 1) IW_DESCR_FLAG_DUMP) := by
    rw [hcmd]; rfl
  have hty : hdr_type mem s.current = IW_HEADER_TYPE_POINT := by
    unfold hdr_type; rw [hd]; rfl
  have h := (point_payload_token_bounds mem s iwe we _ p hret hty hd hp).1
  rcases h with h | h
  · exact h
  · exact absurd rfl h

/-- C20, evaluated on two ESSID reports.  Protocol version 18, the 26-byte
report `buf_legacy_refit`: the decoder returns an Event with the payload
pointer present (offset 24) and the final declared count 33, while the
declared length 26 leaves 10 trailing bytes after header and fixed part; the
fix-up checked the alternate count 2 and copied another one.  Protocol
version 22, the report `buf_point_short_len` of declared length 6: the
payload pointer is present with the count 33 although the declared length
does not even cover the fixed part. -/
theorem refitted_point_event_keeps_overlong_payload :
    ((iw_extract_event_stream buf_legacy_refit (fresh_stream buf_legacy_refit) iwe_init 18).ret = 1 ∧
      (iw_extract_event_stream buf_legacy_refit (fresh_stream buf_legacy_refit) iwe_init 18).iwe.pointer
        = some 24 ∧
      (iw_extract_event_stream buf_legacy_refit (fresh_stream buf_legacy_refit) iwe_init 18).iwe.data_length
        = 33 ∧
      lookup_descr (hdr_cmd buf_legacy_refit 0)
        = some (descr_point 1 0 (IW_ESSID_MAX_SIZE + 1) IW_DESCR_FLAG_DUMP) ∧
      hdr_len buf_legacy_refit 0 - (fixed_len buf_legacy_refit 0 18 + IW_EV_LCP_PK_LEN) = 10) ∧
    ((iw_extract_event_stream buf_point_short_len (fresh_stream buf_point_short_len) iwe_init 22).ret
        = 1 ∧
      (iw_extract_event_stream buf_point_short_len (fresh_stream buf_point_short_len)
          iwe_init 22).iwe.pointer = some 8 ∧
      (iw_extract_event_stream buf_point_short_len (fresh_stream buf_point_short_len)
          iwe_init 22).iwe.data_length = 33 ∧
      hdr_len buf_point_short_len 0 < fixed_len buf_point_short_len 0 22 + IW_EV_LCP_PK_LEN) := by
  decide

/-! ### C18, C19: the refresh cycle of `do_scan` -/

theorem compute_channel_stats_returns (qsort : (cnt → cnt → Int) → List cnt → List cnt)
    (conf : wavemon_conf) (sr : scan_result) (hn : sr.num.entries = sr.head.length) :
    ∃ out, compute_channel_stats qsort conf sr = some out := by
  unfold compute_channel_stats
  by_cases he : sr.num.entries = 0
  · rw [if_pos he]; exact ⟨sr, rfl⟩
  · rw [if_neg he]
    obtain ⟨arr, harr, _⟩ := stats_loop_bins sr.num.entries sr.head [] [] bins_of_nil
      (le_refl _) (by simp only [List.length_nil]; omega)
    rw [harr]
    exact ⟨_, rfl⟩

theorem do_scan_entries_inner (env : scan_env) : ∀ (post pre : List scan_entry) (s : scan_result),
    ∀ st ∈ (do_scan_entries env pre post s).1, st.op.inner = true := by
  intro post
  induction post with
  | nil => intro pre s st h; rw [do_scan_entries] at h; exact absurd h (List.not_mem_nil _)
  | cons cur post ih =>
    intro pre s st h
    rw [do_scan_entries] at h
    simp only [List.mem_append, List.mem_cons, List.mem_singleton, List.not_mem_nil,
      or_false] at h
    rcases h with ((((h | h) | h) | h) | h)
    · split at h
      · rw [List.mem_singleton] at h; rw [h]; rfl
      · exact absurd h (List.not_mem_nil _)
    · rcases h with h | h <;> (rw [h]; rfl)
    · split at h
      · rw [List.mem_singleton] at h; rw [h]; rfl
      · exact absurd h (List.not_mem_nil _)
    · rcases h with h | h <;> (rw [h]; rfl)
    · exact ih _ _ st h

theorem essid_len_step_num (env : scan_env) (cur : scan_entry) (s : scan_result) :
    (essid_len_step env cur s).num = s.num ∧ (essid_len_step env cur s).head = s.head ∧
    (essid_len_step env cur s).channel_stats = s.channel_stats ∧
    (essid_len_step env cur s).msg = s.msg := by
  unfold essid_len_step
  split <;> exact ⟨rfl, rfl, rfl, rfl⟩

theorem band_step_entries (cur : scan_entry) (s : scan_result) :
    (band_step cur s).num.entries = s.num.entries ∧ (band_step cur s).head = s.head := by
  unfold band_step
  split_ifs <;> exact ⟨rfl, rfl⟩

theorem do_scan_entries_count (env : scan_env) : ∀ (post pre : List scan_entry) (s : scan_result),
    (do_scan_entries env pre post s).2.num.entries = s.num.entries + post.length ∧
    (post ≠ [] → (do_scan_entries env pre post s).2.head.length = pre.length + post.length) := by
  intro post
  induction post with
  | nil => intro pre s; rw [do_scan_entries]; exact ⟨rfl, fun h => absurd rfl h⟩
  | cons cur post ih =>
    intro pre s
    rw [do_scan_entries]
    simp only
    refine ⟨?_, fun _ => ?_⟩
    · rw [(ih _ _).1]
      simp only [open_step, entries_step, (band_step_entries _ _).1, (essid_len_step_num _ _ _).1,
        List.length_cons]
      omega
    · cases post with
      | nil =>
        rw [do_scan_entries]
        simp only [open_step, entries_step, (band_step_entries _ _).2, List.length_append,
          List.length_cons, List.length_nil]
      | cons c2 p2 =>
        rw [(ih _ _).2 (List.cons_ne_nil _ _)]
        simp only [List.length_append, List.length_cons, List.length_nil]
        omega

theorem result_after_nil (s : scan_result) : result_after s [] = s := rfl

theorem result_after_cons (s : scan_result) (st : sr_step) (rest : List sr_step) :
    result_after s (st :: rest) = result_after st.after rest := by
  unfold result_after
  cases rest with
  | nil => rfl
  | cons a l =>
    rw [List.getLast?_cons_cons]
    cases h : (a :: l).getLast? with
    | none => exact absurd (List.getLast?_eq_none_iff.1 h) (List.cons_ne_nil _ _)
    | some x => rfl

theorem result_after_snoc (s : scan_result) (mid : List sr_step) (last : sr_step) :
    result_after s (mid ++ [last]) = last.after := by
  unfold result_after
  rw [List.getLast?_append, List.getLast?_singleton]
  rfl

/-- Lines 876-892 after the counters were zeroed: steps inside the lock,
then the release of the mutex; `compute_channel_stats` finds the entry
counter equal to the length of the list and returns. -/
theorem do_scan_finish_shape (qsort : (cnt → cnt → Int) → List cnt → List cnt)
    (conf : wavemon_conf) (env : scan_env) (s : scan_result) (h0 : s.num.entries = 0) :
    ∃ mid last, do_scan_finish qsort conf env s = mid ++ [last] ∧
      (∀ st ∈ mid, st.op.inner = true) ∧ last.op = .mutex_unlock := by
  have hc := do_scan_entries_count env s.head [] s
  have hn : (do_scan_entries env [] s.head s).2.num.entries
      = (do_scan_entries env [] s.head s).2.head.length := by
    rw [hc.1, h0]
    by_cases hnil : s.head = []
    · rw [hnil, do_scan_entries, hnil]; rfl
    · rw [hc.2 hnil]; rfl
  obtain ⟨out, hout⟩ := compute_channel_stats_returns qsort conf _ hn
  unfold do_scan_finish
  simp only [hout]
  refine ⟨_, ⟨.mutex_unlock, out⟩, rfl, ?_, rfl⟩
  intro st hst
  rw [List.mem_append] at hst
  rcases hst with hst | hst
  · exact do_scan_entries_inner env _ _ _ st hst
  · split at hst
    · exact absurd hst (List.not_mem_nil _)
    · simp only [List.mem_cons, List.mem_singleton, List.not_mem_nil, or_false] at hst
      rcases hst with hst | hst <;> (rw [hst]; rfl)

/-- The `switch (errno)`: either steps inside the lock that leave the list
and the counters alone, or such steps and then `err_sys`. -/
theorem do_scan_failure_shape (env : scan_env) (errno : Nat) (s : scan_result) :
    ((do_scan_failure env errno s).2 = true ∧
      (∀ st ∈ (do_scan_failure env errno s).1, st.op.inner = true) ∧
      (result_after s (do_scan_failure env errno s).1).num = s.num ∧
      (result_after s (do_scan_failure env errno s).1).head = s.head) ∨
    ((do_scan_failure env errno s).2 = false ∧
      ∃ mid last, (do_scan_failure env errno s).1 = mid ++ [last] ∧
        (∀ st ∈ mid, st.op.inner = true) ∧ last.op = .err_sys) := by
  unfold do_scan_failure
  split_ifs
  · left; refine ⟨rfl, ?_, rfl, rfl⟩
    intro st hst; rw [List.mem_singleton] at hst; rw [hst]; rfl
  · left; exact ⟨rfl, fun st hst => absurd hst (List.not_mem_nil _), rfl, rfl⟩
  · left; exact ⟨rfl, fun st hst => absurd hst (List.not_mem_nil _), rfl, rfl⟩
  · left; refine ⟨rfl, ?_, rfl, rfl⟩
    intro st hst; rw [List.mem_singleton] at hst; rw [hst]; rfl
  · right; refine ⟨rfl, [_], _, rfl, ?_, rfl⟩
    intro st hst; rw [List.mem_singleton] at hst; rw [hst]; rfl
  · left; refine ⟨rfl, ?_, rfl, rfl⟩
    intro st hst; rw [List.mem_singleton] at hst; rw [hst]; rfl
  · left; refine ⟨rfl, ?_, rfl, rfl⟩
    intro st hst; rw [List.mem_singleton] at hst; rw [hst]; rfl
  · left; refine ⟨rfl, ?_, rfl, rfl⟩
    intro st hst; rw [List.mem_singleton] at hst; rw [hst]; rfl
  · left; refine ⟨rfl, ?_, rfl, rfl⟩
    intro st hst; rw [List.mem_singleton] at hst; rw [hst]; rfl

theorem do_scan_reset_inner (sr : scan_result) : ∀ st ∈ do_scan_reset sr, st.op.inner = true := by
  intro st hst
  unfold do_scan_reset at hst
  simp only [List.mem_cons, List.mem_singleton, List.not_mem_nil, or_false] at hst
  rcases hst with hst | hst | hst | hst | hst | hst | hst <;> (rw [hst]; rfl)

/-- The reset of lines 827-831 overwrites every member that the thread
writes, whatever the previous cycle left in it. -/
theorem do_scan_reset_result (sr : scan_result) :
    result_after sr (do_scan_reset sr) =
      { head := [], msg := "", max_essid_len := MAX_ESSID_LEN,
        num := { entries := 0, open_ := 0, two_gig := 0, five_gig := 0, ch_stats := 0 },
        channel_stats := none } := rfl

theorem do_scan_rebuild_shape (qsort : (cnt → cnt → Int) → List cnt → List cnt)
    (conf : wavemon_conf) (env : scan_env) (s : scan_result) (h0 : s.num.entries = 0) :
    ∃ mid last, do_scan_rebuild qsort conf env s = mid ++ [last] ∧
      (∀ st ∈ mid, st.op.inner = true) ∧ (last.op = .mutex_unlock ∨ last.op = .err_sys) := by
  unfold do_scan_rebuild
  cases hs : env.scan with
  | none => exact ⟨[], ⟨.err_sys, s⟩, rfl, fun st h => absurd h (List.not_mem_nil _),
      Or.inr rfl⟩
  | some r =>
    obtain ⟨head, errno⟩ := r
    simp only
    by_cases hh : head = []
    · rw [if_pos hh]
      rcases do_scan_failure_shape env errno { s with head := head } with hf | hf
      · rw [if_pos hf.1]
        obtain ⟨mid, last, hfin, hmid, hlast⟩ := do_scan_finish_shape qsort conf env
          (result_after _ (do_scan_failure env errno { s with head := head }).1)
          (by rw [hf.2.2.1]; exact h0)
        rw [hfin]
        refine ⟨⟨.set_head, { s with head := head }⟩ ::
          ((do_scan_failure env errno { s with head := head }).1 ++ mid), last, ?_, ?_,
          Or.inl hlast⟩
        · simp only [List.cons_append, List.append_assoc]
        · intro st hst
          rw [List.mem_cons, List.mem_append] at hst
          rcases hst with hst | hst | hst
          · rw [hst]; rfl
          · exact hf.2.1 st hst
          · exact hmid st hst
      · rw [hf.1]
        obtain ⟨mid, last, hfl, hmid, hlast⟩ := hf.2
        rw [hfl]
        refine ⟨⟨.set_head, { s with head := head }⟩ :: mid, last, ?_, ?_,
          Or.inr hlast⟩
        · simp only [List.cons_append, Bool.false_eq_true, if_false]
        · intro st hst
          rw [List.mem_cons] at hst
          rcases hst with hst | hst
          · rw [hst]; rfl
          · exact hmid st hst
    · rw [if_neg hh]
      obtain ⟨mid, last, hfin, hmid, hlast⟩ := do_scan_finish_shape qsort conf env
        { s with head := head } h0
      rw [hfin]
      refine ⟨⟨.set_head, { s with head := head }⟩ :: mid, last, ?_, ?_,
        Or.inl hlast⟩
      · simp only [List.cons_append]
      · intro st hst
        rw [List.mem_cons] at hst
        rcases hst with hst | hst
        · rw [hst]; rfl
        · exact hmid st hst

/-- The shape of every refresh cycle: the lock, steps inside the lock, and
then either the release of the mutex or `err_sys`. -/
theorem do_scan_cycle_shape (qsort : (cnt → cnt → Int) → List cnt → List cnt)
    (conf : wavemon_conf) (env : scan_env) (sr : scan_result) :
    ∃ mid last, do_scan_cycle qsort conf env sr = ⟨.mutex_lock, sr⟩ :: (mid ++ [last]) ∧
      (∀ st ∈ mid, st.op.inner = true) ∧ (last.op = .mutex_unlock ∨ last.op = .err_sys) := by
  obtain ⟨mid, last, h, hmid, hlast⟩ := do_scan_rebuild_shape qsort conf env
    (result_after sr (do_scan_reset sr)) (by rw [do_scan_reset_result])
  refine ⟨do_scan_reset sr ++ mid, last, ?_, ?_, hlast⟩
  · unfold do_scan_cycle
    rw [h, List.append_assoc]
  · intro st hst
    rw [List.mem_append] at hst
    rcases hst with hst | hst
    · exact do_scan_reset_inner sr st hst
    · exact hmid st hst

theorem countP_unlock_inner : ∀ mid : List sr_step, (∀ st ∈ mid, st.op.inner = true) →
    mid.countP (fun st => decide (st.op = .mutex_unlock)) = 0 := by
  intro mid h
  rw [List.countP_eq_zero]
  intro st hst
  have := h st hst
  intro hu
  rw [decide_eq_true_eq] at hu
  rw [hu] at this
  exact absurd this (by decide)

theorem reader_observes_inner (rest : List sr_step) : ∀ (mid : List sr_step) (s : scan_result),
    (∀ st ∈ mid, st.op.inner = true) →
    reader_observes true s (mid ++ rest) = reader_observes true (result_after s mid) rest := by
  intro mid
  induction mid with
  | nil => intro s _; rfl
  | cons st mid ih =>
    intro s h
    have h1 := h st (List.mem_cons_self _ _)
    have hl : ¬ st.op = .mutex_lock := by
      intro e; rw [e] at h1; exact absurd h1 (by decide)
    have hu : ¬ st.op = .mutex_unlock := by
      intro e; rw [e] at h1; exact absurd h1 (by decide)
    rw [List.cons_append, reader_observes, if_neg hl, if_neg hu, result_after_cons,
      ih st.after (fun x hx => h x (List.mem_cons_of_mem _ hx))]
    rfl

/-- C18: a refresh cycle in which `get_scan_list` returns no entries with
`errno = EPERM` while the process has no net-admin capability ends, whatever
the previous cycle left, with the release of the mutex on a result whose
status message is the capability-missing text, whose entry list is empty,
which has no histogram and whose counters (entries, open, 2.4 GHz, 5 GHz,
histogram size) are all zero.  The previous result `sr` goes through the
reset of lines 827-831 (`do_scan_reset`), and what the reset leaves is what
the `switch (errno)` and the entry loop work on. -/
theorem eperm_cycle_leaves_message_and_no_entries
    (qsort : (cnt → cnt → Int) → List cnt → List cnt) (conf : wavemon_conf) (env : scan_env)
    (sr : scan_result) (hscan : env.scan = some ([], EPERM)) (hcap : env.has_net_admin = false) :
    (do_scan_cycle qsort conf env sr).getLast? =
      some ⟨.mutex_unlock,
        { head := [], msg := "This screen requires CAP_NET_ADMIN permissions",
          max_essid_len := MAX_ESSID_LEN,
          num := { entries := 0, open_ := 0, two_gig := 0, five_gig := 0, ch_stats := 0 },
          channel_stats := none }⟩ := by
  have hf : ∀ s : scan_result, do_scan_failure env EPERM s =
      ([⟨.set_msg, { s with msg := "This screen requires CAP_NET_ADMIN permissions" }⟩],
        true) := by
    intro s
    unfold do_scan_failure
    rw [if_pos rfl, if_pos hcap]
  have hreset : result_after sr (do_scan_reset sr) =
      { head := [], msg := "", max_essid_len := MAX_ESSID_LEN,
        num := { entries := 0, open_ := 0, two_gig := 0, five_gig := 0, ch_stats := 0 },
        channel_stats := none } := rfl
  unfold do_scan_cycle
  rw [hreset]
  unfold do_scan_rebuild
  rw [hscan]
  simp only [if_true]
  rw [hf]
  rfl

/-- Witness of C18: the cycle after one that had found an access point.  The
previous result holds one entry, a histogram and non-zero counters; the
steps of the cycle start at the lock on that result and go through the
reset. -/
theorem eperm_cycle_leaves_message_and_no_entries_witness :
    (env_eperm.scan = some ([], EPERM) ∧ env_eperm.has_net_admin = false) ∧
    (result_one_entry.head.length = 1 ∧ result_one_entry.num.entries = 1 ∧
      result_one_entry.channel_stats ≠ none) ∧
    (do_scan_cycle qsort_insertion conf_sig_asc env_eperm result_one_entry).map (fun st => st.op) =
      [.mutex_lock, .free_head, .free_stats, .set_head, .set_channel_stats, .set_msg,
        .set_max_essid_len, .set_num, .set_head, .set_msg, .mutex_unlock] ∧
    (do_scan_cycle qsort_insertion conf_sig_asc env_eperm result_one_entry).getLast? =
      some ⟨.mutex_unlock,
        { head := [], msg := "This screen requires CAP_NET_ADMIN permissions",
          max_essid_len := MAX_ESSID_LEN,
          num := { entries := 0, open_ := 0, two_gig := 0, five_gig := 0, ch_stats := 0 },
          channel_stats := none }⟩ :=
  ⟨⟨rfl, rfl⟩, ⟨rfl, rfl, by decide⟩, by decide,
    eperm_cycle_leaves_message_and_no_entries qsort_insertion conf_sig_asc env_eperm
      result_one_entry rfl rfl⟩

/-- C19: in every refresh cycle of `do_scan` the first step takes the
mutex, on the result as the previous cycle left it; every step between it
and the last one is a write to the shared result (or a `free`) and neither
takes nor releases the mutex; the last step is the release of the mutex, the
only one of the cycle, or `err_sys` on a fatal path, where the mutex is
never released.  So a reader that holds the mutex finds the result of the
previous cycle or the completely rebuilt one, nothing in between. -/
theorem shared_result_written_under_mutex (qsort : (cnt → cnt → Int) → List cnt → List cnt)
    (conf : wavemon_conf) (env : scan_env) (sr : scan_result) :
    ∃ mid last, do_scan_cycle qsort conf env sr = ⟨.mutex_lock, sr⟩ :: (mid ++ [last]) ∧
      (∀ st ∈ mid, st.op.inner = true) ∧
      ((last.op = .mutex_unlock ∧
          (do_scan_cycle qsort conf env sr).countP (fun st => decide (st.op = .mutex_unlock)) = 1 ∧
          reader_observes false sr (do_scan_cycle qsort conf env sr) = [sr, last.after]) ∨
        (last.op = .err_sys ∧
          (do_scan_cycle qsort conf env sr).countP (fun st => decide (st.op = .mutex_unlock)) = 0 ∧
          reader_observes false sr (do_scan_cycle qsort conf env sr) = [sr])) := by
  obtain ⟨mid, last, h, hmid, hlast⟩ := do_scan_cycle_shape qsort conf env sr
  refine ⟨mid, last, h, hmid, ?_⟩
  have hobs : reader_observes false sr (do_scan_cycle qsort conf env sr)
      = sr :: reader_observes true (result_after sr mid) [last] := by
    rw [h, reader_observes, if_pos rfl, reader_observes_inner [last] mid sr hmid]
    rfl
  have hcount : (do_scan_cycle qsort conf env sr).countP (fun st => decide (st.op = .mutex_unlock))
      = [last].countP (fun st => decide (st.op = .mutex_unlock)) := by
    rw [h, List.countP_cons, List.countP_append, countP_unlock_inner mid hmid]
    simp
  rcases hlast with hl | hl
  · left
    refine ⟨hl, ?_, ?_⟩
    · rw [hcount, List.countP_singleton, hl]; rfl
    · rw [hobs, reader_observes, reader_observes, hl]; rfl
  · right
    refine ⟨hl, ?_, ?_⟩
    · rw [hcount, List.countP_singleton, hl]; rfl
    · rw [hobs, reader_observes, reader_observes, hl]; rfl

/-! ### C21: the candidate entry across access points -/

/-- C21, evaluated: the events of an access point abandoned incomplete (its
address report and an information-element event with tag 0x30) come before
the seven events of an open access point whose own information element marks
nothing.  Decoded alone, the seven events give the entry with no capability
flag; decoded after the abandoned ones, the same seven events give the entry
with the WPA2 flag set: the candidate is not cleared at the address report,
and the classifier only ORs bits in. -/
theorem abandoned_cell_leaves_its_flags :
    get_scan_list buf_open_cell 22 = .done [expected_entry report_open] ∧
    (expected_entry report_open).flags = 0 ∧
    decoded_cmds buf_stale_flags 22 =
      [SIOCGIWAP, IWEVGENIE, SIOCGIWAP, SIOCGIWESSID, SIOCGIWMODE, SIOCGIWFREQ, SIOCGIWENCODE,
        IWEVQUAL, IWEVGENIE] ∧
    get_scan_list buf_stale_flags 22 =
      .done [{ expected_entry report_open with flags := IW_ENC_CAPA_WPA2 }] := by
  decide

/-! ### C24: what the classifier reads -/

/-- C24, evaluated on two information-element events.  First event: the
payload is present with declared length 2 (tag 0xdd, inner length 8); the
classifier reads the payload offsets 0 and 1 and then 2, 3 and 4 for the
vendor prefix, which are not below the declared length.  Second event: the
decoder dropped the payload pointer but left the declared length 2, and the
classifier, called all the same, dereferences the NULL pointer. -/
theorem classifier_reads_past_declared_length :
    ((iw_extract_event_stream buf_ie_cut_vendor (fresh_stream buf_ie_cut_vendor) iwe_init 22).ret = 1 ∧
      (iw_extract_event_stream buf_ie_cut_vendor (fresh_stream buf_ie_cut_vendor) iwe_init 22).iwe.cmd
        = IWEVGENIE ∧
      (iw_extract_event_stream buf_ie_cut_vendor (fresh_stream buf_ie_cut_vendor)
        iwe_init 22).iwe.pointer = some 8 ∧
      (iw_extract_event_stream buf_ie_cut_vendor (fresh_stream buf_ie_cut_vendor)
        iwe_init 22).iwe.data_length = 2 ∧
      (iw_extract_ie buf_ie_cut_vendor
        (iw_extract_event_stream buf_ie_cut_vendor (fresh_stream buf_ie_cut_vendor) iwe_init 22).iwe
        scan_entry_zero).map (fun r => r.2) = some [0, 1, 2, 3, 4]) ∧
    ((iw_extract_event_stream buf_ie_dropped (fresh_stream buf_ie_dropped) iwe_init 22).ret = 1 ∧
      (iw_extract_event_stream buf_ie_dropped (fresh_stream buf_ie_dropped) iwe_init 22).iwe.cmd
        = IWEVGENIE ∧
      (iw_extract_event_stream buf_ie_dropped (fresh_stream buf_ie_dropped)
        iwe_init 22).iwe.pointer = none ∧
      (iw_extract_event_stream buf_ie_dropped (fresh_stream buf_ie_dropped)
        iwe_init 22).iwe.data_length = 2 ∧
      iw_extract_ie buf_ie_dropped
        (iw_extract_event_stream buf_ie_dropped (fresh_stream buf_ie_dropped) iwe_init 22).iwe
        scan_entry_zero = none ∧
      get_scan_list buf_ie_dropped 22 = .fault) := by
  decide

/-! ### C22: `sort_scan_list` rearranges -/

/-- C22: for every list, order and direction the output of `sort_scan_list`
is a permutation of its input: it has the same length, every entry occurs in
it as often as in the input (an entry is the record of all members but the
`next` link, so the members are unchanged), and the empty list is mapped to
the empty list. -/
theorem sort_output_is_permutation (conf : wavemon_conf) (l : List scan_entry) :
    (sort_scan_list conf l).Perm l ∧
    (sort_scan_list conf l).length = l.length ∧
    (∀ e, (sort_scan_list conf l).count e = l.count e) ∧
    (∀ e, e ∈ sort_scan_list conf l ↔ e ∈ l) ∧
    sort_scan_list conf [] = [] :=
  ⟨sort_scan_list_perm conf l, (sort_scan_list_perm conf l).length_eq,
    fun e => (sort_scan_list_perm conf l).count_eq e, fun _ => (sort_scan_list_perm conf l).mem_iff,
    rfl⟩

/-! ### C23: the loop ends -/

theorem event_type_size_step (t : Nat) (h : 4 < event_type_size.getD t 0) :
    8 ≤ event_type_size.getD t 0 := by
  by_cases ht : t < 11
  · interval_cases t <;> revert h <;> decide
  · have hlen : event_type_size.length ≤ t := by
      have : event_type_size.length = 11 := rfl
      omega
    rw [List.getD_eq_default _ _ hlen] at h
    omega

theorem fixed_len_ge_four (mem : List Nat) (c : Nat) (we : Int) (h : 4 < hdr_size mem c) :
    4 ≤ fixed_len mem c we := by
  have h8 := event_type_size_step (hdr_type mem c) h
  unfold fixed_len IW_EV_LCP_PK_LEN IW_EV_POINT_OFF
  unfold hdr_size at h8 ⊢
  split <;> omega

/-- A loop that ends within an iteration bound ends the same way within
any larger one. -/
theorem scan_loop_more_fuel (mem : List Nat) (we : Int) :
    ∀ (fuel : Nat) (s : scan_state), scan_loop mem we fuel s ≠ .out_of_fuel →
      ∀ extra, scan_loop mem we (fuel + extra) s = scan_loop mem we fuel s := by
  intro fuel
  induction fuel with
  | zero => intro s h; exact absurd rfl h
  | succ fuel ih =>
    intro s h extra
    rw [show fuel + 1 + extra = (fuel + extra) + 1 by omega]
    rw [scan_loop] at h
    rw [scan_loop]
    conv_rhs => rw [scan_loop]
    by_cases hpos : (iw_extract_event_stream mem s.stream s.iwe we).ret > 0
    · rw [if_pos hpos] at h
      rw [if_pos hpos, if_pos hpos]
      cases hb : scan_body mem s (iw_extract_event_stream mem s.stream s.iwe we) with
      | none => rfl
      | some s1 =>
        rw [hb] at h
        exact ih s1 h extra
    · rw [if_neg hpos, if_neg hpos]

end Wavemon
